import Mathlib

/-!
# Verification of the V8 x64/Maglev code-generation backend (shallow embedding)

This file embeds, in Lean 4, the algorithms of
`src/compiler/backend/x64/code-generator-x64.cc` and
`src/maglev/maglev-code-generator.cc` that the specification's claims are
about, and proves (or refutes) those claims.

The embedding is shallow: C++ member functions become Lean functions with the
mutated object state passed and returned explicitly; emitted machine
instructions become values of small inductive instruction types; assembler
labels and conditional jumps become structured control flow.
-/

namespace V8Backend

/-! ## Operand resolver: `X64OperandConverter::MemoryOperand` and `ScaleFor`

From `code-generator-x64.cc` lines 77-176.  The `AddressingMode` enum itself
is declared in `instruction-codes-x64.h` / `instruction-codes.h` (outside the
given sources); its constructors and their order are reproduced from the uses
in `MemoryOperand` and the spec's closed set of addressing modes, with
`kMode_None` first and the numeric codes contiguous so that
`ScaleFor(one, mode) = mode - one` decodes the scale exactly as the source's
`static_cast<int>(mode - one)` does. -/

inductive AddressingMode where
  | kMode_None
  | kMode_MR | kMode_MRI
  | kMode_MR1 | kMode_MR2 | kMode_MR4 | kMode_MR8
  | kMode_MR1I | kMode_MR2I | kMode_MR4I | kMode_MR8I
  | kMode_M1 | kMode_M2 | kMode_M4 | kMode_M8
  | kMode_M1I | kMode_M2I | kMode_M4I | kMode_M8I
  | kMode_Root | kMode_MCR | kMode_MCRI
  deriving DecidableEq, Repr

open AddressingMode

/-- Numeric code of an addressing mode (its position in the enum). -/
def AddressingMode.code : AddressingMode → Nat
  | kMode_None => 0
  | kMode_MR => 1 | kMode_MRI => 2
  | kMode_MR1 => 3 | kMode_MR2 => 4 | kMode_MR4 => 5 | kMode_MR8 => 6
  | kMode_MR1I => 7 | kMode_MR2I => 8 | kMode_MR4I => 9 | kMode_MR8I => 10
  | kMode_M1 => 11 | kMode_M2 => 12 | kMode_M4 => 13 | kMode_M8 => 14
  | kMode_M1I => 15 | kMode_M2I => 16 | kMode_M4I => 17 | kMode_M8I => 18
  | kMode_Root => 19 | kMode_MCR => 20 | kMode_MCRI => 21

/-- `ScaleFactor` from the assembler: `times_1 = 0`, `times_2 = 1`,
`times_4 = 2`, `times_8 = 3` (the four `static_assert`s at lines 84-87). -/
def ScaleFactor := Fin 4
  deriving DecidableEq

/-- The multiplier a scale factor denotes: `times_1 .. times_8` are ×1/×2/×4/×8. -/
def ScaleFactor.multiplier (s : ScaleFactor) : Nat := 2 ^ s.val

/-- `X64OperandConverter::ScaleFor` (lines 83-91).  `scale = mode - one`,
with the `DCHECK(scale >= 0 && scale < 4)` modelled by returning `none` when
the difference is out of the 2-bit range. -/
def ScaleFor (one mode : AddressingMode) : Option ScaleFactor :=
  if h : mode.code - one.code < 4 ∧ one.code ≤ mode.code then
    some ⟨mode.code - one.code, h.1⟩
  else
    none

/-- An instruction's input operands, as `MemoryOperand` reads them:
`InputRegister(n)` requires a register at index `n`, `InputInt32(n)` an
immediate. -/
inductive InstrOperand where
  | regOp (code : Nat)
  | immOp (v : Int)
  deriving DecidableEq, Repr

/-- The concrete memory reference (`Operand`) the resolver returns:
base register and/or index register with scale, plus displacement.
`baseFixed` covers the fixed bases `kRootRegister` and
`kPtrComprCageBaseRegister`. -/
inductive MemRef where
  | baseDisp (base : Nat) (disp : Int)
  | baseIndexScaleDisp (base : Nat) (index : Nat) (scale : ScaleFactor) (disp : Int)
  | indexScaleDisp (index : Nat) (scale : ScaleFactor) (disp : Int)
  | rootDisp (disp : Int)
  | cageBaseIndexDisp (index : Nat) (scale : ScaleFactor) (disp : Int)
  deriving DecidableEq

/-- `InputRegister(NextOffset(offset))`: read a register operand at the cursor
and advance the cursor by one. -/
def inputRegister (ops : List InstrOperand) (off : Nat) : Option (Nat × Nat) :=
  match ops.get? off with
  | some (.regOp c) => some (c, off + 1)
  | _ => none

/-- `InputInt32(NextOffset(offset))`: read an immediate operand at the cursor
and advance the cursor by one. -/
def inputInt32 (ops : List InstrOperand) (off : Nat) : Option (Int × Nat) :=
  match ops.get? off with
  | some (.immOp v) => some (v, off + 1)
  | _ => none

/-- `X64OperandConverter::MemoryOperand(size_t* offset)` (lines 93-172).
Takes the instruction's addressing mode and operand list plus the cursor,
returns the decoded memory reference and the advanced cursor.  The two
`UNREACHABLE()` cases (`kMode_None`, and `kMode_M2` which must be encoded as
`kMode_MR`) are modelled as `none`, as is an operand list without the slots
the mode requires. -/
def MemoryOperand (mode : AddressingMode) (ops : List InstrOperand) (off : Nat) :
    Option (MemRef × Nat) :=
  match mode with
  | kMode_MR => do
      let (base, off) ← inputRegister ops off
      pure (.baseDisp base 0, off)
  | kMode_MRI => do
      let (base, off) ← inputRegister ops off
      let (disp, off) ← inputInt32 ops off
      pure (.baseDisp base disp, off)
  | kMode_MR1 | kMode_MR2 | kMode_MR4 | kMode_MR8 => do
      let (base, off) ← inputRegister ops off
      let (index, off) ← inputRegister ops off
      let scale ← ScaleFor kMode_MR1 mode
      pure (.baseIndexScaleDisp base index scale 0, off)
  | kMode_MR1I | kMode_MR2I | kMode_MR4I | kMode_MR8I => do
      let (base, off) ← inputRegister ops off
      let (index, off) ← inputRegister ops off
      let scale ← ScaleFor kMode_MR1I mode
      let (disp, off) ← inputInt32 ops off
      pure (.baseIndexScaleDisp base index scale disp, off)
  | kMode_M1 => do
      let (base, off) ← inputRegister ops off
      pure (.baseDisp base 0, off)
  | kMode_M2 => none
  | kMode_M4 | kMode_M8 => do
      let (index, off) ← inputRegister ops off
      let scale ← ScaleFor kMode_M1 mode
      pure (.indexScaleDisp index scale 0, off)
  | kMode_M1I | kMode_M2I | kMode_M4I | kMode_M8I => do
      let (index, off) ← inputRegister ops off
      let scale ← ScaleFor kMode_M1I mode
      let (disp, off) ← inputInt32 ops off
      pure (.indexScaleDisp index scale disp, off)
  | kMode_Root => do
      let (disp, off) ← inputInt32 ops off
      pure (.rootDisp disp, off)
  | kMode_MCR => do
      let (index, off) ← inputRegister ops off
      pure (.cageBaseIndexDisp index ⟨0, by omega⟩ 0, off)
  | kMode_MCRI => do
      let (index, off) ← inputRegister ops off
      let (disp, off) ← inputInt32 ops off
      pure (.cageBaseIndexDisp index ⟨0, by omega⟩ disp, off)
  | kMode_None => none

/-- The number of operand slots each decodable mode consumes, per the spec's
closed set: 1 for bare base/index/root-displacement/compressed-base forms, 2
when a displacement or an index is added, 3 for base+index+displacement. -/
def AddressingMode.slotsConsumed : AddressingMode → Nat
  | kMode_MR => 1 | kMode_MRI => 2
  | kMode_MR1 | kMode_MR2 | kMode_MR4 | kMode_MR8 => 2
  | kMode_MR1I | kMode_MR2I | kMode_MR4I | kMode_MR8I => 3
  | kMode_M1 => 1 | kMode_M2 => 0 | kMode_M4 | kMode_M8 => 1
  | kMode_M1I | kMode_M2I | kMode_M4I | kMode_M8I => 2
  | kMode_Root => 1 | kMode_MCR => 1 | kMode_MCRI => 2
  | kMode_None => 0

/-- The scale multiplier a decoded memory reference uses, if it has one. -/
def MemRef.scaleMultiplier : MemRef → Option Nat
  | .baseIndexScaleDisp _ _ s _ => some s.multiplier
  | .indexScaleDisp _ s _ => some s.multiplier
  | .cageBaseIndexDisp _ s _ => some s.multiplier
  | _ => none

/-- The scale multiplier each addressing mode's 2-bit scale field denotes:
field values 0-3 map to ×1/×2/×4/×8; the compressed-base modes use a fixed
field value 0 (×1); unscaled modes have no scale field. -/
def AddressingMode.scaleTable : AddressingMode → Option Nat
  | kMode_MR1 => some 1 | kMode_MR2 => some 2
  | kMode_MR4 => some 4 | kMode_MR8 => some 8
  | kMode_MR1I => some 1 | kMode_MR2I => some 2
  | kMode_MR4I => some 4 | kMode_MR8I => some 8
  | kMode_M4 => some 4 | kMode_M8 => some 8
  | kMode_M1I => some 1 | kMode_M2I => some 2
  | kMode_M4I => some 4 | kMode_M8I => some 8
  | kMode_MCR => some 1 | kMode_MCRI => some 1
  | _ => none

end V8Backend

namespace V8Backend

/-- A successful `InputRegister(NextOffset(offset))` advances the cursor by
exactly one slot. -/
theorem inputRegister_advance {ops : List InstrOperand} {off : Nat} {c o : Nat}
    (h : inputRegister ops off = some (c, o)) : o = off + 1 := by
  unfold inputRegister at h
  rcases hg : ops.get? off with _ | op
  · rw [hg] at h; exact absurd h (by simp)
  · rw [hg] at h
    cases op
    · exact (Prod.mk.injEq _ _ _ _ ▸ Option.some_inj.mp h).2.symm
    · exact absurd h (by simp)

/-- A successful `InputInt32(NextOffset(offset))` advances the cursor by
exactly one slot. -/
theorem inputInt32_advance {ops : List InstrOperand} {off : Nat} {v : Int}
    {o : Nat} (h : inputInt32 ops off = some (v, o)) : o = off + 1 := by
  unfold inputInt32 at h
  rcases hg : ops.get? off with _ | op
  · rw [hg] at h; exact absurd h (by simp)
  · rw [hg] at h
    cases op
    · exact absurd h (by simp)
    · exact (Prod.mk.injEq _ _ _ _ ▸ Option.some_inj.mp h).2.symm

/-- `ScaleFor` decodes the 2-bit scale field (the enum-code difference) as the
multiplier `2 ^ field`, i.e. field values 0-3 yield ×1/×2/×4/×8. -/
theorem scaleFor_multiplier {one mode : AddressingMode} {s : ScaleFactor}
    (h : ScaleFor one mode = some s) :
    s.multiplier = 2 ^ (mode.code - one.code) := by
  unfold ScaleFor at h
  split at h
  · cases Option.some_inj.mp h; rfl
  · exact absurd h (by simp)

/-- C4: whenever `MemoryOperand` succeeds (the mode has its required
operand-list precedent), the cursor advances by exactly the number of operand
slots the mode consumes, which is between 1 and 3, and the 2-bit scale field
is decoded as ×1/×2/×4/×8 per `scaleTable`; `kMode_None` (a mode without the
operand slots it requires) never decodes. -/
theorem memoryOperand_cursor_and_scale (mode : AddressingMode)
    (ops : List InstrOperand) (off : Nat) (ref : MemRef) (off' : Nat) :
    (MemoryOperand mode ops off = some (ref, off') →
      off' = off + mode.slotsConsumed ∧
      1 ≤ mode.slotsConsumed ∧ mode.slotsConsumed ≤ 3 ∧
      ref.scaleMultiplier = mode.scaleTable) ∧
    MemoryOperand .kMode_None ops off = none := by
  constructor
  · intro h
    cases mode <;>
      simp only [MemoryOperand, bind, Option.bind_eq_some, Option.pure_def,
        Option.some_inj] at h
    case kMode_None => exact Option.noConfusion h
    case kMode_M2 => exact Option.noConfusion h
    case kMode_MR =>
      obtain ⟨⟨a, o1⟩, h1, heq⟩ := h
      obtain ⟨h2, h3⟩ := Prod.mk.injEq .. ▸ heq
      subst h2; subst h3
      have e1 := inputRegister_advance h1
      exact ⟨by simp only [AddressingMode.slotsConsumed]; omega, by decide, by decide, by
        simp [MemRef.scaleMultiplier, AddressingMode.scaleTable]⟩
    case kMode_M1 =>
      obtain ⟨⟨a, o1⟩, h1, heq⟩ := h
      obtain ⟨h2, h3⟩ := Prod.mk.injEq .. ▸ heq
      subst h2; subst h3
      have e1 := inputRegister_advance h1
      exact ⟨by simp only [AddressingMode.slotsConsumed]; omega, by decide, by decide, by
        simp [MemRef.scaleMultiplier, AddressingMode.scaleTable]⟩
    case kMode_MCR =>
      obtain ⟨⟨a, o1⟩, h1, heq⟩ := h
      obtain ⟨h2, h3⟩ := Prod.mk.injEq .. ▸ heq
      subst h2; subst h3
      have e1 := inputRegister_advance h1
      exact ⟨by simp only [AddressingMode.slotsConsumed]; omega, by decide, by decide, by
        simp [MemRef.scaleMultiplier, AddressingMode.scaleTable,
          ScaleFactor.multiplier]⟩
    case kMode_Root =>
      obtain ⟨⟨a, o1⟩, h1, heq⟩ := h
      obtain ⟨h2, h3⟩ := Prod.mk.injEq .. ▸ heq
      subst h2; subst h3
      have e1 := inputInt32_advance h1
      exact ⟨by simp only [AddressingMode.slotsConsumed]; omega, by decide, by decide, by
        simp [MemRef.scaleMultiplier, AddressingMode.scaleTable]⟩
    case kMode_MRI =>
      obtain ⟨⟨a, o1⟩, h1, ⟨b, o2⟩, h2, heq⟩ := h
      obtain ⟨h3, h4⟩ := Prod.mk.injEq .. ▸ heq
      subst h3; subst h4
      have e1 := inputRegister_advance h1
      have e2 := inputInt32_advance h2
      exact ⟨by simp only [AddressingMode.slotsConsumed]; omega, by decide, by decide, by
        simp [MemRef.scaleMultiplier, AddressingMode.scaleTable]⟩
    case kMode_MCRI =>
      obtain ⟨⟨a, o1⟩, h1, ⟨b, o2⟩, h2, heq⟩ := h
      obtain ⟨h3, h4⟩ := Prod.mk.injEq .. ▸ heq
      subst h3; subst h4
      have e1 := inputRegister_advance h1
      have e2 := inputInt32_advance h2
      exact ⟨by simp only [AddressingMode.slotsConsumed]; omega, by decide, by decide, by
        simp [MemRef.scaleMultiplier, AddressingMode.scaleTable,
          ScaleFactor.multiplier]⟩
    case kMode_MR1 | kMode_MR2 | kMode_MR4 | kMode_MR8 =>
      obtain ⟨⟨a, o1⟩, h1, ⟨b, o2⟩, h2, s, hs, heq⟩ := h
      obtain ⟨h3, h4⟩ := Prod.mk.injEq .. ▸ heq
      subst h3; subst h4
      have e1 := inputRegister_advance h1
      have e2 := inputRegister_advance h2
      have e3 := scaleFor_multiplier hs
      exact ⟨by simp only [AddressingMode.slotsConsumed]; omega, by decide, by decide, by
        simp only [MemRef.scaleMultiplier, AddressingMode.scaleTable,
          AddressingMode.code, e3]
        rfl⟩
    case kMode_M4 | kMode_M8 =>
      obtain ⟨⟨a, o1⟩, h1, s, hs, heq⟩ := h
      obtain ⟨h2, h3⟩ := Prod.mk.injEq .. ▸ heq
      subst h2; subst h3
      have e1 := inputRegister_advance h1
      have e3 := scaleFor_multiplier hs
      exact ⟨by simp only [AddressingMode.slotsConsumed]; omega, by decide, by decide, by
        simp only [MemRef.scaleMultiplier, AddressingMode.scaleTable,
          AddressingMode.code, e3]
        rfl⟩
    case kMode_MR1I | kMode_MR2I | kMode_MR4I | kMode_MR8I =>
      obtain ⟨⟨a, o1⟩, h1, ⟨b, o2⟩, h2, s, hs, ⟨c, o3⟩, h3, heq⟩ := h
      obtain ⟨h4, h5⟩ := Prod.mk.injEq .. ▸ heq
      subst h4; subst h5
      have e1 := inputRegister_advance h1
      have e2 := inputRegister_advance h2
      have e3 := inputInt32_advance h3
      have e4 := scaleFor_multiplier hs
      exact ⟨by simp only [AddressingMode.slotsConsumed]; omega, by decide, by decide, by
        simp only [MemRef.scaleMultiplier, AddressingMode.scaleTable,
          AddressingMode.code, e4]
        rfl⟩
    case kMode_M1I | kMode_M2I | kMode_M4I | kMode_M8I =>
      obtain ⟨⟨a, o1⟩, h1, s, hs, ⟨c, o3⟩, h3, heq⟩ := h
      obtain ⟨h4, h5⟩ := Prod.mk.injEq .. ▸ heq
      subst h4; subst h5
      have e1 := inputRegister_advance h1
      have e3 := inputInt32_advance h3
      have e4 := scaleFor_multiplier hs
      exact ⟨by simp only [AddressingMode.slotsConsumed]; omega, by decide, by decide, by
        simp only [MemRef.scaleMultiplier, AddressingMode.scaleTable,
          AddressingMode.code, e4]
        rfl⟩
  · rfl

/-- Witness for C4 at a concrete input: decoding `kMode_MR2I` from the
operand list `[reg 3, reg 4, imm 7]` advances the cursor from 0 to 3,
consuming exactly 3 slots, and decodes scale field 1 as ×2. -/
theorem memoryOperand_cursor_and_scale_witness :
    3 = 0 + (AddressingMode.kMode_MR2I).slotsConsumed ∧
    1 ≤ (AddressingMode.kMode_MR2I).slotsConsumed ∧
    (AddressingMode.kMode_MR2I).slotsConsumed ≤ 3 ∧
    (MemRef.baseIndexScaleDisp 3 4 ⟨1, by omega⟩ 7).scaleMultiplier =
      (AddressingMode.kMode_MR2I).scaleTable :=
  (memoryOperand_cursor_and_scale .kMode_MR2I
    [.regOp 3, .regOp 4, .immOp 7] 0
    (.baseIndexScaleDisp 3 4 ⟨1, by omega⟩ 7) 3).1 (by decide)

/-! ## Tail-call stack adjustment: `AdjustStackPointerForTailCall`

From `code-generator-x64.cc` lines 1129-1164.  The function computes a signed
stack-slot delta and emits either an `AllocateStackSpace` (grow) or an
`addq rsp, imm` (shrink); it touches no other register.  The frame constants
`kReturnAddressStackSlotCount = 1` (one slot for the return address) and
`StandardFrameConstants::kFixedSlotCountAboveFp` come from the x64 frame
headers outside the given sources; the latter is kept as a parameter of the
model. -/

/-- Return-address slot count on x64: the call instruction pushes one slot. -/
def kReturnAddressStackSlotCount : Nat := 1

/-- The stack-pointer actions `AdjustStackPointerForTailCall` can emit.  It
only ever moves `rsp`; no general-purpose or floating-point register is
written. -/
inductive SpAction where
  | allocateStackSpace (bytes : Int)
  | addRspImmediate (bytes : Int)
  deriving DecidableEq, Repr

/-- Size of a stack slot in bytes (`kSystemPointerSize` on x64). -/
def kSystemPointerSize : Int := 8

/-- The inputs `AdjustStackPointerForTailCall` reads: whether the call
descriptor has the `kIsTailCallForTierUp` flag, the frame's total slot count,
and the frame-access state's SP-to-FP slot count. -/
structure TailCallInput where
  isTailCallForTierUp : Bool
  totalFrameSlotCount : Nat
  spToFPSlotCount : Int
  fixedSlotCountAboveFp : Int

/-- `stack_slot_delta` as `AdjustStackPointerForTailCall` (lines 1135-1155)
computes it: for a `kIsTailCallForTierUp` call, minus (total frame slots −
return-address slot); otherwise the callee's first unused slot offset minus
the caller's current SP offset. -/
def tailCallStackSlotDelta (inp : TailCallInput) (newSlotAboveSp : Int) : Int :=
  if inp.isTailCallForTierUp then
    ((inp.totalFrameSlotCount : Int) - (kReturnAddressStackSlotCount : Int))
      * (-1)
  else
    let currentSpOffset := inp.spToFPSlotCount + inp.fixedSlotCountAboveFp
    newSlotAboveSp - currentSpOffset

/-- The emission part of `AdjustStackPointerForTailCall` (lines 1157-1163):
grow the stack for a positive delta, shrink it for a negative delta when
shrinkage is allowed, otherwise emit nothing. -/
def tailCallSpActions (delta : Int) (allowShrinkage : Bool) : List SpAction :=
  if delta > 0 then
    [.allocateStackSpace (delta * kSystemPointerSize)]
  else if allowShrinkage ∧ delta < 0 then
    [.addRspImmediate (-delta * kSystemPointerSize)]
  else
    []

/-- `AdjustStackPointerForTailCall` (lines 1129-1164): the computed delta and
the emitted stack-pointer actions. -/
def AdjustStackPointerForTailCall (inp : TailCallInput)
    (newSlotAboveSp : Int) (allowShrinkage : Bool := true) :
    Int × List SpAction :=
  (tailCallStackSlotDelta inp newSlotAboveSp,
   tailCallSpActions (tailCallStackSlotDelta inp newSlotAboveSp) allowShrinkage)

/-- Net change of `rsp`, in slots, produced by a list of stack-pointer
actions (negative = stack grows downward). -/
def spActionsDeltaSlots (acts : List SpAction) : Int :=
  (acts.map fun a => match a with
    | .allocateStackSpace bytes => bytes / kSystemPointerSize
    | .addRspImmediate bytes => -(bytes / kSystemPointerSize)).sum

/-- C7: for a same-linkage tier-up tail call the delta bypasses the normal
computation and equals minus (total frame slots − return-address slot), which
is ≤ 0 whenever the frame has at least its return-address slot; for every
other tail call the delta is the callee's first unused slot offset minus the
caller's current SP offset; and when shrinkage is allowed a negative delta
shrinks the stack by exactly that many slots, emitting only a stack-pointer
adjustment (no callee-saved register is touched, as the emitted actions can
only move `rsp`). -/
theorem adjustStackPointerForTailCall_delta (inp : TailCallInput)
    (newSlotAboveSp : Int) (allowShrinkage : Bool)
    (hframe : 1 ≤ inp.totalFrameSlotCount) :
    (inp.isTailCallForTierUp = true →
      (AdjustStackPointerForTailCall inp newSlotAboveSp allowShrinkage).1 =
        -((inp.totalFrameSlotCount : Int) - 1) ∧
      (AdjustStackPointerForTailCall inp newSlotAboveSp allowShrinkage).1 ≤ 0) ∧
    (inp.isTailCallForTierUp = false →
      (AdjustStackPointerForTailCall inp newSlotAboveSp allowShrinkage).1 =
        newSlotAboveSp - (inp.spToFPSlotCount + inp.fixedSlotCountAboveFp)) ∧
    (allowShrinkage = true →
      (AdjustStackPointerForTailCall inp newSlotAboveSp allowShrinkage).1 < 0 →
      (AdjustStackPointerForTailCall inp newSlotAboveSp allowShrinkage).2 =
        [.addRspImmediate
          (-(AdjustStackPointerForTailCall inp newSlotAboveSp allowShrinkage).1
            * kSystemPointerSize)] ∧
      spActionsDeltaSlots
        (AdjustStackPointerForTailCall inp newSlotAboveSp allowShrinkage).2 =
        (AdjustStackPointerForTailCall inp newSlotAboveSp allowShrinkage).1) := by
  have htot : (1 : Int) ≤ (inp.totalFrameSlotCount : Int) := by
    exact_mod_cast hframe
  refine ⟨fun ht => ?_, fun ht => ?_, fun hallow hneg => ?_⟩
  · unfold AdjustStackPointerForTailCall tailCallStackSlotDelta
    rw [ht]
    simp only [if_true, kReturnAddressStackSlotCount, Nat.cast_one]
    constructor
    · ring
    · nlinarith
  · unfold AdjustStackPointerForTailCall tailCallStackSlotDelta
    rw [ht]
    simp only [Bool.false_eq_true, if_false]
  · subst hallow
    have hd : (AdjustStackPointerForTailCall inp newSlotAboveSp true).1 =
        tailCallStackSlotDelta inp newSlotAboveSp := rfl
    rw [hd] at hneg
    have hact : (AdjustStackPointerForTailCall inp newSlotAboveSp true).2 =
        [.addRspImmediate
          (-(tailCallStackSlotDelta inp newSlotAboveSp) *
            kSystemPointerSize)] := by
      show tailCallSpActions _ _ = _
      unfold tailCallSpActions
      rw [if_neg (by omega), if_pos ⟨by simp, hneg⟩]
    rw [hact, hd]
    refine ⟨rfl, ?_⟩
    simp only [spActionsDeltaSlots, List.map_cons, List.map_nil,
      List.sum_cons, List.sum_nil, add_zero, kSystemPointerSize]
    omega

/-- Witness for C7 at a concrete input: a non-tier-up tail call with
`newSlotAboveSp = 1`, SP-to-FP slot count 2 and 2 fixed slots above the frame
pointer gets delta `1 - (2 + 2) = -3`. -/
theorem adjustStackPointerForTailCall_delta_witness :
    (TailCallInput.mk false 4 2 2).isTailCallForTierUp = false ∧
    (AdjustStackPointerForTailCall (TailCallInput.mk false 4 2 2) 1 true).1 =
      1 - ((TailCallInput.mk false 4 2 2).spToFPSlotCount +
        (TailCallInput.mk false 4 2 2).fixedSlotCountAboveFp) :=
  ⟨by decide,
    (adjustStackPointerForTailCall_delta (TailCallInput.mk false 4 2 2) 1
      true (by decide)).2.1 (by decide)⟩

/-! ## Write-barrier instrumentation: `kArchStoreWithWriteBarrier` and
`OutOfLineRecordWrite::Generate`

From `code-generator-x64.cc` lines 274-334 (the out-of-line class) and
1541-1580 (the instruction case).  The `RecordWriteMode` enum
(`kValueIsMap < kValueIsPointer < kValueIsEphemeronKey < kValueIsAny`) is
declared in `compiler/backend/instruction-codes.h` outside the given sources;
its order is reproduced so that the source's comparison
`mode > RecordWriteMode::kValueIsPointer` (the "mode allows the value to be a
smi" test) holds exactly for `kValueIsEphemeronKey` and `kValueIsAny`.
Assembler labels and conditional jumps are modelled as structured control
flow over an environment of branch-deciding predicates. -/

inductive RecordWriteMode where
  | kValueIsMap | kValueIsPointer | kValueIsEphemeronKey | kValueIsAny
  deriving DecidableEq, Repr

/-- Numeric value of a `RecordWriteMode` (its position in the enum). -/
def RecordWriteMode.code : RecordWriteMode → Nat
  | .kValueIsMap => 0
  | .kValueIsPointer => 1
  | .kValueIsEphemeronKey => 2
  | .kValueIsAny => 3

/-- The source's `mode > RecordWriteMode::kValueIsPointer` guard: the modes
under which the stored value may still be a smi, requiring the
`JumpIfSmi(value, ool->exit())` fast-path skip. -/
def RecordWriteMode.allowsSmi (m : RecordWriteMode) : Bool :=
  m.code > RecordWriteMode.code .kValueIsPointer

/-- `StubCallMode` (only the distinction the barrier code branches on). -/
inductive StubCallMode where
  | kCallWasmRuntimeStub | kCallBuiltinPointer
  deriving DecidableEq, Repr

/-- The runtime recording routine a write-barrier slow path may invoke. -/
inductive WBRoutine where
  | ephemeronKeyBarrier
  | recordWriteStubWasm
  | recordWriteStub
  deriving DecidableEq, Repr, Fintype

/-- The branch-deciding state of one dynamic execution of the emitted
write-barrier sequence: whether the destination object's page has the
pointers-from-here-are-interesting flag, whether the value's page has the
pointers-to-here-are-interesting (or shared-heap) flag, and whether the
stored value is a smi. -/
structure WBEnv where
  objPageFlagged : Bool
  valPageFlagged : Bool
  valueIsSmi : Bool

/-- Result of one dynamic execution of the emitted sequence: whether the
inline store ran (it always does), and which runtime routine, if any, was
called with which floating-point save mode (`true` = `SaveFPRegsMode::kSave`).
-/
structure WBOutcome where
  storePerformed : Bool
  callMade : Option (WBRoutine × Bool)
  deriving DecidableEq, Repr

/-- `OutOfLineRecordWrite::Generate` (lines 294-321), executed in `env`:
`CheckPageFlag(value, kPointersToHereAreInterestingOrInSharedHeapMask, zero,
exit())` skips the recording routine when the value's page is not flagged;
otherwise the slot address is computed and the routine invoked with
`save_fp_mode = frame()->DidAllocateDoubleRegisters()`; an ephemeron-key
store calls `CallEphemeronKeyBarrier`, a wasm-stub-mode store calls the wasm
record-write stub, and every other store calls
`CallRecordWriteStubSaveRegisters`. -/
def OutOfLineRecordWriteGenerate (mode : RecordWriteMode)
    (didAllocateDoubleRegisters : Bool) (stubMode : StubCallMode)
    (env : WBEnv) : Option (WBRoutine × Bool) :=
  if env.valPageFlagged = false then
    none
  else
    let saveFp := didAllocateDoubleRegisters
    if mode = .kValueIsEphemeronKey then
      some (.ephemeronKeyBarrier, saveFp)
    else if stubMode = .kCallWasmRuntimeStub then
      some (.recordWriteStubWasm, saveFp)
    else
      some (.recordWriteStub, saveFp)

/-- The `kArchStoreWithWriteBarrier` / `kArchAtomicStoreWithWriteBarrier`
instruction case (lines 1541-1580), executed in `env`: emit the store, then
`JumpIfSmi(value, ool->exit())` when the mode allows smis, then
`CheckPageFlag(object, kPointersFromHereAreInterestingMask, not_zero,
ool->entry())`, entering the out-of-line path only when the object's page is
flagged. -/
def AssembleStoreWithWriteBarrier (mode : RecordWriteMode)
    (didAllocateDoubleRegisters : Bool) (stubMode : StubCallMode)
    (env : WBEnv) : WBOutcome :=
  let storePerformed := true
  if mode.allowsSmi ∧ env.valueIsSmi then
    { storePerformed, callMade := none }
  else if env.objPageFlagged then
    { storePerformed,
      callMade :=
        OutOfLineRecordWriteGenerate mode didAllocateDoubleRegisters stubMode
          env }
  else
    { storePerformed, callMade := none }

/-- C6: the runtime recording routine runs only if the object's page has the
pointers-from-here flag and, when the mode allows a smi value, the value is
not a smi; inside the slow path it is skipped unless the value's page has the
pointers-to-here interest; floating-point registers are saved across the call
exactly when the frame allocated double registers; and an ephemeron-key store
calls the distinct `CallEphemeronKeyBarrier` routine instead of the normal
record-write stub. -/
theorem storeWithWriteBarrier_slow_path (mode : RecordWriteMode)
    (dida : Bool) (stubMode : StubCallMode) (env : WBEnv) :
    ((AssembleStoreWithWriteBarrier mode dida stubMode env).callMade.isSome ↔
      env.objPageFlagged = true ∧
      (mode.allowsSmi = true → env.valueIsSmi = false) ∧
      env.valPageFlagged = true) ∧
    (∀ r fp,
      (AssembleStoreWithWriteBarrier mode dida stubMode env).callMade =
        some (r, fp) →
      fp = dida ∧
      (r = .ephemeronKeyBarrier ↔ mode = .kValueIsEphemeronKey)) := by
  cases mode <;> cases dida <;> cases stubMode <;>
    rcases env with ⟨⟨⟩ | ⟨⟩, ⟨⟩ | ⟨⟩, ⟨⟩ | ⟨⟩⟩ <;> decide

/-- Witness for C6 at a concrete input: a `kValueIsAny` store with both page
flags set and a non-smi value in a frame with double registers reaches the
normal record-write stub with floating-point saves. -/
theorem storeWithWriteBarrier_slow_path_witness :
    ((AssembleStoreWithWriteBarrier .kValueIsAny true .kCallBuiltinPointer
        (WBEnv.mk true true false)).callMade.isSome ↔
      (WBEnv.mk true true false).objPageFlagged = true ∧
      ((RecordWriteMode.kValueIsAny).allowsSmi = true →
        (WBEnv.mk true true false).valueIsSmi = false) ∧
      (WBEnv.mk true true false).valPageFlagged = true) ∧
    (∀ r fp,
      (AssembleStoreWithWriteBarrier .kValueIsAny true .kCallBuiltinPointer
        (WBEnv.mk true true false)).callMade = some (r, fp) →
      fp = true ∧
      (r = .ephemeronKeyBarrier ↔
        RecordWriteMode.kValueIsAny = .kValueIsEphemeronKey)) :=
  storeWithWriteBarrier_slow_path .kValueIsAny true .kCallBuiltinPointer
    (WBEnv.mk true true false)

/-! ## Out-of-line code manager: `MaglevCodeGenerator::EmitDeferredCode`

From `maglev-code-generator.cc` lines 1229-1240: the deferred-code queue is
drained by an outer loop that, while the queue is nonempty, takes the whole
queue (`TakeDeferredCode`, which clears it) and generates every block in it;
generating a block may push further blocks, which the next outer iteration
then also generates. -/

/-- Modelled from the spec: the bodies of the `DeferredCodeInfo::Generate`
closures live in `maglev-ir.cc` / the maglev assembler, outside the given
sources.  Per the spec, "generating a block's body may itself enqueue further
deferred blocks, e.g. a trap block that also needs a write barrier", so a
generator is a function from a block to the list of blocks it enqueues, and
the enqueue relation is well-founded (each enqueued block is of a strictly
simpler kind), expressed by a rank that every enqueued block strictly
decreases. -/
def DeferredGenerator (Item : Type) : Type := Item → List Item

/-- `MaglevCodeGenerator::EmitDeferredCode` (lines 1229-1240): loop over
`deferred_code()` multiple times, clearing the vector on each outer loop, so
that deferred code can itself emit deferred code.  Returns the blocks
generated in order, the final queue, and the number of outer (drain)
iterations.  `fuel` bounds the iterations so the definition is total; the
theorems below show any fuel exceeding every queued block's rank gives the
loop's true behaviour, so the fuel never cuts the loop short. -/
def EmitDeferredCode {Item : Type} (gen : DeferredGenerator Item) :
    Nat → List Item → List Item × List Item × Nat
  | 0, queue => ([], queue, 0)
  | fuel + 1, queue =>
    if queue.isEmpty then
      ([], queue, 0)
    else
      let out := EmitDeferredCode gen fuel (queue.flatMap gen)
      (queue ++ out.1, out.2.1, out.2.2 + 1)

/-- With enough fuel, the drain loop's result does not depend on the fuel:
the loop genuinely terminates. -/
theorem emitDeferredCode_fuel_irrelevant {Item : Type}
    (gen : DeferredGenerator Item) (μ : Item → Nat)
    (H : ∀ i j, j ∈ gen i → μ j < μ i) :
    ∀ fuel₁ fuel₂ (queue : List Item),
      (∀ i ∈ queue, μ i < fuel₁) → (∀ i ∈ queue, μ i < fuel₂) →
      EmitDeferredCode gen fuel₁ queue = EmitDeferredCode gen fuel₂ queue := by
  intro fuel₁
  induction fuel₁ with
  | zero =>
    intro fuel₂ queue h₁ h₂
    have hq : queue = [] := by
      cases queue with
      | nil => rfl
      | cons a t => exact absurd (h₁ a (by simp)) (by omega)
    subst hq
    cases fuel₂ <;> rfl
  | succ f ih =>
    intro fuel₂ queue h₁ h₂
    cases fuel₂ with
    | zero =>
      have hq : queue = [] := by
        cases queue with
        | nil => rfl
        | cons a t => exact absurd (h₂ a (by simp)) (by omega)
      subst hq
      rfl
    | succ f₂ =>
      show (if queue.isEmpty then _ else _) = (if queue.isEmpty then _ else _)
      rcases hq : queue.isEmpty with _ | _
      · simp only [hq, Bool.false_eq_true, if_false]
        have hnext : ∀ j ∈ queue.flatMap gen, μ j < f := by
          intro j hj
          obtain ⟨i, hi, hji⟩ := List.mem_flatMap.mp hj
          exact Nat.lt_of_lt_of_le (H i j hji) (Nat.lt_succ_iff.mp (h₁ i hi))
        have hnext₂ : ∀ j ∈ queue.flatMap gen, μ j < f₂ := by
          intro j hj
          obtain ⟨i, hi, hji⟩ := List.mem_flatMap.mp hj
          exact Nat.lt_of_lt_of_le (H i j hji) (Nat.lt_succ_iff.mp (h₂ i hi))
        rw [ih f₂ (queue.flatMap gen) hnext hnext₂]
      · simp [hq]

/-- C5: with a well-founded generator (each enqueued block has strictly
smaller rank, per the spec's block-kind hierarchy), the drain loop of
`EmitDeferredCode` terminates in at most `fuel` outer iterations, the final
deferred-code queue is empty, every block in the initial queue is generated,
and every block a generated block enqueues is itself generated (the queue is
re-taken whole on each outer iteration). -/
theorem emitDeferredCode_drains {Item : Type}
    (gen : DeferredGenerator Item) (μ : Item → Nat)
    (H : ∀ i j, j ∈ gen i → μ j < μ i) (fuel : Nat) (queue : List Item)
    (hfuel : ∀ i ∈ queue, μ i < fuel) :
    (EmitDeferredCode gen fuel queue).2.1 = [] ∧
    (∀ i ∈ queue, i ∈ (EmitDeferredCode gen fuel queue).1) ∧
    (∀ i ∈ (EmitDeferredCode gen fuel queue).1, ∀ j ∈ gen i,
      j ∈ (EmitDeferredCode gen fuel queue).1) ∧
    (EmitDeferredCode gen fuel queue).2.2 ≤ fuel := by
  induction fuel generalizing queue with
  | zero =>
    have hq : queue = [] := by
      cases queue with
      | nil => rfl
      | cons a t => exact absurd (hfuel a (by simp)) (by omega)
    subst hq
    exact ⟨rfl, by simp, by simp [EmitDeferredCode], by simp [EmitDeferredCode]⟩
  | succ f ih =>
    rcases hq : queue.isEmpty with _ | _
    · have hnext : ∀ j ∈ queue.flatMap gen, μ j < f := by
        intro j hj
        obtain ⟨i, hi, hji⟩ := List.mem_flatMap.mp hj
        exact Nat.lt_of_lt_of_le (H i j hji) (Nat.lt_succ_iff.mp (hfuel i hi))
      obtain ⟨ih1, ih2, ih3, ih4⟩ := ih (queue.flatMap gen) hnext
      have hstep : EmitDeferredCode gen (f + 1) queue =
          (queue ++ (EmitDeferredCode gen f (queue.flatMap gen)).1,
           (EmitDeferredCode gen f (queue.flatMap gen)).2.1,
           (EmitDeferredCode gen f (queue.flatMap gen)).2.2 + 1) := by
        show (if queue.isEmpty then _ else _) = _
        simp [hq]
      rw [hstep]
      refine ⟨ih1, ?_, ?_, by simpa using ih4⟩
      · intro i hi
        simp [hi]
      · intro i hi j hj
        rcases List.mem_append.mp hi with hiq | hir
        · exact List.mem_append_right _
            (ih2 j (List.mem_flatMap.mpr ⟨i, hiq, hj⟩))
        · exact List.mem_append_right _ (ih3 i hir j hj)
    · have hqnil : queue = [] := List.isEmpty_iff.mp hq
      subst hqnil
      exact ⟨rfl, by simp, by simp [EmitDeferredCode], by simp [EmitDeferredCode]⟩

/-- Witness for C5 at a concrete input: blocks are naturals, block `n + 1`
enqueues the single block `n` (rank = the block itself), and the queue `[2]`
drains within 3 iterations, generating every block and leaving the queue
empty. -/
theorem emitDeferredCode_drains_witness :
    (EmitDeferredCode (fun n => if n = 0 then ([] : List Nat) else [n - 1])
      3 [2]).2.1 = [] ∧
    (∀ i ∈ ([2] : List Nat),
      i ∈ (EmitDeferredCode
        (fun n => if n = 0 then ([] : List Nat) else [n - 1]) 3 [2]).1) := by
  have H : ∀ i j : Nat,
      j ∈ (fun n => if n = 0 then ([] : List Nat) else [n - 1]) i →
      id j < id i := by
    intro i j hj
    by_cases h0 : i = 0
    · simp [h0] at hj
    · simp only [h0, if_false] at hj
      simp only [List.mem_singleton] at hj
      subst hj
      simp only [id]
      omega
  have h := emitDeferredCode_drains
    (fun n => if n = 0 then ([] : List Nat) else [n - 1]) id H 3 [2]
    (by intro i hi; simp at hi; subst hi; decide)
  exact ⟨h.1, h.2.1⟩

/-! ## Frame construction and destruction: `AssembleConstructFrame` and
`AssembleReturn`

From `code-generator-x64.cc` lines 4839-4963 (construction) and 4965-5075
(return).  The machine is modelled at stack-slot granularity: the stack is a
list of 8-byte cells with the head at the stack pointer, so the stack pointer
is the (implicit) list length; `rbp` and the general-purpose registers hold
cells; XMM registers hold a pair of cells (16 bytes).  `Prologue()` /
`StubPrologue()` live in the macro assembler outside the given sources; all
three prologue forms (C function: nothing further; JS: context, function and
argument count; stub: the frame-type marker) start with `pushq rbp; movq rbp,
rsp` followed by further pushes, modelled by the `prologueExtras` cell list.
The claim's round trip concerns the restore part of `AssembleReturn` (through
`AssembleDeconstructFrame`); the final `Ret` then pops the caller's return
address and arguments. -/

/-- One 8-byte stack cell: an abstract value, a saved stack position (the
frame-pointer chain), or an uninitialized cell from `AllocateStackSpace`. -/
inductive Cell (V : Type) where
  | val (v : V)
  | ptr (n : Nat)
  | undef
  deriving DecidableEq, Repr

/-- The frame descriptor `AssembleConstructFrame` / `AssembleReturn` read:
prologue-specific pushes, the spill-slot count remaining after callee saves
and return slots are subtracted (lines 4931-4937), the callee-saved
general-purpose registers (`CalleeSavedRegisters`, in ascending `RegList`
order), the callee-saved XMM registers (`CalleeSavedFPRegisters`), and the
return-slot count. -/
structure FrameDescriptor (V : Type) where
  prologueExtras : List (Cell V)
  spillSlots : Nat
  saves : List Nat
  savesFp : List Nat
  returnSlots : Nat

/-- The machine state the frame sequences act on. -/
structure FrameMachine (V : Type) where
  stack : List (Cell V)
  rbp : Cell V
  regs : Nat → Cell V
  xmms : Nat → Cell V × Cell V

/-- `pushq`: push one cell. -/
def FrameMachine.push {V : Type} (m : FrameMachine V) (c : Cell V) :
    FrameMachine V :=
  { m with stack := c :: m.stack }

/-- `AllocateStackSpace(slots * kSystemPointerSize)`: uninitialized cells. -/
def FrameMachine.alloc {V : Type} (m : FrameMachine V) (slots : Nat) :
    FrameMachine V :=
  { m with stack := List.replicate slots .undef ++ m.stack }

/-- `addq rsp, slots * kSystemPointerSize`: discard cells. -/
def FrameMachine.dropSlots {V : Type} (m : FrameMachine V) (slots : Nat) :
    FrameMachine V :=
  { m with stack := m.stack.drop slots }

/-- `popq reg`: load the top cell into a general-purpose register. -/
def FrameMachine.popReg {V : Type} (m : FrameMachine V) (r : Nat) :
    FrameMachine V :=
  { m with regs := Function.update m.regs r (m.stack.headD .undef),
           stack := m.stack.tail }

/-- The cells the XMM save area holds after
`AllocateStackSpace(saves_fp_count * kQuadWordSize)` followed by
`Movdqu(Operand(rsp, kQuadWordSize * slot_idx), reg)` for each register in
ascending `slot_idx` order (lines 4940-4951): register `k`'s two halves
occupy cells `2k` and `2k + 1` from the stack pointer. -/
def fpSaveCells {V : Type} (xm : Nat → Cell V × Cell V) (rs : List Nat) :
    List (Cell V) :=
  rs.flatMap fun r => [(xm r).1, (xm r).2]

/-- The XMM restore loop (lines 4983-4988):
`Movdqu(reg, Operand(rsp, kQuadWordSize * slot_idx))` for each saved register
in ascending `slot_idx` order. -/
def readFpSaves {V : Type} : List Nat → Nat → FrameMachine V → FrameMachine V
  | [], _, m => m
  | r :: rest, idx, m =>
      let pair := (m.stack.getD (2 * idx) Cell.undef,
        m.stack.getD (2 * idx + 1) Cell.undef)
      readFpSaves rest (idx + 1)
        { m with xmms := Function.update m.xmms r pair }

/-- `CodeGenerator::AssembleConstructFrame` (lines 4839-4963), non-OSR,
non-wasm path: prologue (`pushq rbp; movq rbp, rsp`, then the
prologue-specific pushes), spill-slot allocation, XMM callee saves, scalar
callee saves pushed in reversed `RegList` order (line 4954), and return-slot
allocation. -/
def execConstructFrame {V : Type} (fd : FrameDescriptor V)
    (m : FrameMachine V) : FrameMachine V :=
  let m1 := m.push m.rbp
  let m2 := { m1 with rbp := .ptr m1.stack.length }
  let m3 := { m2 with stack := fd.prologueExtras.reverse ++ m2.stack }
  let m4 := m3.alloc fd.spillSlots
  let m5 := { m4 with stack := fpSaveCells m4.xmms fd.savesFp ++ m4.stack }
  let m6 := fd.saves.reverse.foldl (fun acc r => acc.push (acc.regs r)) m5
  m6.alloc fd.returnSlots

/-- The scalar-restore step of `CodeGenerator::AssembleReturn` (lines
4968-4978): only when `CalleeSavedRegisters` is nonempty, pop the return-slot
area (`addq rsp, returns * kSystemPointerSize`) and then pop each saved
register in `RegList` order. -/
def restoreScalarSaves {V : Type} (fd : FrameDescriptor V)
    (m : FrameMachine V) : FrameMachine V :=
  if fd.saves.isEmpty then m
  else fd.saves.foldl (fun acc r => acc.popReg r) (m.dropSlots fd.returnSlots)

/-- The XMM-restore step of `CodeGenerator::AssembleReturn` (lines
4979-4991): only when `CalleeSavedFPRegisters` is nonempty, reload each saved
XMM register from its save slot and then drop the save area. -/
def restoreFpSaves {V : Type} (fd : FrameDescriptor V) (m : FrameMachine V) :
    FrameMachine V :=
  if fd.savesFp.isEmpty then m
  else (readFpSaves fd.savesFp 0 m).dropSlots (2 * fd.savesFp.length)

/-- `CodeGenerator::AssembleDeconstructFrame` (lines 1114-1118):
`movq rsp, rbp; popq rbp`. -/
def deconstructFrame {V : Type} (m : FrameMachine V) : FrameMachine V :=
  let m3 :=
    match m.rbp with
    | .ptr p => { m with stack := m.stack.drop (m.stack.length - p) }
    | _ => m
  { m3 with rbp := m3.stack.headD .undef, stack := m3.stack.tail }

/-- The restore part of `CodeGenerator::AssembleReturn` (lines 4965-4991)
followed by `AssembleDeconstructFrame`; the final `Ret` (which pops the
caller's return address and argument slots) is outside the round trip the
claim states. -/
def execAssembleReturnRestore {V : Type} (fd : FrameDescriptor V)
    (m : FrameMachine V) : FrameMachine V :=
  deconstructFrame (restoreFpSaves fd (restoreScalarSaves fd m))

/-- Pushing the registers in `rs` (in that order) leaves the registers alone
and prepends their values in reverse order. -/
theorem pushRegs_spec {V : Type} (rs : List Nat) (m : FrameMachine V) :
    rs.foldl (fun acc r => acc.push (acc.regs r)) m =
    { m with stack := rs.reverse.map m.regs ++ m.stack } := by
  induction rs generalizing m with
  | nil => rfl
  | cons r rest ih =>
    simp only [List.foldl_cons]
    rw [ih]
    simp [FrameMachine.push, List.append_assoc]

/-- Popping the registers in `rs` from a stack that starts with their current
values restores every register to its current value and consumes exactly that
stack prefix. -/
theorem popRegs_spec {V : Type} (rs : List Nat) :
    ∀ (m : FrameMachine V) (rest : List (Cell V)),
      m.stack = rs.map m.regs ++ rest →
      rs.foldl (fun acc r => acc.popReg r) m = { m with stack := rest } := by
  induction rs with
  | nil =>
    intro m rest h
    simp only [List.foldl_nil, List.map_nil, List.nil_append] at h ⊢
    rw [← h]
  | cons r rest ih =>
    intro m tail h
    simp only [List.foldl_cons]
    have hpop : m.popReg r = { m with stack := rest.map m.regs ++ tail } := by
      simp only [FrameMachine.popReg, h, List.map_cons, List.cons_append,
        List.headD_cons, List.tail_cons]
      rw [Function.update_eq_self]
    rw [hpop]
    exact ih _ tail rfl

/-- Length of the XMM save area: two cells per saved register. -/
theorem fpSaveCells_length {V : Type} (xm : Nat → Cell V × Cell V)
    (rs : List Nat) : (fpSaveCells xm rs).length = 2 * rs.length := by
  induction rs with
  | nil => rfl
  | cons r rest ih =>
    simp only [fpSaveCells, List.flatMap_cons, List.length_append,
      List.length_cons, List.length_nil] at ih ⊢
    omega

/-- Reloading the XMM registers from a stack whose cells `2·idx, 2·idx+1, …`
hold exactly their current halves is the identity. -/
theorem readFpSaves_id {V : Type} (rs : List Nat) :
    ∀ (idx : Nat) (m : FrameMachine V) (pre rest : List (Cell V)),
      pre.length = 2 * idx →
      m.stack = pre ++ fpSaveCells m.xmms rs ++ rest →
      readFpSaves rs idx m = m := by
  induction rs with
  | nil => intro idx m pre rest _ _; rfl
  | cons r rest ih =>
    intro idx m pre tail hpre hstack
    have hcells : fpSaveCells m.xmms (r :: rest) =
        (m.xmms r).1 :: (m.xmms r).2 :: fpSaveCells m.xmms rest := by
      simp [fpSaveCells]
    rw [hcells, List.append_assoc] at hstack
    have hget1 : m.stack.getD (2 * idx) Cell.undef = (m.xmms r).1 := by
      rw [hstack, List.getD_append_right _ _ _ _ (le_of_eq hpre)]
      simp [hpre]
    have hget2 : m.stack.getD (2 * idx + 1) Cell.undef = (m.xmms r).2 := by
      rw [hstack, List.getD_append_right _ _ _ _ (by omega : pre.length ≤ 2 * idx + 1)]
      have h1 : 2 * idx + 1 - pre.length = 1 := by omega
      rw [h1]
      rfl
    simp only [readFpSaves]
    rw [hget1, hget2]
    have hupd : Function.update m.xmms r ((m.xmms r).1, (m.xmms r).2) =
        m.xmms := by
      have : ((m.xmms r).1, (m.xmms r).2) = m.xmms r := rfl
      rw [this, Function.update_eq_self]
    rw [hupd]
    exact ih (idx + 1) m (pre ++ [(m.xmms r).1, (m.xmms r).2]) tail
      (by simp only [List.length_append, hpre, List.length_cons,
        List.length_nil]; omega)
      (by rw [hstack]; simp [List.append_assoc])

/-- Explicit form of the constructed frame: return slots on top, then the
scalar callee saves (first register of the `RegList` topmost), then the XMM
save area, then the spill area, then the prologue pushes, then the saved
frame pointer over the original stack. -/
theorem execConstructFrame_spec {V : Type} (fd : FrameDescriptor V)
    (m : FrameMachine V) :
    execConstructFrame fd m =
      { stack := List.replicate fd.returnSlots Cell.undef ++
          (fd.saves.map m.regs ++
            (fpSaveCells m.xmms fd.savesFp ++
              (List.replicate fd.spillSlots Cell.undef ++
                (fd.prologueExtras.reverse ++ m.rbp :: m.stack)))),
        rbp := Cell.ptr (m.stack.length + 1),
        regs := m.regs,
        xmms := m.xmms } := by
  unfold execConstructFrame
  simp only [pushRegs_spec, List.reverse_reverse]
  simp [FrameMachine.push, FrameMachine.alloc, List.append_assoc]

/-- The scalar-restore step on a stack laid out as the constructed frame
leaves it: the return-slot area, then the saved register values, then the
rest.  Every popped register gets its current value back. -/
theorem restoreScalarSaves_spec {V : Type} (fd : FrameDescriptor V)
    (X : FrameMachine V) (rest : List (Cell V))
    (hsaves : ¬ fd.saves.isEmpty)
    (hstack : X.stack =
      List.replicate fd.returnSlots Cell.undef ++ (fd.saves.map X.regs ++ rest)) :
    restoreScalarSaves fd X = { X with stack := rest } := by
  unfold restoreScalarSaves
  rw [if_neg (by simpa using hsaves)]
  have h1 : X.dropSlots fd.returnSlots =
      { X with stack := fd.saves.map X.regs ++ rest } := by
    simp only [FrameMachine.dropSlots, hstack]
    have := List.drop_left (List.replicate fd.returnSlots (Cell.undef : Cell V))
      (fd.saves.map X.regs ++ rest)
    rw [List.length_replicate] at this
    rw [this]
  rw [h1]
  exact popRegs_spec fd.saves _ rest rfl

/-- The XMM-restore step on a stack starting with the XMM save area restores
every XMM register and consumes exactly that area. -/
theorem restoreFpSaves_spec {V : Type} (fd : FrameDescriptor V)
    (X : FrameMachine V) (rest : List (Cell V))
    (hstack : X.stack = fpSaveCells X.xmms fd.savesFp ++ rest) :
    restoreFpSaves fd X = { X with stack := rest } := by
  unfold restoreFpSaves
  by_cases hf : fd.savesFp.isEmpty
  · have hfnil : fd.savesFp = [] := List.isEmpty_iff.mp hf
    rw [if_pos hf]
    rw [hfnil] at hstack
    simp only [fpSaveCells, List.flatMap_nil, List.nil_append] at hstack
    rw [← hstack]
  · rw [if_neg hf]
    rw [readFpSaves_id fd.savesFp 0 X [] rest (by simp) (by simpa using hstack)]
    simp only [FrameMachine.dropSlots, hstack]
    have := List.drop_left (fpSaveCells X.xmms fd.savesFp) rest
    rw [fpSaveCells_length] at this
    rw [this]

/-- Deconstructing a frame whose frame pointer points just above `base`
discards everything down to the saved frame pointer, restores it, and leaves
`base` as the stack. -/
theorem deconstructFrame_spec {V : Type} (X : FrameMachine V)
    (P base : List (Cell V)) (oldRbp : Cell V)
    (hstack : X.stack = P ++ oldRbp :: base)
    (hrbp : X.rbp = Cell.ptr (base.length + 1)) :
    deconstructFrame X =
      { stack := base, rbp := oldRbp, regs := X.regs, xmms := X.xmms } := by
  unfold deconstructFrame
  rw [hrbp]
  simp only []
  have hlen : (P ++ oldRbp :: base).length - (base.length + 1) = P.length := by
    simp only [List.length_append, List.length_cons]
    omega
  rw [hstack, hlen, List.drop_left]
  rfl

/-- C9 (amended): for every frame descriptor in which a nonempty return-slot
area comes with a nonempty scalar callee-save set (or with no XMM callee
saves), running the frame-construction sequence followed by the
return/deconstruction sequence restores the stack (hence the stack pointer),
the frame pointer, every general-purpose register and every XMM register to
their pre-construction values. -/
theorem constructFrame_return_roundtrip {V : Type} (fd : FrameDescriptor V)
    (m : FrameMachine V)
    (hc : fd.saves ≠ [] ∨ fd.returnSlots = 0 ∨ fd.savesFp = []) :
    (execAssembleReturnRestore fd (execConstructFrame fd m)).stack =
      m.stack ∧
    (execAssembleReturnRestore fd (execConstructFrame fd m)).rbp = m.rbp ∧
    (execAssembleReturnRestore fd (execConstructFrame fd m)).regs = m.regs ∧
    (execAssembleReturnRestore fd (execConstructFrame fd m)).xmms =
      m.xmms := by
  rw [execAssembleReturnRestore, execConstructFrame_spec]
  by_cases hs : fd.saves.isEmpty
  · have hsnil : fd.saves = [] := List.isEmpty_iff.mp hs
    have hnopop : restoreScalarSaves fd
        { stack := List.replicate fd.returnSlots Cell.undef ++
            (fd.saves.map m.regs ++
              (fpSaveCells m.xmms fd.savesFp ++
                (List.replicate fd.spillSlots Cell.undef ++
                  (fd.prologueExtras.reverse ++ m.rbp :: m.stack)))),
          rbp := Cell.ptr (m.stack.length + 1),
          regs := m.regs, xmms := m.xmms } =
        { stack := List.replicate fd.returnSlots Cell.undef ++
            (fd.saves.map m.regs ++
              (fpSaveCells m.xmms fd.savesFp ++
                (List.replicate fd.spillSlots Cell.undef ++
                  (fd.prologueExtras.reverse ++ m.rbp :: m.stack)))),
          rbp := Cell.ptr (m.stack.length + 1),
          regs := m.regs, xmms := m.xmms } := by
      unfold restoreScalarSaves
      rw [if_pos hs]
    rw [hnopop]
    rcases hc with hc | hc | hc
    · exact absurd hsnil hc
    · -- no return slots: the XMM area is at the stack pointer
      have hfp := restoreFpSaves_spec fd
        { stack := List.replicate fd.returnSlots Cell.undef ++
            (fd.saves.map m.regs ++
              (fpSaveCells m.xmms fd.savesFp ++
                (List.replicate fd.spillSlots Cell.undef ++
                  (fd.prologueExtras.reverse ++ m.rbp :: m.stack)))),
          rbp := Cell.ptr (m.stack.length + 1),
          regs := m.regs, xmms := m.xmms }
        (List.replicate fd.spillSlots Cell.undef ++
          (fd.prologueExtras.reverse ++ m.rbp :: m.stack))
        (by simp [hc, hsnil])
      rw [hfp]
      rw [deconstructFrame_spec _
        (List.replicate fd.spillSlots Cell.undef ++ fd.prologueExtras.reverse)
        m.stack m.rbp (by simp) rfl]
      exact ⟨rfl, rfl, rfl, rfl⟩
    · -- no XMM saves: everything above the saved frame pointer is discarded
      have hnofp : restoreFpSaves fd
          { stack := List.replicate fd.returnSlots Cell.undef ++
              (fd.saves.map m.regs ++
                (fpSaveCells m.xmms fd.savesFp ++
                  (List.replicate fd.spillSlots Cell.undef ++
                    (fd.prologueExtras.reverse ++ m.rbp :: m.stack)))),
            rbp := Cell.ptr (m.stack.length + 1),
            regs := m.regs, xmms := m.xmms } =
          { stack := List.replicate fd.returnSlots Cell.undef ++
              (fd.saves.map m.regs ++
                (fpSaveCells m.xmms fd.savesFp ++
                  (List.replicate fd.spillSlots Cell.undef ++
                    (fd.prologueExtras.reverse ++ m.rbp :: m.stack)))),
            rbp := Cell.ptr (m.stack.length + 1),
            regs := m.regs, xmms := m.xmms } := by
        unfold restoreFpSaves
        rw [if_pos (by simp [hc])]
      rw [hnofp]
      rw [deconstructFrame_spec _
        (List.replicate fd.returnSlots Cell.undef ++
          (fd.saves.map m.regs ++
            (fpSaveCells m.xmms fd.savesFp ++
              (List.replicate fd.spillSlots Cell.undef ++
                fd.prologueExtras.reverse))))
        m.stack m.rbp (by simp [List.append_assoc]) rfl]
      exact ⟨rfl, rfl, rfl, rfl⟩
  · -- scalar saves present: the return-slot area is popped first
    have hscalar := restoreScalarSaves_spec fd
      { stack := List.replicate fd.returnSlots Cell.undef ++
          (fd.saves.map m.regs ++
            (fpSaveCells m.xmms fd.savesFp ++
              (List.replicate fd.spillSlots Cell.undef ++
                (fd.prologueExtras.reverse ++ m.rbp :: m.stack)))),
        rbp := Cell.ptr (m.stack.length + 1),
        regs := m.regs, xmms := m.xmms }
      (fpSaveCells m.xmms fd.savesFp ++
        (List.replicate fd.spillSlots Cell.undef ++
          (fd.prologueExtras.reverse ++ m.rbp :: m.stack)))
      hs rfl
    rw [hscalar]
    have hfp := restoreFpSaves_spec fd
      { stack := fpSaveCells m.xmms fd.savesFp ++
          (List.replicate fd.spillSlots Cell.undef ++
            (fd.prologueExtras.reverse ++ m.rbp :: m.stack)),
        rbp := Cell.ptr (m.stack.length + 1),
        regs := m.regs, xmms := m.xmms }
      (List.replicate fd.spillSlots Cell.undef ++
        (fd.prologueExtras.reverse ++ m.rbp :: m.stack))
      rfl
    rw [hfp]
    rw [deconstructFrame_spec _
      (List.replicate fd.spillSlots Cell.undef ++ fd.prologueExtras.reverse)
      m.stack m.rbp (by simp) rfl]
    exact ⟨rfl, rfl, rfl, rfl⟩

/-- C9 counterexample: the claim as stated fails on the code.  For the frame
descriptor with no scalar callee saves, one XMM callee save and one return
slot, `AssembleReturn` reloads the XMM register from the wrong stack offset
(the return-slot area is only popped inside the `!saves.is_empty()` branch,
lines 4970-4974, while `AssembleConstructFrame` allocates return slots
unconditionally, lines 4960-4962), so the XMM register is not restored to its
pre-construction value. -/
theorem constructFrame_return_xmm_not_restored :
    ¬ ((execAssembleReturnRestore
        (FrameDescriptor.mk ([] : List (Cell Nat)) 0 [] [0] 1)
        (execConstructFrame (FrameDescriptor.mk ([] : List (Cell Nat)) 0 [] [0] 1)
          (FrameMachine.mk [] (Cell.val 0) (fun _ => Cell.undef)
            (fun _ => (Cell.val 1, Cell.val 2))))).xmms 0 =
      (FrameMachine.mk ([] : List (Cell Nat)) (Cell.val 0) (fun _ => Cell.undef)
        (fun _ => (Cell.val 1, Cell.val 2))).xmms 0) := by
  decide

/-- Witness for the amended C9 at a concrete descriptor with scalar saves,
an XMM save, a spill area, a prologue push and a return slot. -/
theorem constructFrame_return_roundtrip_witness :
    (execAssembleReturnRestore (FrameDescriptor.mk [Cell.val 9] 2 [3] [1] 1)
      (execConstructFrame (FrameDescriptor.mk [Cell.val 9] 2 [3] [1] 1)
        (FrameMachine.mk [Cell.val (7 : Nat)] (Cell.val 0)
          (fun _ => Cell.val 4) (fun _ => (Cell.val 5, Cell.val 6))))).stack =
      (FrameMachine.mk [Cell.val (7 : Nat)] (Cell.val 0)
        (fun _ => Cell.val 4) (fun _ => (Cell.val 5, Cell.val 6))).stack ∧
    (execAssembleReturnRestore (FrameDescriptor.mk [Cell.val 9] 2 [3] [1] 1)
      (execConstructFrame (FrameDescriptor.mk [Cell.val 9] 2 [3] [1] 1)
        (FrameMachine.mk [Cell.val (7 : Nat)] (Cell.val 0)
          (fun _ => Cell.val 4) (fun _ => (Cell.val 5, Cell.val 6))))).rbp =
      (FrameMachine.mk [Cell.val (7 : Nat)] (Cell.val 0)
        (fun _ => Cell.val 4) (fun _ => (Cell.val 5, Cell.val 6))).rbp ∧
    (execAssembleReturnRestore (FrameDescriptor.mk [Cell.val 9] 2 [3] [1] 1)
      (execConstructFrame (FrameDescriptor.mk [Cell.val 9] 2 [3] [1] 1)
        (FrameMachine.mk [Cell.val (7 : Nat)] (Cell.val 0)
          (fun _ => Cell.val 4) (fun _ => (Cell.val 5, Cell.val 6))))).regs =
      (FrameMachine.mk [Cell.val (7 : Nat)] (Cell.val 0)
        (fun _ => Cell.val 4) (fun _ => (Cell.val 5, Cell.val 6))).regs ∧
    (execAssembleReturnRestore (FrameDescriptor.mk [Cell.val 9] 2 [3] [1] 1)
      (execConstructFrame (FrameDescriptor.mk [Cell.val 9] 2 [3] [1] 1)
        (FrameMachine.mk [Cell.val (7 : Nat)] (Cell.val 0)
          (fun _ => Cell.val 4) (fun _ => (Cell.val 5, Cell.val 6))))).xmms =
      (FrameMachine.mk [Cell.val (7 : Nat)] (Cell.val 0)
        (fun _ => Cell.val 4) (fun _ => (Cell.val 5, Cell.val 6))).xmms :=
  constructFrame_return_roundtrip (FrameDescriptor.mk [Cell.val 9] 2 [3] [1] 1)
    (FrameMachine.mk [Cell.val (7 : Nat)] (Cell.val 0)
      (fun _ => Cell.val 4) (fun _ => (Cell.val 5, Cell.val 6)))
    (Or.inl (by decide))

/-! ## Deoptimization translation builder: `MaglevTranslationArrayBuilder`

From `maglev-code-generator.cc` lines 838-1191.  Interpreter registers are
modelled by their raw index (an `Int`), which is all `InReturnValues`
compares; the distinguished `virtual_accumulator()` register index, the
`is_parameter()` predicate and `ToParameterIndex()` conversion come from
`interpreter/bytecode-register.h` outside the given sources and are kept as
parameters of the model.  Deopt literal ids (`GetDeoptLiteral`) are likewise
abstracted to caller-chosen numbers, since the identity-map bookkeeping is
not part of the claims. -/

/-- `ValueRepresentation` as the builder switches on it; `kWord64` is
`UNREACHABLE()` in both stores (lines 1046-1047, 1068-1069) and is omitted. -/
inductive ValueRepr where
  | tagged | int32 | uint32 | float64
  deriving DecidableEq, Repr

/-- A value node as the builder consumes it: its representation and, for
constant nodes, the deopt-literal id `GetDeoptLiteral(value->Reify(..))`
produces. -/
structure VNode where
  repr : ValueRepr
  lit : Nat
  deriving DecidableEq, Repr

/-- One entry of `deopt_info->input_locations()`: a constant operand, an
allocated register, or an allocated stack slot (by frame-pointer offset). -/
inductive InputLoc where
  | constant
  | inReg (code : Nat)
  | inDoubleReg (code : Nat)
  | inStack (fpOffset : Int)
  deriving DecidableEq, Repr

/-- The entries a translation array records, as the builder emits them. -/
inductive TEntry where
  | beginInterpretedFrame (bytecodePos : Int) (litId : Nat)
      (registerCount : Nat) (returnOffset : Int) (returnCount : Nat)
  | beginBuiltinContinuationFrame (builtinBytecodeOffset : Int) (litId : Nat)
      (parameterCount : Nat)
  | updateFeedback (vectorLit : Nat) (index : Int)
  | storeOptimizedOut
  | storeLiteral (litId : Nat)
  | storeRegister (code : Nat)
  | storeInt32Register (code : Nat)
  | storeUint32Register (code : Nat)
  | storeDoubleRegister (code : Nat)
  | storeStackSlot (slot : Int)
  | storeInt32StackSlot (slot : Int)
  | storeUint32StackSlot (slot : Int)
  | storeDoubleStackSlot (slot : Int)
  deriving DecidableEq, Repr

/-- `DeoptStackSlotIndexFromFPOffset` (lines 964-966). -/
def DeoptStackSlotIndexFromFPOffset (offset : Int) : Int :=
  1 - offset / 8

/-- `StandardFrameConstants::kFunctionOffset` (frame constants header,
outside the given sources): the fixed frame-pointer-relative slot holding the
function object. -/
def kFunctionOffset : Int := -16

/-- `MaglevTranslationArrayBuilder::InReturnValues` (lines 973-980). -/
def InReturnValues (regIdx : Int) (resultLocIdx : Option Int)
    (resultSize : Nat) : Bool :=
  match resultLocIdx with
  | none => false
  | some r =>
    if resultSize = 0 then false
    else r ≤ regIdx ∧ regIdx ≤ r + (resultSize : Int) - 1

/-- `BuildDeoptStoreRegister` / `BuildDeoptStoreStackSlot` /
`BuildDeoptFrameSingleValue` (lines 1043-1100): a constant operand is stored
as a literal, otherwise the operand's location is captured with the value's
representation tag. -/
def BuildDeoptFrameSingleValue (v : VNode) (loc : InputLoc) : TEntry :=
  match loc with
  | .constant => .storeLiteral v.lit
  | .inReg c =>
    match v.repr with
    | .tagged => .storeRegister c
    | .int32 => .storeInt32Register c
    | .uint32 => .storeUint32Register c
    | .float64 => .storeDoubleRegister c
  | .inDoubleReg c => .storeDoubleRegister c
  | .inStack off =>
    match v.repr with
    | .tagged => .storeStackSlot (DeoptStackSlotIndexFromFPOffset off)
    | .int32 => .storeInt32StackSlot (DeoptStackSlotIndexFromFPOffset off)
    | .uint32 => .storeUint32StackSlot (DeoptStackSlotIndexFromFPOffset off)
    | .float64 => .storeDoubleStackSlot (DeoptStackSlotIndexFromFPOffset off)

/-- The parameter loop of `BuildDeoptFrameValues` (lines 1121-1135):
`ForEachParameter` visits each parameter register in order; a slot in the
call's result range is stored as optimized-out and does not consume an input
location, every other slot captures the next input location. -/
def emitParamEntries (ilocs : List InputLoc) (resLoc : Option Int)
    (resSize : Nat) : List (Int × VNode) → Nat → List TEntry × Nat
  | [], cur => ([], cur)
  | (r, v) :: rest, cur =>
    if InReturnValues r resLoc resSize then
      let out := emitParamEntries ilocs resLoc resSize rest cur
      (.storeOptimizedOut :: out.1, out.2)
    else
      let out := emitParamEntries ilocs resLoc resSize rest (cur + 1)
      (BuildDeoptFrameSingleValue v (ilocs.getD cur .constant) :: out.1, out.2)

/-- The locals loop of `BuildDeoptFrameValues` (lines 1142-1162):
`ForEachLocal` visits the live locals in ascending register order; a live
local in the result range is skipped outright (the catch-up loops then emit
its slot as optimized-out), gaps between live locals are filled with
optimized-out entries, and the final loop pads to `register_count`. -/
def emitLocalEntries (ilocs : List InputLoc) (resLoc : Option Int)
    (resSize : Nat) (registerCount : Nat) :
    List (Nat × VNode) → Nat → Nat → List TEntry × Nat
  | [], i, cur => (List.replicate (registerCount - i) .storeOptimizedOut, cur)
  | (r, v) :: rest, i, cur =>
    if InReturnValues (r : Int) resLoc resSize then
      emitLocalEntries ilocs resLoc resSize registerCount rest i cur
    else
      let out := emitLocalEntries ilocs resLoc resSize registerCount rest
        (r + 1) (cur + 1)
      (List.replicate (r - i) .storeOptimizedOut ++
        BuildDeoptFrameSingleValue v (ilocs.getD cur .constant) :: out.1,
        out.2)

/-- The accumulator entry of `BuildDeoptFrameValues` (lines 1164-1175). -/
def emitAccumulatorEntry (ilocs : List InputLoc) (resLoc : Option Int)
    (resSize : Nat) (accIdx : Int) (accLive : Bool) (acc : VNode) (cur : Nat) :
    List TEntry × Nat :=
  if accLive ∧ ¬ InReturnValues accIdx resLoc resSize then
    ([BuildDeoptFrameSingleValue acc (ilocs.getD cur .constant)], cur + 1)
  else
    ([.storeOptimizedOut], cur)

/-- The interpreted-frame data `BuildDeoptFrameValues` reads: coordinates of
the compilation unit and the checkpointed frame state.  `params` pairs each
parameter's interpreter-register index with its value node; `locals` lists
the live locals by ascending register index. -/
structure InterpFrameData where
  bytecodePos : Int
  sfiLit : Nat
  funcLit : Nat
  inliningDepth : Nat
  registerCount : Nat
  params : List (Int × VNode)
  context : VNode
  locals : List (Nat × VNode)
  accLive : Bool
  acc : VNode

/-- `MaglevTranslationArrayBuilder::BuildDeoptFrameValues` (lines 1102-1176):
closure slot (current stack slot at inlining depth 0, literal otherwise),
parameters, context, locals, accumulator. -/
def BuildDeoptFrameValues (accIdx : Int) (d : InterpFrameData)
    (ilocs : List InputLoc) (cur : Nat) (resLoc : Option Int)
    (resSize : Nat) : List TEntry × Nat :=
  let closureEntry :=
    if d.inliningDepth = 0 then
      TEntry.storeStackSlot (DeoptStackSlotIndexFromFPOffset kFunctionOffset)
    else
      TEntry.storeLiteral d.funcLit
  let ps := emitParamEntries ilocs resLoc resSize d.params cur
  let ctxEntry := BuildDeoptFrameSingleValue d.context
    (ilocs.getD ps.2 .constant)
  let ls := emitLocalEntries ilocs resLoc resSize d.registerCount d.locals 0
    (ps.2 + 1)
  let accE := emitAccumulatorEntry ilocs resLoc resSize accIdx d.accLive
    d.acc ls.2
  (closureEntry :: ps.1 ++ ctxEntry :: ls.1 ++ accE.1, accE.2)

/-- A deopt frame chain.  The source's `DeoptFrame::parent()` is an optional
pointer; here the null and non-null cases of an interpreted frame are the
`interpreted` and `interpretedInlined` constructors.  A builtin-continuation
frame always has a parent, whose interpreted unit provides the
shared-function-info literal (lines 1014-1021), carried as `parentSfiLit`. -/
inductive DeoptFrame where
  | interpreted (d : InterpFrameData)
  | interpretedInlined (parent : DeoptFrame) (d : InterpFrameData)
  | builtinCont (parent : DeoptFrame) (builtinBytecodeOffset : Int)
      (parentSfiLit : Nat) (bparams : List VNode) (bctx : VNode)

/-- The builtin-continuation parameter loop (lines 1027-1031): each
parameter captures the next input location. -/
def emitBuiltinParams (ilocs : List InputLoc) :
    List VNode → Nat → List TEntry × Nat
  | [], cur => ([], cur)
  | v :: rest, cur =>
    let out := emitBuiltinParams ilocs rest (cur + 1)
    (BuildDeoptFrameSingleValue v (ilocs.getD cur .constant) :: out.1, out.2)

/-- `MaglevTranslationArrayBuilder::BuildDeoptFrame` (lines 982-1041): emit
the parent chain first, then this frame; an interpreted frame here (any
eager frame, or a lazy frame below the top) uses return offset 0 and return
count 0 and an invalid result location. -/
def BuildDeoptFrame (accIdx : Int) (ilocs : List InputLoc) :
    DeoptFrame → Nat → List TEntry × Nat
  | .interpreted d, cur =>
    let es := BuildDeoptFrameValues accIdx d ilocs cur none 0
    (TEntry.beginInterpretedFrame d.bytecodePos d.sfiLit d.registerCount 0 0
      :: es.1,
      es.2)
  | .interpretedInlined parent d, cur =>
    let pes := BuildDeoptFrame accIdx ilocs parent cur
    let es := BuildDeoptFrameValues accIdx d ilocs pes.2 none 0
    (pes.1 ++
      TEntry.beginInterpretedFrame d.bytecodePos d.sfiLit d.registerCount 0 0
        :: es.1,
      es.2)
  | .builtinCont parent boff lit bparams bctx, cur =>
    let pes := BuildDeoptFrame accIdx ilocs parent cur
    let bes := emitBuiltinParams ilocs bparams pes.2
    let ctxE := BuildDeoptFrameSingleValue bctx (ilocs.getD bes.2 .constant)
    (pes.1 ++
      TEntry.beginBuiltinContinuationFrame boff lit bparams.length
        :: TEntry.storeOptimizedOut :: bes.1 ++ [ctxE],
      bes.2 + 1)

/-- `MaglevTranslationArrayBuilder::BuildEagerDeopt` (lines 849-865): the
optional update-feedback entry, then the whole frame chain with an invalid
result location. -/
def BuildEagerDeopt (accIdx : Int) (ilocs : List InputLoc)
    (top : DeoptFrame) (updateFeedback : Option (Nat × Int)) : List TEntry :=
  (match updateFeedback with
   | some (l, i) => [TEntry.updateFeedback l i]
   | none => []) ++
  (BuildDeoptFrame accIdx ilocs top 0).1

/-- `MaglevTranslationArrayBuilder::BuildLazyDeopt` (lines 867-961): the
optional update-feedback entry, the parent chain (with invalid result
location), then the top frame; an interpreted top frame computes the return
offset from the result location (accumulator, parameter or local, lines
899-918) and serializes its values against the call's result range.
`isParam` and `toParamIndex` model `interpreter::Register::is_parameter()`
and `ToParameterIndex()` from outside the given sources. -/
def BuildLazyDeopt (accIdx : Int) (isParam : Int → Bool)
    (toParamIndex : Int → Int) (ilocs : List InputLoc) (top : DeoptFrame)
    (resultLocIdx : Int) (resultSize : Nat)
    (updateFeedback : Option (Nat × Int)) : List TEntry :=
  (match updateFeedback with
   | some (l, i) => [TEntry.updateFeedback l i]
   | none => []) ++
  (match top with
   | .interpreted d =>
     let pes : List TEntry × Nat := ([], 0)
     let returnOffset : Int :=
       if resultLocIdx = accIdx then 0
       else if isParam resultLocIdx then
         (d.registerCount : Int) + (d.params.length : Int) -
           toParamIndex resultLocIdx
       else
         (d.registerCount : Int) - resultLocIdx
     let es := BuildDeoptFrameValues accIdx d ilocs pes.2
       (some resultLocIdx) resultSize
     pes.1 ++
       TEntry.beginInterpretedFrame d.bytecodePos d.sfiLit d.registerCount
         returnOffset resultSize :: es.1
   | .interpretedInlined parent d =>
     let pes := BuildDeoptFrame accIdx ilocs parent 0
     let returnOffset : Int :=
       if resultLocIdx = accIdx then 0
       else if isParam resultLocIdx then
         (d.registerCount : Int) + (d.params.length : Int) -
           toParamIndex resultLocIdx
       else
         (d.registerCount : Int) - resultLocIdx
     let es := BuildDeoptFrameValues accIdx d ilocs pes.2
       (some resultLocIdx) resultSize
     pes.1 ++
       TEntry.beginInterpretedFrame d.bytecodePos d.sfiLit d.registerCount
         returnOffset resultSize :: es.1
   | .builtinCont parent boff lit bparams bctx =>
     let pes := BuildDeoptFrame accIdx ilocs parent 0
     let bes := emitBuiltinParams ilocs bparams pes.2
     let ctxE := BuildDeoptFrameSingleValue bctx (ilocs.getD bes.2 .constant)
     pes.1 ++
       TEntry.beginBuiltinContinuationFrame boff lit bparams.length
         :: TEntry.storeOptimizedOut :: bes.1 ++ [ctxE])

/-- Number of parameters before index `j` that are captured (not in the
result range), i.e. how many input locations the parameter loop consumes
before reaching index `j`. -/
def capturedParamsBefore (resLoc : Option Int) (resSize : Nat)
    (ps : List (Int × VNode)) (j : Nat) : Nat :=
  ((ps.take j).filter (fun p => ¬ InReturnValues p.1 resLoc resSize)).length

/-- The parameter loop: one entry per parameter; result-range slots are
optimized-out and consume no input location, other slots capture the next
input location in order. -/
theorem emitParamEntries_spec (ilocs : List InputLoc) (resLoc : Option Int)
    (resSize : Nat) :
    ∀ (ps : List (Int × VNode)) (cur : Nat),
      (emitParamEntries ilocs resLoc resSize ps cur).1.length = ps.length ∧
      (emitParamEntries ilocs resLoc resSize ps cur).2 =
        cur + (ps.filter
          (fun p => ¬ InReturnValues p.1 resLoc resSize)).length ∧
      ∀ (j : Nat) (hj : j < ps.length),
        (emitParamEntries ilocs resLoc resSize ps cur).1.get? j =
          some (if InReturnValues (ps.get ⟨j, hj⟩).1 resLoc resSize then
              TEntry.storeOptimizedOut
            else
              BuildDeoptFrameSingleValue (ps.get ⟨j, hj⟩).2
                (ilocs.getD (cur + capturedParamsBefore resLoc resSize ps j)
                  InputLoc.constant)) := by
  intro ps
  induction ps with
  | nil =>
    intro cur
    exact ⟨rfl, by simp [emitParamEntries], fun j hj => absurd hj (by simp)⟩
  | cons p rest ih =>
    intro cur
    obtain ⟨r, v⟩ := p
    by_cases hel : InReturnValues r resLoc resSize
    · have hstep : emitParamEntries ilocs resLoc resSize ((r, v) :: rest) cur =
          (TEntry.storeOptimizedOut ::
            (emitParamEntries ilocs resLoc resSize rest cur).1,
           (emitParamEntries ilocs resLoc resSize rest cur).2) := by
        simp [emitParamEntries, hel]
      obtain ⟨ihlen, ihcur, ihget⟩ := ih cur
      rw [hstep]
      refine ⟨by simp [ihlen], ?_, ?_⟩
      · simp [ihcur, List.filter_cons, hel]
      · intro j hj
        cases j with
        | zero => simp [List.get, hel]
        | succ j' =>
          simp only [List.get?_cons_succ, List.length_cons] at hj ⊢
          rw [ihget j' (by omega)]
          have hcb : capturedParamsBefore resLoc resSize ((r, v) :: rest)
              (j' + 1) = capturedParamsBefore resLoc resSize rest j' := by
            simp [capturedParamsBefore, List.take_cons, List.filter_cons, hel]
          rw [← hcb]
          rfl
    · have hstep : emitParamEntries ilocs resLoc resSize ((r, v) :: rest) cur =
          (BuildDeoptFrameSingleValue v (ilocs.getD cur InputLoc.constant) ::
            (emitParamEntries ilocs resLoc resSize rest (cur + 1)).1,
           (emitParamEntries ilocs resLoc resSize rest (cur + 1)).2) := by
        simp [emitParamEntries, hel]
      obtain ⟨ihlen, ihcur, ihget⟩ := ih (cur + 1)
      rw [hstep]
      refine ⟨by simp [ihlen], ?_, ?_⟩
      · simp only [ihcur, List.filter_cons]
        simp [hel]
        omega
      · intro j hj
        cases j with
        | zero =>
          simp [List.get, hel, capturedParamsBefore]
        | succ j' =>
          simp only [List.get?_cons_succ, List.length_cons] at hj ⊢
          rw [ihget j' (by omega)]
          have hcb : capturedParamsBefore resLoc resSize ((r, v) :: rest)
              (j' + 1) = capturedParamsBefore resLoc resSize rest j' + 1 := by
            simp [capturedParamsBefore, List.take_cons, List.filter_cons, hel]
          rw [hcb]
          have : cur + 1 + capturedParamsBefore resLoc resSize rest j' =
              cur + (capturedParamsBefore resLoc resSize rest j' + 1) := by
            omega
          rw [this]
          rfl

/-- Well-formedness of the live-locals list as `ForEachLocal` provides it:
register indices are at least the running counter, below `register_count`,
and strictly ascending (the source's `DCHECK_LE(i, reg.index())` and the
register file layout). -/
def LocalsWellFormed : List (Nat × VNode) → Nat → Nat → Prop
  | [], _, _ => True
  | (r, _) :: rest, i, rc => i ≤ r ∧ r < rc ∧ LocalsWellFormed rest (r + 1) rc

/-- A lower bound on a well-formed locals list can be weakened. -/
theorem LocalsWellFormed.mono :
    ∀ (l : List (Nat × VNode)) (i i' rc : Nat), i' ≤ i →
      LocalsWellFormed l i rc → LocalsWellFormed l i' rc := by
  intro l
  cases l with
  | nil => intro i i' rc _ _; trivial
  | cons p rest =>
    intro i i' rc hle h
    obtain ⟨r, v⟩ := p
    obtain ⟨h1, h2, h3⟩ := h
    exact ⟨by omega, h2, h3⟩

/-- Every register index in a well-formed locals list is at least the lower
bound. -/
theorem LocalsWellFormed.lowerBound :
    ∀ (l : List (Nat × VNode)) (i rc : Nat), LocalsWellFormed l i rc →
      ∀ p ∈ l, i ≤ p.1 := by
  intro l
  induction l with
  | nil => intro i rc _ p hp; exact absurd hp (by simp)
  | cons q rest ih =>
    intro i rc h p hp
    obtain ⟨r, v⟩ := q
    obtain ⟨h1, h2, h3⟩ := h
    rcases List.mem_cons.mp hp with hp | hp
    · subst hp; exact h1
    · exact le_trans (by omega : i ≤ r + 1) (ih (r + 1) rc h3 p hp)

/-- Number of live locals with register index below `k` that are captured
(not in the result range): how many input locations the locals loop consumes
before reaching slot `k`. -/
def capturedLocalsBefore (resLoc : Option Int) (resSize : Nat)
    (locals : List (Nat × VNode)) (k : Nat) : Nat :=
  (locals.filter
    (fun p => p.1 < k ∧ ¬ InReturnValues (p.1 : Int) resLoc resSize)).length

/-- The locals loop: exactly `register_count − i` entries; a slot in the
result range or not live is optimized-out, a live slot outside the range
captures the next input location; elided and dead slots consume no input
location. -/
theorem emitLocalEntries_spec (ilocs : List InputLoc) (resLoc : Option Int)
    (resSize : Nat) (rc : Nat) :
    ∀ (locals : List (Nat × VNode)) (i cur : Nat),
      LocalsWellFormed locals i rc →
      (emitLocalEntries ilocs resLoc resSize rc locals i cur).1.length =
        rc - i ∧
      (emitLocalEntries ilocs resLoc resSize rc locals i cur).2 =
        cur + (locals.filter
          (fun p => ¬ InReturnValues (p.1 : Int) resLoc resSize)).length ∧
      ∀ k : Nat, i ≤ k → k < rc →
        (emitLocalEntries ilocs resLoc resSize rc locals i cur).1.get?
            (k - i) =
          some (match locals.find? (fun p => p.1 = k) with
            | some p =>
              if InReturnValues (k : Int) resLoc resSize then
                TEntry.storeOptimizedOut
              else
                BuildDeoptFrameSingleValue p.2
                  (ilocs.getD
                    (cur + capturedLocalsBefore resLoc resSize locals k)
                    InputLoc.constant)
            | none => TEntry.storeOptimizedOut) := by
  intro locals
  induction locals with
  | nil =>
    intro i cur _
    refine ⟨by simp [emitLocalEntries], by simp [emitLocalEntries], ?_⟩
    intro k hik hkrc
    simp only [emitLocalEntries, List.find?_nil]
    rw [List.get?_eq_getElem?, List.getElem?_replicate]
    simp only [if_pos (by omega : k - i < rc - i)]
  | cons q rest ih =>
    intro i cur h
    obtain ⟨r, v⟩ := q
    obtain ⟨hir, hrc, hrest⟩ := h
    by_cases hel : InReturnValues (r : Int) resLoc resSize
    · have hstep : emitLocalEntries ilocs resLoc resSize rc ((r, v) :: rest)
          i cur = emitLocalEntries ilocs resLoc resSize rc rest i cur := by
        simp [emitLocalEntries, hel]
      obtain ⟨ihlen, ihcur, ihget⟩ := ih i cur
        (LocalsWellFormed.mono rest (r + 1) i rc (by omega) hrest)
      rw [hstep]
      refine ⟨ihlen, by simp [ihcur, List.filter_cons, hel], ?_⟩
      intro k hik hkrc
      rw [ihget k hik hkrc]
      by_cases hkr : r = k
      · subst hkr
        have hnone : rest.find? (fun p => p.1 = r) = none := by
          rw [List.find?_eq_none]
          intro p hp
          have := LocalsWellFormed.lowerBound rest (r + 1) rc hrest p hp
          simp only [decide_eq_true_eq]
          omega
        have hfind2 : ((r, v) :: rest).find? (fun p => p.1 = r) =
            some (r, v) := by
          rw [List.find?_cons_of_pos _ (by simp)]
        rw [hnone, hfind2]
        simp [hel]
      · have hfind : ((r, v) :: rest).find? (fun p => p.1 = k) =
            rest.find? (fun p => p.1 = k) := by
          rw [List.find?_cons_of_neg _ (by simp [hkr])]
        rw [hfind]
        have hcb : capturedLocalsBefore resLoc resSize ((r, v) :: rest) k =
            capturedLocalsBefore resLoc resSize rest k := by
          simp [capturedLocalsBefore, List.filter_cons, hel]
        rw [hcb]
    · have hstep : emitLocalEntries ilocs resLoc resSize rc ((r, v) :: rest)
          i cur =
          (List.replicate (r - i) TEntry.storeOptimizedOut ++
            BuildDeoptFrameSingleValue v (ilocs.getD cur InputLoc.constant)
              :: (emitLocalEntries ilocs resLoc resSize rc rest (r + 1)
                (cur + 1)).1,
           (emitLocalEntries ilocs resLoc resSize rc rest (r + 1)
             (cur + 1)).2) := by
        simp [emitLocalEntries, hel]
      obtain ⟨ihlen, ihcur, ihget⟩ := ih (r + 1) (cur + 1) hrest
      rw [hstep]
      refine ⟨?_, ?_, ?_⟩
      · simp [ihlen, List.length_replicate]
        omega
      · simp only [ihcur, List.filter_cons]
        simp [hel]
        omega
      · intro k hik hkrc
        by_cases hkr1 : k < r
        · -- inside the catch-up padding
          have hidx : k - i < r - i := by omega
          rw [List.get?_append (by simpa using hidx)]
          rw [List.get?_eq_getElem?, List.getElem?_replicate, if_pos hidx]
          have hnone : ((r, v) :: rest).find? (fun p => p.1 = k) = none := by
            rw [List.find?_eq_none]
            intro p hp
            rcases List.mem_cons.mp hp with hp | hp
            · subst hp; simp only [decide_eq_true_eq]; omega
            · have := LocalsWellFormed.lowerBound rest (r + 1) rc hrest p hp
              simp only [decide_eq_true_eq]
              omega
          rw [hnone]
        · by_cases hkr : k = r
          · -- the captured slot itself
            subst hkr
            rw [List.get?_append_right
              (by simp [List.length_replicate] : (List.replicate (k - i)
                TEntry.storeOptimizedOut).length ≤ k - i)]
            simp only [List.length_replicate, Nat.sub_self,
              List.get?_cons_zero]
            have hfind : ((k, v) :: rest).find? (fun p => p.1 = k) =
                some (k, v) := by
              rw [List.find?_cons_of_pos _ (by simp)]
            rw [hfind]
            have hcb : capturedLocalsBefore resLoc resSize ((k, v) :: rest)
                k = 0 := by
              simp only [capturedLocalsBefore, List.filter_cons]
              have h1 : ¬ (k < k ∧ ¬ InReturnValues (k : Int) resLoc
                  resSize = true) := by omega
              simp only [decide_eq_true_eq]
              rw [if_neg (by simpa using h1)]
              rw [List.length_eq_zero, List.filter_eq_nil]
              intro p hp
              have := LocalsWellFormed.lowerBound rest (k + 1) rc hrest p hp
              simp only [decide_eq_true_eq, not_and, not_not]
              intro hlt
              omega
            rw [hcb]
            simp [hel]
          · -- beyond the captured slot: recurse
            have hkgt : r + 1 ≤ k := by omega
            have hidx : (List.replicate (r - i)
                TEntry.storeOptimizedOut).length ≤ k - i := by
              simp [List.length_replicate]; omega
            rw [List.get?_append_right hidx]
            simp only [List.length_replicate]
            have hpos : k - i - (r - i) = (k - (r + 1)) + 1 := by omega
            rw [hpos, List.get?_cons_succ]
            rw [ihget k hkgt hkrc]
            have hfind : ((r, v) :: rest).find? (fun p => p.1 = k) =
                rest.find? (fun p => p.1 = k) := by
              rw [List.find?_cons_of_neg _
                (by simp only [decide_eq_true_eq]; omega)]
            rw [hfind]
            have hcb : capturedLocalsBefore resLoc resSize ((r, v) :: rest)
                k = capturedLocalsBefore resLoc resSize rest k + 1 := by
              simp only [capturedLocalsBefore, List.filter_cons]
              have h1 : (r < k ∧ ¬ InReturnValues (r : Int) resLoc resSize =
                  true) := ⟨by omega, by simpa using hel⟩
              simp only [decide_eq_true_eq]
              rw [if_pos (by simpa using h1)]
              simp [Nat.add_comm]
            rw [hcb]
            have harith : cur + 1 + capturedLocalsBefore resLoc resSize rest
                k = cur + (capturedLocalsBefore resLoc resSize rest k + 1) :=
              by omega
            rw [harith]

/-- Whether a translation entry opens a frame. -/
def TEntry.isFrameBegin : TEntry → Bool
  | .beginInterpretedFrame _ _ _ _ _ => true
  | .beginBuiltinContinuationFrame _ _ _ => true
  | _ => false

/-- A captured value entry never opens a frame. -/
theorem buildSingle_not_begin (v : VNode) (loc : InputLoc) :
    (BuildDeoptFrameSingleValue v loc).isFrameBegin = false := by
  obtain ⟨vr, vl⟩ := v
  cases loc <;> first | rfl | (cases vr <;> rfl)

/-- The parameter loop emits only value entries. -/
theorem emitParamEntries_not_begin (ilocs : List InputLoc)
    (resLoc : Option Int) (resSize : Nat) :
    ∀ (ps : List (Int × VNode)) (cur : Nat) (e : TEntry),
      e ∈ (emitParamEntries ilocs resLoc resSize ps cur).1 →
      e.isFrameBegin = false := by
  intro ps
  induction ps with
  | nil => intro cur e he; exact absurd he (by simp [emitParamEntries])
  | cons p rest ih =>
    intro cur e he
    obtain ⟨r, v⟩ := p
    by_cases hel : InReturnValues r resLoc resSize
    · have hstep : (emitParamEntries ilocs resLoc resSize ((r, v) :: rest)
          cur).1 = TEntry.storeOptimizedOut ::
            (emitParamEntries ilocs resLoc resSize rest cur).1 := by
        simp [emitParamEntries, hel]
      rw [hstep] at he
      rcases List.mem_cons.mp he with he | he
      · subst he; rfl
      · exact ih cur e he
    · have hstep : (emitParamEntries ilocs resLoc resSize ((r, v) :: rest)
          cur).1 = BuildDeoptFrameSingleValue v
            (ilocs.getD cur InputLoc.constant) ::
            (emitParamEntries ilocs resLoc resSize rest (cur + 1)).1 := by
        simp [emitParamEntries, hel]
      rw [hstep] at he
      rcases List.mem_cons.mp he with he | he
      · subst he; exact buildSingle_not_begin v _
      · exact ih (cur + 1) e he

/-- The locals loop emits only value entries. -/
theorem emitLocalEntries_not_begin (ilocs : List InputLoc)
    (resLoc : Option Int) (resSize : Nat) (rc : Nat) :
    ∀ (locals : List (Nat × VNode)) (i cur : Nat) (e : TEntry),
      e ∈ (emitLocalEntries ilocs resLoc resSize rc locals i cur).1 →
      e.isFrameBegin = false := by
  intro locals
  induction locals with
  | nil =>
    intro i cur e he
    simp only [emitLocalEntries, List.mem_replicate] at he
    rw [he.2]
    rfl
  | cons p rest ih =>
    intro i cur e he
    obtain ⟨r, v⟩ := p
    by_cases hel : InReturnValues (r : Int) resLoc resSize
    · have hstep : (emitLocalEntries ilocs resLoc resSize rc ((r, v) :: rest)
          i cur).1 =
          (emitLocalEntries ilocs resLoc resSize rc rest i cur).1 := by
        simp [emitLocalEntries, hel]
      rw [hstep] at he
      exact ih i cur e he
    · have hstep : (emitLocalEntries ilocs resLoc resSize rc ((r, v) :: rest)
          i cur).1 =
          List.replicate (r - i) TEntry.storeOptimizedOut ++
            BuildDeoptFrameSingleValue v (ilocs.getD cur InputLoc.constant)
              :: (emitLocalEntries ilocs resLoc resSize rc rest (r + 1)
                (cur + 1)).1 := by
        simp [emitLocalEntries, hel]
      rw [hstep] at he
      rcases List.mem_append.mp he with he | he
      · rw [(List.eq_of_mem_replicate he : e = TEntry.storeOptimizedOut)]
        rfl
      · rcases List.mem_cons.mp he with he | he
        · subst he; exact buildSingle_not_begin v _
        · exact ih (r + 1) (cur + 1) e he

/-- The accumulator entry is a value entry. -/
theorem emitAccumulatorEntry_not_begin (ilocs : List InputLoc)
    (resLoc : Option Int) (resSize : Nat) (accIdx : Int) (accLive : Bool)
    (acc : VNode) (cur : Nat) (e : TEntry)
    (he : e ∈ (emitAccumulatorEntry ilocs resLoc resSize accIdx accLive acc
      cur).1) : e.isFrameBegin = false := by
  unfold emitAccumulatorEntry at he
  split at he <;> simp only [List.mem_singleton] at he <;> subst he
  · exact buildSingle_not_begin acc _
  · rfl

/-- The builtin-continuation parameter loop emits only value entries. -/
theorem emitBuiltinParams_not_begin (ilocs : List InputLoc) :
    ∀ (vs : List VNode) (cur : Nat) (e : TEntry),
      e ∈ (emitBuiltinParams ilocs vs cur).1 → e.isFrameBegin = false := by
  intro vs
  induction vs with
  | nil => intro cur e he; exact absurd he (by simp [emitBuiltinParams])
  | cons v rest ih =>
    intro cur e he
    simp only [emitBuiltinParams, List.mem_cons] at he
    rcases he with he | he
    · subst he; exact buildSingle_not_begin v _
    · exact ih (cur + 1) e he

/-- `BuildDeoptFrameValues` emits only value entries: every frame-begin
entry of a translation comes from the frame loop itself. -/
theorem buildDeoptFrameValues_not_begin (accIdx : Int)
    (d : InterpFrameData) (ilocs : List InputLoc) (cur : Nat)
    (resLoc : Option Int) (resSize : Nat) (e : TEntry)
    (he : e ∈ (BuildDeoptFrameValues accIdx d ilocs cur resLoc resSize).1) :
    e.isFrameBegin = false := by
  unfold BuildDeoptFrameValues at he
  simp only [] at he
  rcases List.mem_append.mp he with he | he
  · rcases List.mem_append.mp he with he | he
    · rcases List.mem_cons.mp he with he | he
      · subst he
        split <;> rfl
      · exact emitParamEntries_not_begin ilocs resLoc resSize d.params cur
          e he
    · rcases List.mem_cons.mp he with he | he
      · subst he; exact buildSingle_not_begin d.context _
      · exact emitLocalEntries_not_begin ilocs resLoc resSize
          d.registerCount d.locals 0 _ e he
  · exact emitAccumulatorEntry_not_begin ilocs resLoc resSize accIdx
      d.accLive d.acc _ e he

/-- Every interpreted-frame begin entry emitted by `BuildDeoptFrame` (the
eager serializer and the lazy serializer's parent chain) carries return
offset 0 and return count 0. -/
theorem buildDeoptFrame_begins_zero (accIdx : Int) (ilocs : List InputLoc) :
    ∀ (f : DeoptFrame) (cur : Nat) (e : TEntry),
      e ∈ (BuildDeoptFrame accIdx ilocs f cur).1 →
      ∀ pos lit rc ro rcnt,
        e = TEntry.beginInterpretedFrame pos lit rc ro rcnt →
        ro = 0 ∧ rcnt = 0 := by
  intro f
  induction f with
  | interpreted d =>
    intro cur e he pos lit rc ro rcnt hb
    have hstep : (BuildDeoptFrame accIdx ilocs (.interpreted d) cur).1 =
        TEntry.beginInterpretedFrame d.bytecodePos d.sfiLit d.registerCount
          0 0 :: (BuildDeoptFrameValues accIdx d ilocs cur none 0).1 := rfl
    rw [hstep] at he
    rcases List.mem_cons.mp he with he | he
    · rw [hb] at he
      cases he
      exact ⟨rfl, rfl⟩
    · have := buildDeoptFrameValues_not_begin accIdx d ilocs cur none 0 e he
      rw [hb] at this
      exact absurd this (by simp [TEntry.isFrameBegin])
  | interpretedInlined parent d ih =>
    intro cur e he pos lit rc ro rcnt hb
    have hstep : (BuildDeoptFrame accIdx ilocs
        (.interpretedInlined parent d) cur).1 =
        (BuildDeoptFrame accIdx ilocs parent cur).1 ++
          TEntry.beginInterpretedFrame d.bytecodePos d.sfiLit
            d.registerCount 0 0 ::
            (BuildDeoptFrameValues accIdx d ilocs
              (BuildDeoptFrame accIdx ilocs parent cur).2 none 0).1 := rfl
    rw [hstep] at he
    rcases List.mem_append.mp he with he | he
    · exact ih cur e he pos lit rc ro rcnt hb
    rcases List.mem_cons.mp he with he | he
    · rw [hb] at he
      cases he
      exact ⟨rfl, rfl⟩
    · have := buildDeoptFrameValues_not_begin accIdx d ilocs
        (BuildDeoptFrame accIdx ilocs parent cur).2 none 0 e he
      rw [hb] at this
      exact absurd this (by simp [TEntry.isFrameBegin])
  | builtinCont parent boff lit bparams bctx ih =>
    intro cur e he pos blit rc ro rcnt hb
    have hstep : (BuildDeoptFrame accIdx ilocs
        (.builtinCont parent boff lit bparams bctx) cur).1 =
        (BuildDeoptFrame accIdx ilocs parent cur).1 ++
          TEntry.beginBuiltinContinuationFrame boff lit bparams.length ::
            TEntry.storeOptimizedOut ::
            (emitBuiltinParams ilocs bparams
              (BuildDeoptFrame accIdx ilocs parent cur).2).1 ++
            [BuildDeoptFrameSingleValue bctx
              (ilocs.getD (emitBuiltinParams ilocs bparams
                (BuildDeoptFrame accIdx ilocs parent cur).2).2
                InputLoc.constant)] := rfl
    rw [hstep] at he
    rcases List.mem_append.mp he with he | he
    · rcases List.mem_append.mp he with he | he
      · exact ih cur e he pos blit rc ro rcnt hb
      rcases List.mem_cons.mp he with he | he
      · rw [hb] at he; cases he
      rcases List.mem_cons.mp he with he | he
      · rw [hb] at he; cases he
      · have := emitBuiltinParams_not_begin ilocs bparams _ e he
        rw [hb] at this
        exact absurd this (by simp [TEntry.isFrameBegin])
    · have heq := List.mem_singleton.mp he
      have := buildSingle_not_begin bctx
        (ilocs.getD (emitBuiltinParams ilocs bparams
          (BuildDeoptFrame accIdx ilocs parent cur).2).2 InputLoc.constant)
      rw [← heq, hb] at this
      exact absurd this (by simp [TEntry.isFrameBegin])

/-- C8: every eager bailout frame (and every lazy parent frame) records no
return-value slot (return offset 0, return count 0); for a lazy bailout the
top frame's logical slots in the call's result range
`result_location .. result_location + result_size − 1` are serialized as
optimized-out markers that consume no input location, and every other slot
is captured normally (live slots capture the next input location with their
representation, dead slots are optimized out). -/
theorem deopt_eager_lazy_return_slots (accIdx : Int) (isParam : Int → Bool)
    (toParamIndex : Int → Int) (ilocs : List InputLoc)
    (d : InterpFrameData) (rIdx : Int) (rSize : Nat) (cur : Nat)
    (hwf : LocalsWellFormed d.locals 0 d.registerCount) :
    (∀ (top : DeoptFrame) (fb : Option (Nat × Int)) (e : TEntry),
      e ∈ BuildEagerDeopt accIdx ilocs top fb →
      ∀ pos lit rc ro rcnt,
        e = TEntry.beginInterpretedFrame pos lit rc ro rcnt →
        ro = 0 ∧ rcnt = 0) ∧
    (BuildLazyDeopt accIdx isParam toParamIndex ilocs (.interpreted d) rIdx
        rSize none =
      TEntry.beginInterpretedFrame d.bytecodePos d.sfiLit d.registerCount
        (if rIdx = accIdx then 0
         else if isParam rIdx then
           (d.registerCount : Int) + (d.params.length : Int) -
             toParamIndex rIdx
         else (d.registerCount : Int) - rIdx)
        rSize ::
        (BuildDeoptFrameValues accIdx d ilocs 0 (some rIdx) rSize).1) ∧
    (∀ (j : Nat) (hj : j < d.params.length),
      (BuildDeoptFrameValues accIdx d ilocs cur (some rIdx) rSize).1.get?
          (1 + j) =
        some (if InReturnValues (d.params.get ⟨j, hj⟩).1 (some rIdx) rSize
          then TEntry.storeOptimizedOut
          else BuildDeoptFrameSingleValue (d.params.get ⟨j, hj⟩).2
            (ilocs.getD
              (cur + capturedParamsBefore (some rIdx) rSize d.params j)
              InputLoc.constant))) ∧
    (∀ k : Nat, k < d.registerCount →
      (BuildDeoptFrameValues accIdx d ilocs cur (some rIdx) rSize).1.get?
          (1 + d.params.length + 1 + k) =
        some (match d.locals.find? (fun p => p.1 = k) with
          | some p =>
            if InReturnValues (k : Int) (some rIdx) rSize then
              TEntry.storeOptimizedOut
            else
              BuildDeoptFrameSingleValue p.2
                (ilocs.getD
                  (cur + (d.params.filter (fun p =>
                      ¬ InReturnValues p.1 (some rIdx) rSize)).length + 1 +
                    capturedLocalsBefore (some rIdx) rSize d.locals k)
                  InputLoc.constant)
          | none => TEntry.storeOptimizedOut)) ∧
    ((BuildDeoptFrameValues accIdx d ilocs cur (some rIdx) rSize).1.get?
        (1 + d.params.length + 1 + d.registerCount) =
      some (if d.accLive ∧ ¬ InReturnValues accIdx (some rIdx) rSize then
          BuildDeoptFrameSingleValue d.acc
            (ilocs.getD
              (cur + (d.params.filter (fun p =>
                  ¬ InReturnValues p.1 (some rIdx) rSize)).length + 1 +
                (d.locals.filter (fun p =>
                  ¬ InReturnValues (p.1 : Int) (some rIdx) rSize)).length)
              InputLoc.constant)
        else TEntry.storeOptimizedOut)) := by
  obtain ⟨plenP, pcurP, pgetP⟩ :=
    emitParamEntries_spec ilocs (some rIdx) rSize d.params cur
  obtain ⟨llenL, lcurL, lgetL⟩ :=
    emitLocalEntries_spec ilocs (some rIdx) rSize d.registerCount d.locals 0
      ((emitParamEntries ilocs (some rIdx) rSize d.params cur).2 + 1) hwf
  -- the frame-values list and its chunks, with raw cursors
  have hfv : (BuildDeoptFrameValues accIdx d ilocs cur (some rIdx)
      rSize).1 =
      ((if d.inliningDepth = 0 then
          TEntry.storeStackSlot
            (DeoptStackSlotIndexFromFPOffset kFunctionOffset)
        else TEntry.storeLiteral d.funcLit) ::
        (emitParamEntries ilocs (some rIdx) rSize d.params cur).1 ++
        BuildDeoptFrameSingleValue d.context
          (ilocs.getD (emitParamEntries ilocs (some rIdx) rSize d.params
            cur).2 InputLoc.constant) ::
          (emitLocalEntries ilocs (some rIdx) rSize d.registerCount d.locals
            0 ((emitParamEntries ilocs (some rIdx) rSize d.params cur).2 +
              1)).1) ++
        (emitAccumulatorEntry ilocs (some rIdx) rSize accIdx d.accLive d.acc
          (emitLocalEntries ilocs (some rIdx) rSize d.registerCount d.locals
            0 ((emitParamEntries ilocs (some rIdx) rSize d.params cur).2 +
              1)).2).1 := rfl
  have hlenA : ((if d.inliningDepth = 0 then
      TEntry.storeStackSlot (DeoptStackSlotIndexFromFPOffset kFunctionOffset)
    else TEntry.storeLiteral d.funcLit) ::
      (emitParamEntries ilocs (some rIdx) rSize d.params cur).1).length =
      1 + d.params.length := by
    simp only [List.length_cons, plenP]
    omega
  have hlenB : (BuildDeoptFrameSingleValue d.context
      (ilocs.getD (emitParamEntries ilocs (some rIdx) rSize d.params cur).2
        InputLoc.constant) ::
      (emitLocalEntries ilocs (some rIdx) rSize d.registerCount d.locals 0
        ((emitParamEntries ilocs (some rIdx) rSize d.params cur).2 +
          1)).1).length = 1 + d.registerCount := by
    simp only [List.length_cons, llenL]
    omega
  refine ⟨?_, ?_, ?_, ?_, ?_⟩
  · -- eager part
    intro top fb e he pos lit rc ro rcnt hb
    unfold BuildEagerDeopt at he
    rcases List.mem_append.mp he with he | he
    · exfalso
      cases fb with
      | none => exact absurd he (by simp)
      | some p =>
        obtain ⟨l, i⟩ := p
        simp only [List.mem_singleton] at he
        rw [hb] at he
        cases he
    · exact buildDeoptFrame_begins_zero accIdx ilocs top 0 e he pos lit rc
        ro rcnt hb
  · -- lazy top-frame decomposition
    rfl
  · -- parameters
    intro j hj
    rw [hfv]
    rw [List.get?_append (by
      simp only [List.length_append, hlenA, hlenB]
      omega)]
    rw [List.get?_append (by rw [hlenA]; omega)]
    rw [show (1 + j) = j + 1 by omega, List.get?_cons_succ]
    exact pgetP j hj
  · -- locals
    intro k hk
    rw [hfv]
    rw [List.get?_append (by
      simp only [List.length_append, hlenA, hlenB]
      omega)]
    rw [List.get?_append_right (by rw [hlenA]; omega)]
    rw [hlenA]
    rw [show 1 + d.params.length + 1 + k - (1 + d.params.length) = k + 1
      by omega]
    rw [List.get?_cons_succ]
    have hres := lgetL k (by omega) hk
    rw [Nat.sub_zero] at hres
    rw [hres, pcurP]
  · -- accumulator
    rw [hfv]
    rw [List.get?_append_right (by
      simp only [List.length_append, hlenA, hlenB]
      omega)]
    rw [show ((if d.inliningDepth = 0 then
        TEntry.storeStackSlot
          (DeoptStackSlotIndexFromFPOffset kFunctionOffset)
      else TEntry.storeLiteral d.funcLit) ::
        (emitParamEntries ilocs (some rIdx) rSize d.params cur).1 ++
        BuildDeoptFrameSingleValue d.context
          (ilocs.getD (emitParamEntries ilocs (some rIdx) rSize d.params
            cur).2 InputLoc.constant) ::
          (emitLocalEntries ilocs (some rIdx) rSize d.registerCount d.locals
            0 ((emitParamEntries ilocs (some rIdx) rSize d.params cur).2 +
              1)).1).length = 1 + d.params.length + 1 + d.registerCount
      from by
        simp only [List.length_append, hlenA, hlenB]
        omega]
    rw [Nat.sub_self]
    have hacur : (emitLocalEntries ilocs (some rIdx) rSize d.registerCount
        d.locals 0 ((emitParamEntries ilocs (some rIdx) rSize d.params
          cur).2 + 1)).2 =
        cur + (d.params.filter (fun p =>
          ¬ InReturnValues p.1 (some rIdx) rSize)).length + 1 +
          (d.locals.filter (fun p =>
            ¬ InReturnValues (p.1 : Int) (some rIdx) rSize)).length := by
      rw [lcurL, pcurP]
    rw [hacur]
    unfold emitAccumulatorEntry
    split
    case isTrue h => simp [h]
    case isFalse h => simp [h]

/-- C8 witness: a concrete two-parameter, three-register frame with a lazy
deopt whose result range covers interpreter register 1; the hypotheses hold
and the accumulator slot captures the sixth input location as an
unsigned-32 register store. -/
theorem deopt_eager_lazy_return_slots_witness :
    LocalsWellFormed
      [(0, ⟨ValueRepr.tagged, 4⟩), (2, ⟨ValueRepr.float64, 5⟩)] 0 3 ∧
    (BuildDeoptFrameValues 7
        ⟨10, 11, 12, 0, 3,
          [(-2, ⟨ValueRepr.tagged, 1⟩), (-1, ⟨ValueRepr.int32, 2⟩)],
          ⟨ValueRepr.tagged, 3⟩,
          [(0, ⟨ValueRepr.tagged, 4⟩), (2, ⟨ValueRepr.float64, 5⟩)], true,
          ⟨ValueRepr.uint32, 6⟩⟩
        [InputLoc.inReg 0, InputLoc.inStack (-8), InputLoc.constant,
          InputLoc.inReg 3, InputLoc.inDoubleReg 1, InputLoc.inReg 5] 0
        (some 1) 1).1.get? (1 + 2 + 1 + 3) =
      some (TEntry.storeUint32Register 5) := by
  refine ⟨by simp [LocalsWellFormed], ?_⟩
  have h := (deopt_eager_lazy_return_slots 7 (fun i => decide (i < 0))
    (fun i => i + 2)
    [InputLoc.inReg 0, InputLoc.inStack (-8), InputLoc.constant,
      InputLoc.inReg 3, InputLoc.inDoubleReg 1, InputLoc.inReg 5]
    ⟨10, 11, 12, 0, 3,
      [(-2, ⟨ValueRepr.tagged, 1⟩), (-1, ⟨ValueRepr.int32, 2⟩)],
      ⟨ValueRepr.tagged, 3⟩,
      [(0, ⟨ValueRepr.tagged, 4⟩), (2, ⟨ValueRepr.float64, 5⟩)], true,
      ⟨ValueRepr.uint32, 6⟩⟩ 1 1 0
    (by simp [LocalsWellFormed])).2.2.2.2
  exact h.trans (by decide)

end V8Backend

namespace V8Backend

/-! ## ParallelMoveResolver (src/maglev/maglev-code-generator.cc, lines 97-424)

Shallow embedding of the templated `ParallelMoveResolver<RegisterT>`: one
register class with `k` allocatable registers (`Fin k`), one designated
scratch register outside the allocatable set, and stack slots indexed by
their int32 frame-pointer offset.  Emitted macro-assembler calls become an
instruction list interpreted over a symbolic machine whose values are the
initial contents of locations and materialized node values. -/

/-- A location that can participate in the move graph: an allocatable
register or a stack slot (its frame-pointer offset). -/
inductive GapLoc (k : Nat) where
  | reg (r : Fin k)
  | slot (s : Int)
  deriving DecidableEq, Repr

/-- A machine location: a graph location or the per-class scratch register
(`kScratchRegT`). -/
inductive MLoc (k : Nat) where
  | reg (r : Fin k)
  | slot (s : Int)
  | scratch
  deriving DecidableEq, Repr

/-- View of a graph location as a machine location. -/
def GapLoc.toMLoc {k : Nat} : GapLoc k → MLoc k
  | .reg r => .reg r
  | .slot s => .slot s

/-- The source of a recorded move: the `compiler::InstructionOperand` is a
register, a stack slot, or a constant (carrying the `ValueNode*`, modelled
as a numeric id). -/
inductive MoveSource (k : Nat) where
  | reg (r : Fin k)
  | slot (s : Int)
  | constant (n : Nat)
  deriving DecidableEq, Repr

/-- A symbolic value: the initial content of a machine location, a
materialized constant node, or junk (never produced by well-fuelled runs). -/
inductive SVal (k : Nat) where
  | initial (l : MLoc k)
  | node (n : Nat)
  | junk
  deriving DecidableEq, Repr

/-- One emitted macro-assembler operation: `__ Move(dst, src)`,
`__ Push(src)`, `__ Pop(dst)`, or `node->LoadToRegister(masm, dst)`
(materialization of a constant). -/
inductive Instr (k : Nat) where
  | mov (dst src : MLoc k)
  | push (src : MLoc k)
  | pop (dst : MLoc k)
  | materialize (dst : MLoc k) (n : Nat)
  deriving DecidableEq, Repr

/-- The symbolic machine: a value for every machine location plus the
native stack used by `Push`/`Pop`. -/
structure Machine (k : Nat) where
  mem : MLoc k → SVal k
  nstack : List (SVal k)

/-- Execute one instruction. -/
def Machine.step {k : Nat} (m : Machine k) : Instr k → Machine k
  | .mov dst src => ⟨Function.update m.mem dst (m.mem src), m.nstack⟩
  | .push src => ⟨m.mem, m.mem src :: m.nstack⟩
  | .pop dst =>
    match m.nstack with
    | v :: rest => ⟨Function.update m.mem dst v, rest⟩
    | [] => ⟨Function.update m.mem dst SVal.junk, []⟩
  | .materialize dst n => ⟨Function.update m.mem dst (SVal.node n), m.nstack⟩

/-- Execute an instruction sequence from left to right. -/
def Machine.run {k : Nat} (m : Machine k) (code : List (Instr k)) : Machine k :=
  code.foldl Machine.step m

/-- The machine at the start of the parallel move: every location holds its
initial symbolic value and the native stack is empty. -/
def initMachine (k : Nat) : Machine k :=
  ⟨fun l => SVal.initial l, []⟩

/-- `GapMoveTargets` (lines 150-165): the outgoing edges of one source, a
register list plus a vector of stack slots. -/
structure GapMoveTargets (k : Nat) where
  registers : List (Fin k)
  stackSlots : List Int
  deriving DecidableEq, Repr

/-- The empty target set (`GapMoveTargets{}`). -/
def GapMoveTargets.empty (k : Nat) : GapMoveTargets k := ⟨[], []⟩

/-- `GapMoveTargets::is_empty`. -/
def GapMoveTargets.isEmpty {k : Nat} (t : GapMoveTargets k) : Bool :=
  t.registers.isEmpty && t.stackSlots.isEmpty

/-- Number of outgoing edges in a target set. -/
def GapMoveTargets.count {k : Nat} (t : GapMoveTargets k) : Nat :=
  t.registers.length + t.stackSlots.length

/-- The targets as graph locations, registers first: the iteration order of
`RecursivelyEmitMoveChainTargets` and of `EmitMovesFromSource`. -/
def GapMoveTargets.asList {k : Nat} (t : GapMoveTargets k) : List (GapLoc k) :=
  t.registers.map GapLoc.reg ++ t.stackSlots.map GapLoc.slot

/-- `RegListBase::set`: a register bitset, modelled as a duplicate-free list
kept sorted by register code (the bitset iteration order). -/
def insertReg {k : Nat} (r : Fin k) : List (Fin k) → List (Fin k)
  | [] => [r]
  | x :: xs =>
    if r.val < x.val then r :: x :: xs
    else if r = x then x :: xs
    else x :: insertReg r xs

/-- State of the resolver: `moves_from_register_` (array indexed by register
code), `moves_from_stack_slot_` (a map from slot to targets, modelled as an
association list in insertion order), the two materializing-move
collections, and `scratch_has_cycle_start_`. -/
structure ResolverState (k : Nat) where
  movesFromRegister : Fin k → GapMoveTargets k
  movesFromStackSlot : List (Int × GapMoveTargets k)
  materializingRegisterMoves : Fin k → Option Nat
  materializingStackSlotMoves : List (Int × Nat)
  scratchHasCycleStart : Bool

/-- A freshly constructed resolver: all collections empty, flag clear. -/
def initResolver (k : Nat) : ResolverState k :=
  ⟨fun _ => GapMoveTargets.empty k, [], fun _ => none, [], false⟩

/-- Map read with default: `moves_from_stack_slot_[s]` for lookup purposes. -/
def lookupSlot {k : Nat} (s : Int) (l : List (Int × GapMoveTargets k)) :
    GapMoveTargets k :=
  match l.find? (fun p => p.1 = s) with
  | some p => p.2
  | none => GapMoveTargets.empty k

/-- Map update-or-insert: `operator[]` followed by a mutation of the entry. -/
def updateSlotMap {k : Nat} (s : Int)
    (f : GapMoveTargets k → GapMoveTargets k) :
    List (Int × GapMoveTargets k) → List (Int × GapMoveTargets k)
  | [] => [(s, f (GapMoveTargets.empty k))]
  | (s1, t) :: rest =>
    if s1 = s then (s1, f t) :: rest else (s1, t) :: updateSlotMap s f rest

/-- `RecordMoveToRegister` (lines 216-236): register sources filter out
self-moves, stack-slot sources add a register target edge, constant sources
record a materializing register move. -/
def RecordMoveToRegister {k : Nat} (st : ResolverState k)
    (source : MoveSource k) (targetReg : Fin k) : ResolverState k :=
  match source with
  | .reg r =>
    if targetReg ≠ r then
      let nt : GapMoveTargets k :=
        ⟨insertReg targetReg (st.movesFromRegister r).registers,
          (st.movesFromRegister r).stackSlots⟩
      {st with movesFromRegister := Function.update st.movesFromRegister r nt}
    else st
  | .slot s =>
    let nm := updateSlotMap s
      (fun t => ⟨insertReg targetReg t.registers, t.stackSlots⟩)
      st.movesFromStackSlot
    {st with movesFromStackSlot := nm}
  | .constant n =>
    {st with materializingRegisterMoves :=
      Function.update st.materializingRegisterMoves targetReg (some n)}

/-- `RecordMoveToStackSlot` (lines 238-259): register sources push a
stack-slot target, stack-slot sources filter out self-moves, constant
sources record a materializing stack-slot move. -/
def RecordMoveToStackSlot {k : Nat} (st : ResolverState k)
    (source : MoveSource k) (targetSlot : Int) : ResolverState k :=
  match source with
  | .reg r =>
    let nt : GapMoveTargets k :=
      ⟨(st.movesFromRegister r).registers,
        (st.movesFromRegister r).stackSlots ++ [targetSlot]⟩
    {st with movesFromRegister := Function.update st.movesFromRegister r nt}
  | .slot s =>
    if s ≠ targetSlot then
      let nm := updateSlotMap s
        (fun t => ⟨t.registers, t.stackSlots ++ [targetSlot]⟩)
        st.movesFromStackSlot
      {st with movesFromStackSlot := nm}
    else st
  | .constant n =>
    {st with materializingStackSlotMoves :=
      st.materializingStackSlotMoves ++ [(targetSlot, n)]}

/-- `RecordMove` (lines 107-120): dispatch on the target kind. -/
def RecordMove {k : Nat} (st : ResolverState k) (source : MoveSource k) :
    GapLoc k → ResolverState k
  | .reg r => RecordMoveToRegister st source r
  | .slot s => RecordMoveToStackSlot st source s

/-- Record a whole move set in order. -/
def recordAll {k : Nat} (moves : List (MoveSource k × GapLoc k))
    (st : ResolverState k) : ResolverState k :=
  moves.foldl (fun acc mv => RecordMove acc mv.1 mv.2) st

/-- The targets currently attached to a source. -/
def targetsOf {k : Nat} (st : ResolverState k) : GapLoc k → GapMoveTargets k
  | .reg r => st.movesFromRegister r
  | .slot s => lookupSlot s st.movesFromStackSlot

/-- `PopTargets` (lines 261-272): return and clear all outgoing edges of a
source (`std::exchange` for registers, `extract` for slots). -/
def PopTargets {k : Nat} (st : ResolverState k) :
    GapLoc k → GapMoveTargets k × ResolverState k
  | .reg r =>
    (st.movesFromRegister r,
      {st with movesFromRegister :=
        Function.update st.movesFromRegister r (GapMoveTargets.empty k)})
  | .slot s =>
    (lookupSlot s st.movesFromStackSlot,
      {st with movesFromStackSlot :=
        st.movesFromStackSlot.eraseP (fun p => p.1 = s)})

/-- All edge targets of the current move graph, register sources (in code
order) before stack-slot sources (in map order). -/
def allTargets {k : Nat} (st : ResolverState k) : List (GapLoc k) :=
  (List.finRange k).flatMap (fun r => (st.movesFromRegister r).asList) ++
  st.movesFromStackSlot.flatMap (fun p => p.2.asList)

/-- Total number of edges in the move graph. -/
def edgeCount {k : Nat} (st : ResolverState k) : Nat :=
  ((List.finRange k).map (fun r => (st.movesFromRegister r).count)).sum +
  (st.movesFromStackSlot.map (fun p => p.2.count)).sum

/-- `EmitMovesFromSource` with a register (or scratch) source
(lines 354-365): a plain move to every target. -/
def EmitMovesFromRegSource {k : Nat} (src : MLoc k)
    (targets : GapMoveTargets k) : List (Instr k) :=
  targets.registers.map (fun t => Instr.mov (MLoc.reg t) src) ++
  targets.stackSlots.map (fun s => Instr.mov (MLoc.slot s) src)

/-- `EmitMovesFromSource` with a stack-slot source (lines 367-392): cache
the slot value in the first register target when there is one, otherwise in
the scratch register, pushing the scratch first when it still holds a cycle
start. -/
def EmitMovesFromSlotSource {k : Nat} (srcSlot : Int)
    (targets : GapMoveTargets k) (st : ResolverState k) :
    List (Instr k) × ResolverState k :=
  match targets.registers with
  | t :: rest =>
    (Instr.mov (MLoc.reg t) (MLoc.slot srcSlot) ::
      EmitMovesFromRegSource (MLoc.reg t) ⟨rest, targets.stackSlots⟩, st)
  | [] =>
    if st.scratchHasCycleStart then
      (Instr.push MLoc.scratch :: Instr.mov MLoc.scratch (MLoc.slot srcSlot) ::
        EmitMovesFromRegSource MLoc.scratch ⟨[], targets.stackSlots⟩,
        {st with scratchHasCycleStart := false})
    else
      (Instr.mov MLoc.scratch (MLoc.slot srcSlot) ::
        EmitMovesFromRegSource MLoc.scratch ⟨[], targets.stackSlots⟩, st)

/-- Dispatch of `EmitMovesFromSource` on the source kind. -/
def EmitMovesFromSource {k : Nat} (source : GapLoc k)
    (targets : GapMoveTargets k) (st : ResolverState k) :
    List (Instr k) × ResolverState k :=
  match source with
  | .reg r => (EmitMovesFromRegSource (MLoc.reg r) targets, st)
  | .slot s => EmitMovesFromSlotSource s targets st

mutual

/-- `ContinueEmitMoveChain` (lines 307-334): detect a cycle when the
recursion returns to the chain start (saving the chain-start value in the
scratch register), otherwise pop the source targets, recurse into them and
then emit the moves out of this source.  The fuel argument only bounds the
recursion depth; with fuel above the edge count it is never exhausted. -/
def ContinueEmitMoveChain {k : Nat} (fuel : Nat) (chainStart source : GapLoc k)
    (st : ResolverState k) : List (Instr k) × ResolverState k × Bool :=
  if chainStart = source then
    ([Instr.mov MLoc.scratch source.toMLoc],
      {st with scratchHasCycleStart := true}, true)
  else
    match fuel with
    | 0 => ([], st, false)
    | fuel + 1 =>
      let p := PopTargets st source
      if p.1.isEmpty then ([], p.2, false)
      else
        let r := EmitChainTargets fuel chainStart p.1.asList p.2
        let e := EmitMovesFromSource source p.1 r.2.1
        (r.1 ++ e.1, e.2, r.2.2)
termination_by (fuel, 0)

/-- `RecursivelyEmitMoveChainTargets` (lines 336-352): continue the chain
into every target, register targets first, or-ing the cycle flags. -/
def EmitChainTargets {k : Nat} (fuel : Nat) (chainStart : GapLoc k)
    (ts : List (GapLoc k)) (st : ResolverState k) :
    List (Instr k) × ResolverState k × Bool :=
  match ts with
  | [] => ([], st, false)
  | t :: rest =>
    let c := ContinueEmitMoveChain fuel chainStart t st
    let r := EmitChainTargets fuel chainStart rest c.2.1
    (c.1 ++ r.1, r.2.1, c.2.2 || r.2.2)
termination_by (fuel, ts.length + 1)

end

/-- `StartEmitMoveChain` (lines 279-305): pop the chain-start targets,
recurse, then emit from the chain start; when the chain contains a cycle the
saved chain-start value is restored to the scratch register (popping it from
the native stack if a later stack-to-stack move spilled it there) and the
chain-start targets are emitted from the scratch register. -/
def StartEmitMoveChain {k : Nat} (fuel : Nat) (source : GapLoc k)
    (st : ResolverState k) : List (Instr k) × ResolverState k :=
  let p := PopTargets st source
  if p.1.isEmpty then ([], p.2)
  else
    let r := EmitChainTargets fuel source p.1.asList p.2
    if r.2.2 then
      if r.2.1.scratchHasCycleStart then
        (r.1 ++ EmitMovesFromRegSource MLoc.scratch p.1,
          {r.2.1 with scratchHasCycleStart := false})
      else
        (r.1 ++ Instr.pop MLoc.scratch ::
          EmitMovesFromRegSource MLoc.scratch p.1,
          {r.2.1 with scratchHasCycleStart := false})
    else
      let e := EmitMovesFromSource source p.1 r.2.1
      (r.1 ++ e.1, e.2)

/-- The register loop of `EmitMoves` (lines 122-130): one chain per
allocatable register, followed by that register's materializing move if
there is one. -/
def emitRegisterPhase {k : Nat} (fuel : Nat) :
    List (Fin k) → ResolverState k → List (Instr k) × ResolverState k
  | [], st => ([], st)
  | r :: rest, st =>
    let c := StartEmitMoveChain fuel (GapLoc.reg r) st
    let mat : List (Instr k) :=
      match c.2.materializingRegisterMoves r with
      | some n => [Instr.materialize (MLoc.reg r) n]
      | none => []
    let rec1 := emitRegisterPhase fuel rest c.2
    (c.1 ++ mat ++ rec1.1, rec1.2)

/-- The stack-slot loop of `EmitMoves` (lines 131-136): start a chain at the
first remaining stack-slot source until the map is empty.  The outer fuel
bounds the number of iterations; every iteration removes at least the head
entry. -/
def emitSlotPhase {k : Nat} (chainFuel : Nat) :
    Nat → ResolverState k → List (Instr k) × ResolverState k
  | 0, st => ([], st)
  | fuel + 1, st =>
    match st.movesFromStackSlot with
    | [] => ([], st)
    | (s, _) :: _ =>
      let c := StartEmitMoveChain chainFuel (GapLoc.slot s) st
      let r := emitSlotPhase chainFuel fuel c.2
      (c.1 ++ r.1, r.2)

/-- The materializing stack-slot loop of `EmitMoves` (lines 137-140): load
each constant into the scratch register and store it to its slot. -/
def emitStackMaterializations {k : Nat} (l : List (Int × Nat)) :
    List (Instr k) :=
  l.flatMap (fun p =>
    [Instr.materialize MLoc.scratch p.2, Instr.mov (MLoc.slot p.1) MLoc.scratch])

/-- `EmitMoves` (lines 122-141): register chains with register
materializations, then stack-slot chains, then stack-slot
materializations. -/
def EmitMoves {k : Nat} (st : ResolverState k) :
    List (Instr k) × ResolverState k :=
  let fuel := edgeCount st + 1
  let p1 := emitRegisterPhase fuel (List.finRange k) st
  let p2 := emitSlotPhase fuel p1.2.movesFromStackSlot.length p1.2
  (p1.1 ++ p2.1 ++
    emitStackMaterializations p2.2.materializingStackSlotMoves, p2.2)

/-- Value delivered by a recorded move source under the simultaneous
semantics: sources read their initial contents, constants their node. -/
def MoveSource.value {k : Nat} : MoveSource k → SVal k
  | .reg r => SVal.initial (MLoc.reg r)
  | .slot s => SVal.initial (MLoc.slot s)
  | .constant n => SVal.node n

/-- Simultaneous execution of a recorded move set: every target receives its
unique source value, every other location keeps its initial value. -/
def simultaneousAssignment {k : Nat} (moves : List (MoveSource k × GapLoc k))
    (d : GapLoc k) : SVal k :=
  match moves.find? (fun mv => mv.2 = d) with
  | some mv => mv.1.value
  | none => SVal.initial d.toMLoc

/-- A recorded move whose source and target are the same register or the
same stack slot. -/
def isSelfMove {k : Nat} : MoveSource k × GapLoc k → Bool
  | (.reg r, .reg r1) => r = r1
  | (.slot s, .slot s1) => s = s1
  | _ => false

/-- Injectivity of the graph-location view. -/
theorem GapLoc.toMLoc_inj {k : Nat} {a b : GapLoc k}
    (h : a.toMLoc = b.toMLoc) : a = b := by
  cases a <;> cases b <;> simp [GapLoc.toMLoc] at h <;> simp [h]

/-- Run of an appended sequence. -/
theorem Machine.run_append {k : Nat} (m : Machine k)
    (c1 c2 : List (Instr k)) : m.run (c1 ++ c2) = (m.run c1).run c2 := by
  simp [Machine.run, List.foldl_append]

/-- Run of a cons. -/
theorem Machine.run_cons {k : Nat} (m : Machine k) (i : Instr k)
    (c : List (Instr k)) : m.run (i :: c) = (m.step i).run c := rfl

/-- Run of the empty sequence. -/
theorem Machine.run_nil {k : Nat} (m : Machine k) : m.run [] = m := rfl

/-- A sequence of plain moves out of one source. -/
def movsTo {k : Nat} (src : MLoc k) (dsts : List (MLoc k)) : List (Instr k) :=
  dsts.map (fun d => Instr.mov d src)

/-- Memory effect of a move fan-out: when the source is not among the
destinations, every destination receives the source value and everything
else is untouched. -/
theorem movsTo_mem {k : Nat} (src : MLoc k) :
    ∀ (dsts : List (MLoc k)) (m : Machine k), src ∉ dsts →
      ∀ l, (m.run (movsTo src dsts)).mem l =
        if l ∈ dsts then m.mem src else m.mem l := by
  intro dsts
  induction dsts with
  | nil => intro m hsrc l; simp [movsTo, Machine.run]
  | cons d ds ih =>
    intro m hsrc l
    have hsd : src ≠ d := by
      intro h; exact hsrc (h ▸ List.mem_cons_self d ds)
    have hsds : src ∉ ds := fun h => hsrc (List.mem_cons_of_mem d h)
    have hstep : m.run (movsTo src (d :: ds)) =
        (m.step (Instr.mov d src)).run (movsTo src ds) := rfl
    rw [hstep, ih _ hsds]
    simp only [Machine.step]
    by_cases hlds : l ∈ ds
    · simp [hlds, Function.update_noteq hsd, List.mem_cons]
    · by_cases hld : l = d
      · subst hld
        simp [hlds, Function.update_noteq hsd, Function.update_same]
      · simp [hlds, hld, Function.update_noteq hld]

/-- Stack effect of a move fan-out: none. -/
theorem movsTo_nstack {k : Nat} (src : MLoc k) :
    ∀ (dsts : List (MLoc k)) (m : Machine k),
      (m.run (movsTo src dsts)).nstack = m.nstack := by
  intro dsts
  induction dsts with
  | nil => intro m; rfl
  | cons d ds ih => intro m; exact ih (m.step (Instr.mov d src))

/-- Shape of the instructions in a move fan-out. -/
theorem movsTo_instr {k : Nat} (src : MLoc k) (dsts : List (MLoc k))
    (i : Instr k) (h : i ∈ movsTo src dsts) :
    ∃ d ∈ dsts, i = Instr.mov d src := by
  simp only [movsTo, List.mem_map] at h
  obtain ⟨d, hd, rfl⟩ := h
  exact ⟨d, hd, rfl⟩

/-- The register-source emitter is a move fan-out over the target list. -/
theorem emitMovesFromRegSource_eq {k : Nat} (src : MLoc k)
    (targets : GapMoveTargets k) :
    EmitMovesFromRegSource src targets =
      movsTo src (targets.asList.map GapLoc.toMLoc) := by
  simp [EmitMovesFromRegSource, movsTo, GapMoveTargets.asList,
    Function.comp_def, GapLoc.toMLoc]

/-- The machine view of a graph location is never the scratch register. -/
theorem GapLoc.toMLoc_ne_scratch {k : Nat} (g : GapLoc k) :
    g.toMLoc ≠ MLoc.scratch := by
  cases g <;> simp [GapLoc.toMLoc]

/-- The scratch register never occurs among graph-location images. -/
theorem scratch_notin_map {k : Nat} (l : List (GapLoc k)) :
    MLoc.scratch ∉ l.map GapLoc.toMLoc := by
  intro h
  obtain ⟨g, _, hg⟩ := List.mem_map.mp h
  exact GapLoc.toMLoc_ne_scratch g hg

/-- Code without stack operations leaves the native stack unchanged. -/
theorem run_nstack_no_ops {k : Nat} :
    ∀ (code : List (Instr k)) (m : Machine k),
      (∀ i ∈ code, (∀ l, i ≠ Instr.push l) ∧ (∀ l, i ≠ Instr.pop l)) →
      (m.run code).nstack = m.nstack := by
  intro code
  induction code with
  | nil => intro m _; rfl
  | cons i rest ih =>
    intro m h
    have hrest := fun j hj => h j (List.mem_cons_of_mem i hj)
    have hi := h i (List.mem_cons_self i rest)
    rw [Machine.run_cons, ih _ hrest]
    cases i with
    | mov d s => rfl
    | materialize d n => rfl
    | push l => exact absurd rfl (hi.1 l)
    | pop l => exact absurd rfl (hi.2 l)

/-- Tracking of the saved cycle-start value `v`: when a cycle has been
found, the value sits in the scratch register (flag set) or on top of the
native stack (flag clear, after a `Push` spill); when no cycle has been
found the flag is clear and the stack is at its base. -/
def SavedState {k : Nat} (v : SVal k) (st : ResolverState k) (m : Machine k)
    (base : List (SVal k)) (found : Bool) : Prop :=
  if found then
    (st.scratchHasCycleStart = true ∧ m.mem MLoc.scratch = v ∧
      m.nstack = base) ∨
    (st.scratchHasCycleStart = false ∧ m.nstack = v :: base)
  else st.scratchHasCycleStart = false ∧ m.nstack = base

/-- Every intermediate native-stack state during a run of `code` from `m`
is the base stack or the base stack with one extra value. -/
def StackBounded {k : Nat} (m : Machine k) (code : List (Instr k))
    (base : List (SVal k)) : Prop :=
  ∀ c1 c2, code = c1 ++ c2 →
    (m.run c1).nstack = base ∨ ∃ w, (m.run c1).nstack = w :: base

/-- Well-formedness of the move graph: every location is the target of at
most one move (targets globally duplicate-free), the stack-slot map has
duplicate-free keys, and there are no self-edges. -/
def WF {k : Nat} (st : ResolverState k) : Prop :=
  (allTargets st).Nodup ∧
  (st.movesFromStackSlot.map Prod.fst).Nodup ∧
  ∀ x : GapLoc k, x ∉ (targetsOf st x).asList

/-- Composition of stack boundedness over appended code. -/
theorem stackBounded_append {k : Nat} {m : Machine k}
    {code1 code2 : List (Instr k)} {base : List (SVal k)}
    (h1 : StackBounded m code1 base)
    (h2 : StackBounded (m.run code1) code2 base) :
    StackBounded m (code1 ++ code2) base := by
  intro c1 c2 heq
  rcases List.append_eq_append_iff.mp heq.symm with ⟨t, ht1, ht2⟩ | ⟨t, ht1, ht2⟩
  · exact h1 c1 t ht1
  · rw [ht1, Machine.run_append]
    exact h2 t c2 ht2

/-- Stack boundedness of code without stack operations, started inside the
bound. -/
theorem stackBounded_no_ops {k : Nat} {m : Machine k}
    {code : List (Instr k)} {base : List (SVal k)}
    (hin : m.nstack = base ∨ ∃ w, m.nstack = w :: base)
    (hops : ∀ i ∈ code, (∀ l, i ≠ Instr.push l) ∧ (∀ l, i ≠ Instr.pop l)) :
    StackBounded m code base := by
  intro c1 c2 heq
  rw [run_nstack_no_ops c1 m (fun i hi => hops i (heq ▸ List.mem_append_left c2 hi))]
  exact hin

/-- SavedState only looks at the flag, the scratch content and the stack. -/
theorem savedState_congr {k : Nat} {v : SVal k} {st st2 : ResolverState k}
    {m m2 : Machine k} {base : List (SVal k)} {found : Bool}
    (h : SavedState v st m base found)
    (hf : st2.scratchHasCycleStart = st.scratchHasCycleStart)
    (hs : m2.mem MLoc.scratch = m.mem MLoc.scratch)
    (hn : m2.nstack = m.nstack) :
    SavedState v st2 m2 base found := by
  unfold SavedState at h ⊢
  cases found with
  | false => exact ⟨hf.trans h.1, hn.trans h.2⟩
  | true =>
    rcases h with ⟨h1, h2, h3⟩ | ⟨h1, h2⟩
    · exact Or.inl ⟨hf.trans h1, hs.trans h2, hn.trans h3⟩
    · exact Or.inr ⟨hf.trans h1, hn.trans h2⟩

/-- The native stack of a machine in SavedState is at base or one above. -/
theorem savedState_stack_cases {k : Nat} {v : SVal k} {st : ResolverState k}
    {m : Machine k} {base : List (SVal k)} {found : Bool}
    (h : SavedState v st m base found) :
    m.nstack = base ∨ ∃ w, m.nstack = w :: base := by
  unfold SavedState at h
  cases found with
  | false => exact Or.inl h.2
  | true =>
    rcases h with ⟨_, _, h3⟩ | ⟨_, h2⟩
    · exact Or.inl h3
    · exact Or.inr ⟨v, h2⟩

/-- Behaviour of the stack-slot-source emitter: every target receives the
source slot value, the saved cycle-start value survives (pushed to the
native stack when the scratch cache has to clobber it), the graph fields of
the resolver are untouched, the stack stays within one extra value, and the
code contains no pop and no materialization, pushes only the scratch, and
only moves out of the scratch, the source slot, or the first register
target. -/
theorem emitMovesFromSlotSource_spec {k : Nat} (s : Int)
    (targets : GapMoveTargets k) (st : ResolverState k) (m : Machine k)
    (v : SVal k) (base : List (SVal k)) (found : Bool)
    (hnd : targets.asList.Nodup)
    (hsv : SavedState v st m base found) :
    (∀ l : MLoc k, l ≠ MLoc.scratch →
      (m.run (EmitMovesFromSlotSource s targets st).1).mem l =
        if l ∈ targets.asList.map GapLoc.toMLoc
        then m.mem (MLoc.slot s) else m.mem l) ∧
    SavedState v (EmitMovesFromSlotSource s targets st).2
      (m.run (EmitMovesFromSlotSource s targets st).1) base found ∧
    (EmitMovesFromSlotSource s targets st).2.movesFromRegister =
      st.movesFromRegister ∧
    (EmitMovesFromSlotSource s targets st).2.movesFromStackSlot =
      st.movesFromStackSlot ∧
    (EmitMovesFromSlotSource s targets st).2.materializingRegisterMoves =
      st.materializingRegisterMoves ∧
    (EmitMovesFromSlotSource s targets st).2.materializingStackSlotMoves =
      st.materializingStackSlotMoves ∧
    StackBounded m (EmitMovesFromSlotSource s targets st).1 base ∧
    (∀ l, Instr.pop l ∉ (EmitMovesFromSlotSource s targets st).1) ∧
    (∀ l, Instr.push l ∈ (EmitMovesFromSlotSource s targets st).1 →
      l = MLoc.scratch) ∧
    (∀ l n, Instr.materialize l n ∉ (EmitMovesFromSlotSource s targets st).1) ∧
    (∀ d s1, Instr.mov d s1 ∈ (EmitMovesFromSlotSource s targets st).1 →
      s1 = MLoc.scratch ∨ s1 = MLoc.slot s ∨
        ∃ t, s1 = MLoc.reg t ∧ GapLoc.reg t ∈ targets.asList) := by
  rcases hreg : targets.registers with _ | ⟨t, rest⟩
  case cons =>
    have hcode : (EmitMovesFromSlotSource s targets st).1 =
        Instr.mov (MLoc.reg t) (MLoc.slot s) ::
          movsTo (MLoc.reg t)
            ((GapMoveTargets.asList ⟨rest, targets.stackSlots⟩).map
              GapLoc.toMLoc) := by
      rw [show (EmitMovesFromSlotSource s targets st) =
        (Instr.mov (MLoc.reg t) (MLoc.slot s) ::
          EmitMovesFromRegSource (MLoc.reg t) ⟨rest, targets.stackSlots⟩, st)
        from by rw [EmitMovesFromSlotSource, hreg]]
      rw [emitMovesFromRegSource_eq]
    have hst2 : (EmitMovesFromSlotSource s targets st).2 = st := by
      rw [show (EmitMovesFromSlotSource s targets st) =
        (Instr.mov (MLoc.reg t) (MLoc.slot s) ::
          EmitMovesFromRegSource (MLoc.reg t) ⟨rest, targets.stackSlots⟩, st)
        from by rw [EmitMovesFromSlotSource, hreg]]
    have hasList : targets.asList =
        GapLoc.reg t :: GapMoveTargets.asList ⟨rest, targets.stackSlots⟩ := by
      simp [GapMoveTargets.asList, hreg]
    have hnd2 := hasList ▸ hnd
    have htnotin : GapLoc.reg t ∉
        GapMoveTargets.asList ⟨rest, targets.stackSlots⟩ :=
      (List.nodup_cons.mp hnd2).1
    have htnotin2 : (MLoc.reg t : MLoc k) ∉
        (GapMoveTargets.asList (⟨rest, targets.stackSlots⟩ :
          GapMoveTargets k)).map GapLoc.toMLoc := by
      intro h
      obtain ⟨g, hg, hge⟩ := List.mem_map.mp h
      have : g = GapLoc.reg t := GapLoc.toMLoc_inj (hge.trans rfl)
      exact htnotin (this ▸ hg)
    have hm1 : m.step (Instr.mov (MLoc.reg t) (MLoc.slot s)) =
        ⟨Function.update m.mem (MLoc.reg t) (m.mem (MLoc.slot s)),
          m.nstack⟩ := rfl
    have hrun : m.run (EmitMovesFromSlotSource s targets st).1 =
        (m.step (Instr.mov (MLoc.reg t) (MLoc.slot s))).run
          (movsTo (MLoc.reg t)
            ((GapMoveTargets.asList ⟨rest, targets.stackSlots⟩).map
              GapLoc.toMLoc)) := by
      rw [hcode]; rfl
    have hnoops : ∀ i ∈ (EmitMovesFromSlotSource s targets st).1,
        (∀ l, i ≠ Instr.push l) ∧ (∀ l, i ≠ Instr.pop l) := by
      intro i hi
      rw [hcode] at hi
      rcases List.mem_cons.mp hi with rfl | hi
      · exact ⟨(fun l h => nomatch h), (fun l h => nomatch h)⟩
      · obtain ⟨d, _, rfl⟩ := movsTo_instr _ _ _ hi
        exact ⟨(fun l h => nomatch h), (fun l h => nomatch h)⟩
    have hns : (m.run (EmitMovesFromSlotSource s targets st).1).nstack =
        m.nstack := run_nstack_no_ops _ m hnoops
    have hmem : ∀ l : MLoc k,
        (m.run (EmitMovesFromSlotSource s targets st).1).mem l =
        if l ∈ targets.asList.map GapLoc.toMLoc
        then m.mem (MLoc.slot s) else m.mem l := by
      intro l
      rw [hrun, movsTo_mem _ _ _ htnotin2]
      simp only [Machine.step]
      by_cases hld : l ∈ (GapMoveTargets.asList (⟨rest, targets.stackSlots⟩ :
          GapMoveTargets k)).map GapLoc.toMLoc
      · have hl2 : l ∈ targets.asList.map GapLoc.toMLoc := by
          rw [hasList]
          simp only [List.map_cons, List.mem_cons]
          exact Or.inr hld
        rw [if_pos hld, if_pos hl2, Function.update_same]
      · rw [if_neg hld]
        by_cases hlt : l = MLoc.reg t
        · subst hlt
          have hl2 : (MLoc.reg t : MLoc k) ∈ targets.asList.map GapLoc.toMLoc := by
            rw [hasList]
            simp [GapLoc.toMLoc]
          rw [if_pos hl2, Function.update_same]
        · have hl2 : l ∉ targets.asList.map GapLoc.toMLoc := by
            rw [hasList]
            simp only [List.map_cons, List.mem_cons]
            push_neg
            exact ⟨by simpa [GapLoc.toMLoc] using hlt, hld⟩
          rw [if_neg hl2, Function.update_noteq hlt]
    refine ⟨fun l _ => hmem l, ?_, by rw [hst2], by rw [hst2], by rw [hst2],
      by rw [hst2], ?_, ?_, ?_, ?_, ?_⟩
    · refine savedState_congr hsv (by rw [hst2]) ?_ hns
      rw [hmem MLoc.scratch, if_neg (scratch_notin_map _)]
    · exact stackBounded_no_ops (savedState_stack_cases hsv) hnoops
    · intro l hl
      exact ((hnoops _ hl).2 l rfl).elim
    · intro l hl
      exact ((hnoops _ hl).1 l rfl).elim
    · intro l n hl
      rw [hcode] at hl
      rcases List.mem_cons.mp hl with h | h
      · cases h
      · obtain ⟨d, _, he⟩ := movsTo_instr _ _ _ h
        cases he
    · intro d s1 hl
      rw [hcode] at hl
      rcases List.mem_cons.mp hl with h | h
      · cases h
        exact Or.inr (Or.inl rfl)
      · obtain ⟨d1, _, he⟩ := movsTo_instr _ _ _ h
        cases he
        refine Or.inr (Or.inr ⟨t, rfl, ?_⟩)
        rw [hasList]
        exact List.mem_cons_self _ _
  case nil =>
    have hasList : targets.asList = targets.stackSlots.map GapLoc.slot := by
      simp [GapMoveTargets.asList, hreg]
    have hasList0 : GapMoveTargets.asList
        (⟨[], targets.stackSlots⟩ : GapMoveTargets k) =
        targets.stackSlots.map GapLoc.slot := by
      simp [GapMoveTargets.asList]
    have hscrnotin : (MLoc.scratch : MLoc k) ∉
        (targets.stackSlots.map GapLoc.slot).map GapLoc.toMLoc :=
      scratch_notin_map _
    by_cases hflag : st.scratchHasCycleStart = true
    · have hpair : EmitMovesFromSlotSource s targets st =
          (Instr.push MLoc.scratch ::
            Instr.mov MLoc.scratch (MLoc.slot s) ::
            movsTo MLoc.scratch
              ((targets.stackSlots.map GapLoc.slot).map GapLoc.toMLoc),
            {st with scratchHasCycleStart := false}) := by
        unfold EmitMovesFromSlotSource
        rw [hreg]
        simp only [hflag, if_true]
        rw [emitMovesFromRegSource_eq, hasList0]
      have hfound : found = true ∧ m.mem MLoc.scratch = v ∧
          m.nstack = base := by
        unfold SavedState at hsv
        cases found with
        | false => exact absurd hsv.1 (by simp [hflag])
        | true =>
          rcases hsv with ⟨h1, h2, h3⟩ | ⟨h1, h2⟩
          · exact ⟨rfl, h2, h3⟩
          · exact absurd h1 (by simp [hflag])
      have hm2 : (m.step (Instr.push MLoc.scratch)).step
          (Instr.mov MLoc.scratch (MLoc.slot s)) =
          ⟨Function.update m.mem MLoc.scratch (m.mem (MLoc.slot s)),
            m.mem MLoc.scratch :: m.nstack⟩ := rfl
      have hrun : m.run (EmitMovesFromSlotSource s targets st).1 =
          (⟨Function.update m.mem MLoc.scratch (m.mem (MLoc.slot s)),
            m.mem MLoc.scratch :: m.nstack⟩ : Machine k).run
            (movsTo MLoc.scratch
              ((targets.stackSlots.map GapLoc.slot).map GapLoc.toMLoc)) := by
        rw [hpair]
        rw [show (Instr.push MLoc.scratch ::
            Instr.mov MLoc.scratch (MLoc.slot s) ::
            movsTo MLoc.scratch
              ((targets.stackSlots.map GapLoc.slot).map GapLoc.toMLoc),
            ({st with scratchHasCycleStart := false} : ResolverState k)).1 =
          Instr.push MLoc.scratch ::
            Instr.mov MLoc.scratch (MLoc.slot s) ::
            movsTo MLoc.scratch
              ((targets.stackSlots.map GapLoc.slot).map GapLoc.toMLoc)
          from rfl]
        rw [Machine.run_cons, Machine.run_cons, hm2]
      have hmem : ∀ l : MLoc k, l ≠ MLoc.scratch →
          (m.run (EmitMovesFromSlotSource s targets st).1).mem l =
          if l ∈ targets.asList.map GapLoc.toMLoc
          then m.mem (MLoc.slot s) else m.mem l := by
        intro l hl
        rw [hrun, movsTo_mem _ _ _ hscrnotin, hasList]
        dsimp only
        by_cases hld : l ∈ (targets.stackSlots.map GapLoc.slot).map GapLoc.toMLoc
        · rw [if_pos hld, if_pos hld, Function.update_same]
        · rw [if_neg hld, if_neg hld, Function.update_noteq hl]
      have hns : (m.run (EmitMovesFromSlotSource s targets st).1).nstack =
          m.mem MLoc.scratch :: m.nstack := by
        rw [hrun, movsTo_nstack]
      refine ⟨hmem, ?_, by rw [hpair], by rw [hpair], by rw [hpair],
        by rw [hpair], ?_, ?_, ?_, ?_, ?_⟩
      · rw [hfound.1]
        unfold SavedState
        refine Or.inr ⟨by rw [hpair], ?_⟩
        rw [hns, hfound.2.1, hfound.2.2]
      · intro c1 c2 heq
        rw [hpair] at heq
        match c1, heq with
        | [], _ => exact Or.inl hfound.2.2
        | i :: c12, heq =>
          have hi : i = Instr.push MLoc.scratch ∧
              c12 ++ c2 = Instr.mov MLoc.scratch (MLoc.slot s) ::
                movsTo MLoc.scratch
                  ((targets.stackSlots.map GapLoc.slot).map GapLoc.toMLoc) := by
            have := heq
            simp only [List.cons_append] at this
            exact ⟨(List.cons.injEq _ _ _ _ ▸ this).1.symm,
              (List.cons.injEq _ _ _ _ ▸ this).2.symm⟩
          refine Or.inr ⟨m.mem MLoc.scratch, ?_⟩
          rw [Machine.run_cons, hi.1]
          rw [run_nstack_no_ops c12 _ ?_]
          · simp only [Machine.step]
            rw [hfound.2.2]
          · intro j hj
            have hj2 : j ∈ Instr.mov MLoc.scratch (MLoc.slot s) ::
                movsTo MLoc.scratch
                  ((targets.stackSlots.map GapLoc.slot).map GapLoc.toMLoc) := by
              rw [← hi.2]
              exact List.mem_append_left c2 hj
            rcases List.mem_cons.mp hj2 with rfl | hj3
            · exact ⟨(fun l h => nomatch h), (fun l h => nomatch h)⟩
            · obtain ⟨d, _, rfl⟩ := movsTo_instr _ _ _ hj3
              exact ⟨(fun l h => nomatch h), (fun l h => nomatch h)⟩
      · intro l hl
        rw [hpair] at hl
        rcases List.mem_cons.mp hl with h | h
        · cases h
        rcases List.mem_cons.mp h with h1 | h1
        · cases h1
        obtain ⟨d, _, he⟩ := movsTo_instr _ _ _ h1
        cases he
      · intro l hl
        rw [hpair] at hl
        rcases List.mem_cons.mp hl with h | h
        · cases h; rfl
        rcases List.mem_cons.mp h with h1 | h1
        · cases h1
        obtain ⟨d, _, he⟩ := movsTo_instr _ _ _ h1
        cases he
      · intro l n hl
        rw [hpair] at hl
        rcases List.mem_cons.mp hl with h | h
        · cases h
        rcases List.mem_cons.mp h with h1 | h1
        · cases h1
        obtain ⟨d, _, he⟩ := movsTo_instr _ _ _ h1
        cases he
      · intro d s1 hl
        rw [hpair] at hl
        rcases List.mem_cons.mp hl with h | h
        · cases h
        rcases List.mem_cons.mp h with h1 | h1
        · cases h1
          exact Or.inr (Or.inl rfl)
        obtain ⟨d1, _, he⟩ := movsTo_instr _ _ _ h1
        cases he
        exact Or.inl rfl
    · have hflag2 : st.scratchHasCycleStart = false :=
        Bool.not_eq_true _ ▸ (by simpa using hflag)
      have hpair : EmitMovesFromSlotSource s targets st =
          (Instr.mov MLoc.scratch (MLoc.slot s) ::
            movsTo MLoc.scratch
              ((targets.stackSlots.map GapLoc.slot).map GapLoc.toMLoc),
            st) := by
        unfold EmitMovesFromSlotSource
        rw [hreg]
        simp only [hflag2, if_false, Bool.false_eq_true]
        rw [emitMovesFromRegSource_eq, hasList0]
      have hm1 : m.step (Instr.mov MLoc.scratch (MLoc.slot s)) =
          ⟨Function.update m.mem MLoc.scratch (m.mem (MLoc.slot s)),
            m.nstack⟩ := rfl
      have hrun : m.run (EmitMovesFromSlotSource s targets st).1 =
          (⟨Function.update m.mem MLoc.scratch (m.mem (MLoc.slot s)),
            m.nstack⟩ : Machine k).run
            (movsTo MLoc.scratch
              ((targets.stackSlots.map GapLoc.slot).map GapLoc.toMLoc)) := by
        rw [hpair]
        rw [Machine.run_cons]
        rfl
      have hnoops : ∀ i ∈ (EmitMovesFromSlotSource s targets st).1,
          (∀ l, i ≠ Instr.push l) ∧ (∀ l, i ≠ Instr.pop l) := by
        intro i hi
        rw [hpair] at hi
        rcases List.mem_cons.mp hi with rfl | hi1
        · exact ⟨(fun l h => nomatch h), (fun l h => nomatch h)⟩
        · obtain ⟨d, _, rfl⟩ := movsTo_instr _ _ _ hi1
          exact ⟨(fun l h => nomatch h), (fun l h => nomatch h)⟩
      have hmem : ∀ l : MLoc k, l ≠ MLoc.scratch →
          (m.run (EmitMovesFromSlotSource s targets st).1).mem l =
          if l ∈ targets.asList.map GapLoc.toMLoc
          then m.mem (MLoc.slot s) else m.mem l := by
        intro l hl
        rw [hrun, movsTo_mem _ _ _ hscrnotin, hasList]
        dsimp only
        by_cases hld : l ∈ (targets.stackSlots.map GapLoc.slot).map GapLoc.toMLoc
        · rw [if_pos hld, if_pos hld, Function.update_same]
        · rw [if_neg hld, if_neg hld, Function.update_noteq hl]
      have hns : (m.run (EmitMovesFromSlotSource s targets st).1).nstack =
          m.nstack := by
        rw [hrun, movsTo_nstack]
      refine ⟨hmem, ?_, by rw [hpair], by rw [hpair], by rw [hpair],
        by rw [hpair], ?_, ?_, ?_, ?_, ?_⟩
      · unfold SavedState at hsv ⊢
        cases found with
        | false => exact ⟨by rw [hpair]; exact hsv.1, hns.trans hsv.2⟩
        | true =>
          rcases hsv with ⟨h1, _, _⟩ | ⟨h1, h2⟩
          · exact absurd h1 (by simp [hflag2])
          · exact Or.inr ⟨by rw [hpair]; exact h1, hns.trans h2⟩
      · exact stackBounded_no_ops (savedState_stack_cases hsv) hnoops
      · intro l hl
        exact ((hnoops _ hl).2 l rfl).elim
      · intro l hl
        exact ((hnoops _ hl).1 l rfl).elim
      · intro l n hl
        rw [hpair] at hl
        rcases List.mem_cons.mp hl with h | h
        · cases h
        obtain ⟨d, _, he⟩ := movsTo_instr _ _ _ h
        cases he
      · intro d s1 hl
        rw [hpair] at hl
        rcases List.mem_cons.mp hl with h | h
        · cases h
          exact Or.inr (Or.inl rfl)
        obtain ⟨d1, _, he⟩ := movsTo_instr _ _ _ h
        cases he
        exact Or.inl rfl
/-- Length of a target list. -/
theorem asList_length {k : Nat} (t : GapMoveTargets k) :
    t.asList.length = t.count := by
  simp [GapMoveTargets.asList, GapMoveTargets.count]

/-- The edge count is the length of the global target list. -/
theorem edgeCount_eq_length {k : Nat} (st : ResolverState k) :
    edgeCount st = (allTargets st).length := by
  simp [edgeCount, allTargets, List.length_flatMap, asList_length,
    Function.comp_def]

/-- FlatMap ignores an update at an index outside the list. -/
theorem flatMap_update_ne {k : Nat} {α : Type} (f : Fin k → List α)
    (r : Fin k) (v : List α) :
    ∀ l : List (Fin k), r ∉ l →
      (l.flatMap fun x => Function.update f r v x) = l.flatMap f := by
  intro l
  induction l with
  | nil => intro _; rfl
  | cons a as ih =>
    intro h
    have ha : a ≠ r := fun he => h (he ▸ List.mem_cons_self a as)
    simp only [List.flatMap_cons]
    rw [Function.update_noteq ha, ih (fun hm => h (List.mem_cons_of_mem a hm))]

/-- Decomposition of `eraseP` at the first match. -/
theorem erasePDecomp {α : Type} (p : α → Bool) :
    ∀ l : List α, (∃ a ∈ l, p a) →
      ∃ a l1 l2, (∀ b ∈ l1, ¬ p b = true) ∧ p a = true ∧
        l = l1 ++ a :: l2 ∧ l.eraseP p = l1 ++ l2 := by
  intro l
  induction l with
  | nil => intro h; obtain ⟨a, ha, _⟩ := h; cases ha
  | cons x xs ih =>
    intro h
    by_cases hx : p x = true
    · refine ⟨x, [], xs, ?_, hx, rfl, ?_⟩
      · intro b hb
        cases hb
      · simp [List.eraseP_cons, hx]
    · obtain ⟨a, ha, hpa⟩ := h
      have ha2 : a ∈ xs := by
        rcases List.mem_cons.mp ha with rfl | h2
        · exact absurd hpa hx
        · exact h2
      obtain ⟨a1, l1, l2, h1, h2, h3, h4⟩ := ih ⟨a, ha2, hpa⟩
      refine ⟨a1, x :: l1, l2, ?_, h2, by rw [h3]; rfl, ?_⟩
      · intro b hb
        rcases List.mem_cons.mp hb with rfl | hb2
        · exact hx
        · exact h1 b hb2
      · simp [List.eraseP_cons, hx, h4]

/-- Find over a prefix of non-matches. -/
theorem find?_first {α : Type} (p : α → Bool) :
    ∀ (l1 : List α) (a : α) (l2 : List α), (∀ b ∈ l1, ¬ p b = true) →
      p a = true → (l1 ++ a :: l2).find? p = some a := by
  intro l1
  induction l1 with
  | nil =>
    intro a l2 _ ha
    rw [List.nil_append]
    exact List.find?_cons_of_pos l2 ha
  | cons x xs ih =>
    intro a l2 h1 ha
    have hx : ¬ p x = true := h1 x (List.mem_cons_self x xs)
    rw [List.cons_append, List.find?_cons_of_neg _ hx]
    exact ih a l2 (fun b hb => h1 b (List.mem_cons_of_mem x hb)) ha

/-- Lookup of a stored entry when the keys are duplicate-free. -/
theorem lookupSlot_mem {k : Nat} :
    ∀ (l : List (Int × GapMoveTargets k)),
      (l.map Prod.fst).Nodup → ∀ p ∈ l, lookupSlot p.1 l = p.2 := by
  intro l
  induction l with
  | nil => intro _ p hp; cases hp
  | cons x xs ih =>
    intro hnd p hp
    have hnd2 : (xs.map Prod.fst).Nodup := (List.nodup_cons.mp hnd).2
    rcases List.mem_cons.mp hp with rfl | hp2
    · simp only [lookupSlot]
      rw [List.find?_cons_of_pos _ (by simp)]
    · by_cases hx : x.1 = p.1
      · exfalso
        have : p.1 ∈ xs.map Prod.fst := List.mem_map_of_mem Prod.fst hp2
        exact (List.nodup_cons.mp hnd).1 (hx ▸ this)
      · have := ih hnd2 p hp2
        simp only [lookupSlot] at this ⊢
        rw [List.find?_cons_of_neg _ (by simpa using hx)]
        exact this

/-- Pointwise congruence of flatMap. -/
theorem flatMap_congr {α β : Type} {f g : α → List β} :
    ∀ l : List α, (∀ a ∈ l, f a = g a) → l.flatMap f = l.flatMap g := by
  intro l
  induction l with
  | nil => intro _; rfl
  | cons a as ih =>
    intro h
    simp only [List.flatMap_cons]
    rw [h a (List.mem_cons_self a as),
      ih (fun b hb => h b (List.mem_cons_of_mem a hb))]

/-- Popping the targets of a source splits the global target list: before
the pop it is P ++ popped ++ Q, afterwards it is P ++ Q. -/
theorem popTargets_decomp {k : Nat} (st : ResolverState k) (x : GapLoc k) :
    ∃ P Q, allTargets st = P ++ (targetsOf st x).asList ++ Q ∧
      allTargets (PopTargets st x).2 = P ++ Q := by
  cases x with
  | reg r =>
    obtain ⟨L1, L2, hsplit⟩ := List.append_of_mem (List.mem_finRange r)
    have hnd : (L1 ++ r :: L2).Nodup := hsplit ▸ List.nodup_finRange k
    have hdisj := (List.nodup_append.mp hnd).2.2
    have hrL1 : r ∉ L1 := fun h => hdisj h (List.mem_cons_self r L2)
    have hrL2 : r ∉ L2 :=
      (List.nodup_cons.mp (List.nodup_append.mp hnd).2.1).1
    refine ⟨L1.flatMap (fun y => (st.movesFromRegister y).asList),
      L2.flatMap (fun y => (st.movesFromRegister y).asList) ++
        st.movesFromStackSlot.flatMap (fun p => p.2.asList), ?_, ?_⟩
    · show (List.finRange k).flatMap (fun y => (st.movesFromRegister y).asList)
          ++ _ = _
      rw [hsplit, List.flatMap_append, List.flatMap_cons]
      show _ = _ ++ (st.movesFromRegister r).asList ++ _
      simp [List.append_assoc]
    · show (List.finRange k).flatMap
          (fun y => ((Function.update st.movesFromRegister r
            (GapMoveTargets.empty k)) y).asList) ++
          st.movesFromStackSlot.flatMap (fun p => p.2.asList) = _
      rw [hsplit, List.flatMap_append, List.flatMap_cons]
      rw [flatMap_congr L1 (fun a ha => by
        have hne : a ≠ r := fun he => by rw [he] at ha; exact hrL1 ha
        rw [Function.update_noteq hne])]
      rw [flatMap_congr L2 (fun a ha => by
        have hne : a ≠ r := fun he => by rw [he] at ha; exact hrL2 ha
        rw [Function.update_noteq hne])]
      rw [Function.update_same]
      show _ ++ ([] ++ _) ++ _ = _
      simp [List.append_assoc]
  | slot s =>
    by_cases hex : ∃ p ∈ st.movesFromStackSlot, p.1 = s
    · obtain ⟨a, l1, l2, h1, h2, h3, h4⟩ :=
        erasePDecomp (fun p => p.1 = s) st.movesFromStackSlot
          (by obtain ⟨p, hp, hps⟩ := hex; exact ⟨p, hp, by simpa using hps⟩)
      have hlook : targetsOf st (GapLoc.slot s) = a.2 := by
        show lookupSlot s st.movesFromStackSlot = a.2
        unfold lookupSlot
        rw [h3, find?_first _ l1 a l2 h1 h2]
      refine ⟨((List.finRange k).flatMap
          (fun y => (st.movesFromRegister y).asList)) ++
          l1.flatMap (fun p => p.2.asList),
        l2.flatMap (fun p => p.2.asList), ?_, ?_⟩
      · show _ ++ st.movesFromStackSlot.flatMap (fun p => p.2.asList) = _
        rw [h3, List.flatMap_append, List.flatMap_cons, hlook]
        simp [List.append_assoc]
      · show ((List.finRange k).flatMap
            (fun y => (st.movesFromRegister y).asList)) ++
            (st.movesFromStackSlot.eraseP
              (fun p => p.1 = s)).flatMap (fun p => p.2.asList) = _
        rw [h4, List.flatMap_append]
        simp [List.append_assoc]
    · have hnone : st.movesFromStackSlot.find? (fun p => p.1 = s) = none := by
        rw [List.find?_eq_none]
        intro p hp
        simp only [decide_eq_true_eq]
        exact fun hps => hex ⟨p, hp, hps⟩
      have hlook : targetsOf st (GapLoc.slot s) = GapMoveTargets.empty k := by
        show lookupSlot s st.movesFromStackSlot = _
        unfold lookupSlot
        rw [hnone]
      have herase : st.movesFromStackSlot.eraseP (fun p => p.1 = s) =
          st.movesFromStackSlot := by
        apply List.eraseP_of_forall_not
        intro p hp
        simp only [decide_eq_true_eq]
        exact fun hps => hex ⟨p, hp, hps⟩
      refine ⟨allTargets st, [], ?_, ?_⟩
      · rw [hlook]
        simp [GapMoveTargets.asList, GapMoveTargets.empty]
      · show ((List.finRange k).flatMap
            (fun y => (st.movesFromRegister y).asList)) ++
            (st.movesFromStackSlot.eraseP
              (fun p => p.1 = s)).flatMap (fun p => p.2.asList) = _
        rw [herase]
        simp [allTargets]

/-- Popping does not touch the flag or the materializing collections. -/
theorem popTargets_fields {k : Nat} (st : ResolverState k) (x : GapLoc k) :
    (PopTargets st x).2.scratchHasCycleStart = st.scratchHasCycleStart ∧
    (PopTargets st x).2.materializingRegisterMoves =
      st.materializingRegisterMoves ∧
    (PopTargets st x).2.materializingStackSlotMoves =
      st.materializingStackSlotMoves := by
  cases x <;> exact ⟨rfl, rfl, rfl⟩

/-- Per-register evolution under a pop. -/
theorem popTargets_regs {k : Nat} (st : ResolverState k) (x : GapLoc k)
    (r1 : Fin k) :
    (PopTargets st x).2.movesFromRegister r1 = st.movesFromRegister r1 ∨
    (PopTargets st x).2.movesFromRegister r1 = GapMoveTargets.empty k := by
  cases x with
  | reg r =>
    by_cases h : r1 = r
    · subst h
      exact Or.inr (Function.update_same _ _ _)
    · exact Or.inl (Function.update_noteq h _ _)
  | slot s => exact Or.inl rfl

/-- The slot map only loses entries under a pop. -/
theorem popTargets_slots {k : Nat} (st : ResolverState k) (x : GapLoc k) :
    (PopTargets st x).2.movesFromStackSlot.Sublist st.movesFromStackSlot := by
  cases x with
  | reg r => exact List.Sublist.refl _
  | slot s => exact List.eraseP_sublist _

/-- The first component of a pop is the current target set. -/
theorem popTargets_fst {k : Nat} (st : ResolverState k) (x : GapLoc k) :
    (PopTargets st x).1 = targetsOf st x := by
  cases x <;> rfl

/-- Lookup in an erased map at a different key. -/
theorem lookupSlot_eraseP_ne {k : Nat} (s s1 : Int) (h : s1 ≠ s) :
    ∀ l : List (Int × GapMoveTargets k),
      lookupSlot s1 (l.eraseP (fun p => p.1 = s)) = lookupSlot s1 l := by
  intro l
  induction l with
  | nil => rfl
  | cons a as ih =>
    by_cases ha : a.1 = s
    · have he : List.eraseP (fun p => decide (p.1 = s)) (a :: as) = as := by
        simp [List.eraseP_cons, ha]
      show lookupSlot s1 (List.eraseP (fun p => decide (p.1 = s)) (a :: as)) = _
      rw [he]
      have hne : ¬ (decide (a.1 = s1)) = true := by
        simp only [decide_eq_true_eq]
        intro h2
        exact h (by rw [← h2]; exact ha)
      have hfind : List.find? (fun p => decide (p.1 = s1)) (a :: as) =
          List.find? (fun p => decide (p.1 = s1)) as :=
        List.find?_cons_of_neg as hne
      unfold lookupSlot
      rw [hfind]
    · have he : List.eraseP (fun p => decide (p.1 = s)) (a :: as) =
          a :: List.eraseP (fun p => decide (p.1 = s)) as := by
        simp [List.eraseP_cons, ha]
      show lookupSlot s1 (List.eraseP (fun p => decide (p.1 = s)) (a :: as)) = _
      rw [he]
      by_cases ha1 : a.1 = s1
      · have hf1 : List.find? (fun p => decide (p.1 = s1))
            (a :: List.eraseP (fun p => decide (p.1 = s)) as) = some a :=
          List.find?_cons_of_pos _ (by simpa using ha1)
        have hf2 : List.find? (fun p => decide (p.1 = s1)) (a :: as) = some a :=
          List.find?_cons_of_pos _ (by simpa using ha1)
        unfold lookupSlot
        rw [hf1, hf2]
      · have hf1 : List.find? (fun p => decide (p.1 = s1))
            (a :: List.eraseP (fun p => decide (p.1 = s)) as) =
            List.find? (fun p => decide (p.1 = s1))
              (List.eraseP (fun p => decide (p.1 = s)) as) :=
          List.find?_cons_of_neg _ (by simpa using ha1)
        have hf2 : List.find? (fun p => decide (p.1 = s1)) (a :: as) =
            List.find? (fun p => decide (p.1 = s1)) as :=
          List.find?_cons_of_neg _ (by simpa using ha1)
        unfold lookupSlot at ih ⊢
        rw [hf1, hf2]
        exact ih

/-- Targets of an unaffected source after a pop. -/
theorem popTargets_targetsOf_ne {k : Nat} (st : ResolverState k)
    (x y : GapLoc k) (hxy : y ≠ x) :
    targetsOf (PopTargets st x).2 y = targetsOf st y := by
  cases x with
  | reg r =>
    cases y with
    | reg r1 =>
      have : r1 ≠ r := fun h => hxy (by rw [h])
      exact Function.update_noteq this _ _
    | slot s1 => rfl
  | slot s =>
    cases y with
    | reg r1 => rfl
    | slot s1 =>
      have : s1 ≠ s := fun h => hxy (by rw [h])
      exact lookupSlot_eraseP_ne s s1 this st.movesFromStackSlot

/-- Targets of the popped source itself: empty (the slot case needs
duplicate-free keys so that no second entry with the same key remains). -/
theorem popTargets_targetsOf_self {k : Nat} (st : ResolverState k)
    (x : GapLoc k) (hkeys : (st.movesFromStackSlot.map Prod.fst).Nodup) :
    (targetsOf (PopTargets st x).2 x).asList = [] := by
  cases x with
  | reg r =>
    show ((Function.update st.movesFromRegister r
      (GapMoveTargets.empty k)) r).asList = []
    rw [Function.update_same]
    rfl
  | slot s =>
    show (lookupSlot s (st.movesFromStackSlot.eraseP
      (fun p => p.1 = s))).asList = []
    by_cases hex : ∃ p ∈ st.movesFromStackSlot, p.1 = s
    · obtain ⟨a, l1, l2, h1, h2, h3, h4⟩ :=
        erasePDecomp (fun p => p.1 = s) st.movesFromStackSlot
          (by obtain ⟨p, hp, hps⟩ := hex; exact ⟨p, hp, by simpa using hps⟩)
      rw [h4]
      have hs2 : s ∉ (l2.map Prod.fst) := by
        intro hmem
        have hkeys2 : ((l1 ++ a :: l2).map Prod.fst).Nodup := h3 ▸ hkeys
        rw [List.map_append, List.map_cons] at hkeys2
        have hnm := (List.nodup_cons.mp (List.nodup_append.mp hkeys2).2.1).1
        have ha1 : a.1 = s := by simpa using h2
        rw [ha1] at hnm
        exact hnm hmem
      have hnone : (l1 ++ l2).find? (fun p => p.1 = s) = none := by
        rw [List.find?_eq_none]
        intro p hp
        rcases List.mem_append.mp hp with hp1 | hp2
        · exact h1 p hp1
        · simp only [decide_eq_true_eq]
          intro hps
          exact hs2 (hps ▸ List.mem_map_of_mem Prod.fst hp2)
      unfold lookupSlot
      rw [hnone]
      rfl
    · have herase : st.movesFromStackSlot.eraseP (fun p => p.1 = s) =
          st.movesFromStackSlot := by
        apply List.eraseP_of_forall_not
        intro p hp
        simp only [decide_eq_true_eq]
        exact fun hps => hex ⟨p, hp, hps⟩
      rw [herase]
      have hnone : st.movesFromStackSlot.find? (fun p => p.1 = s) = none := by
        rw [List.find?_eq_none]
        intro p hp
        simp only [decide_eq_true_eq]
        exact fun hps => hex ⟨p, hp, hps⟩
      unfold lookupSlot
      rw [hnone]
      rfl

/-- An edge target is in the global target list. -/
theorem mem_allTargets_of_edge {k : Nat} {st : ResolverState k}
    {x d : GapLoc k} (h : d ∈ (targetsOf st x).asList) :
    d ∈ allTargets st := by
  cases x with
  | reg r =>
    exact List.mem_append_left _
      (List.mem_flatMap.mpr ⟨r, List.mem_finRange r, h⟩)
  | slot s =>
    refine List.mem_append_right _ ?_
    have h2 : d ∈ (lookupSlot s st.movesFromStackSlot).asList := h
    unfold lookupSlot at h2
    rcases hf : st.movesFromStackSlot.find? (fun p => p.1 = s) with _ | p <;>
      rw [hf] at h2
    · simp [GapMoveTargets.asList, GapMoveTargets.empty] at h2
    · exact List.mem_flatMap.mpr ⟨p, List.mem_of_find?_eq_some hf, h2⟩

/-- Every member of the global target list is an edge target (duplicate-free
keys are needed to read the slot map back). -/
theorem mem_allTargets_elim {k : Nat} {st : ResolverState k}
    (hkeys : (st.movesFromStackSlot.map Prod.fst).Nodup) {d : GapLoc k}
    (h : d ∈ allTargets st) : ∃ x, d ∈ (targetsOf st x).asList := by
  rcases List.mem_append.mp h with h1 | h1
  · obtain ⟨r, _, hd⟩ := List.mem_flatMap.mp h1
    exact ⟨GapLoc.reg r, hd⟩
  · obtain ⟨p, hp, hd⟩ := List.mem_flatMap.mp h1
    refine ⟨GapLoc.slot p.1, ?_⟩
    show d ∈ (lookupSlot p.1 st.movesFromStackSlot).asList
    rw [lookupSlot_mem st.movesFromStackSlot hkeys p hp]
    exact hd

/-- Monotonicity of the global target list under pop-only evolution. -/
theorem allTargets_mono {k : Nat} {st1 st2 : ResolverState k}
    (hreg : ∀ r, st2.movesFromRegister r = st1.movesFromRegister r ∨
      st2.movesFromRegister r = GapMoveTargets.empty k)
    (hslot : st2.movesFromStackSlot.Sublist st1.movesFromStackSlot) :
    ∀ d : GapLoc k, d ∈ allTargets st2 → d ∈ allTargets st1 := by
  intro d hd
  rcases List.mem_append.mp hd with h1 | h1
  · obtain ⟨r, _, hdr⟩ := List.mem_flatMap.mp h1
    rcases hreg r with he | he
    · rw [he] at hdr
      exact List.mem_append_left _
        (List.mem_flatMap.mpr ⟨r, List.mem_finRange r, hdr⟩)
    · rw [he] at hdr
      simp [GapMoveTargets.asList, GapMoveTargets.empty] at hdr
  · obtain ⟨p, hp, hdp⟩ := List.mem_flatMap.mp h1
    exact List.mem_append_right _
      (List.mem_flatMap.mpr ⟨p, hslot.mem hp, hdp⟩)

/-- Target sets under pop-only evolution: unchanged or emptied. -/
theorem targetsOf_mono {k : Nat} {st1 st2 : ResolverState k}
    (hreg : ∀ r, st2.movesFromRegister r = st1.movesFromRegister r ∨
      st2.movesFromRegister r = GapMoveTargets.empty k)
    (hslot : st2.movesFromStackSlot.Sublist st1.movesFromStackSlot)
    (hkeys : (st1.movesFromStackSlot.map Prod.fst).Nodup) :
    ∀ x : GapLoc k, targetsOf st2 x = targetsOf st1 x ∨
      (targetsOf st2 x).asList = [] := by
  intro x
  cases x with
  | reg r =>
    rcases hreg r with he | he
    · exact Or.inl he
    · refine Or.inr ?_
      show (st2.movesFromRegister r).asList = []
      rw [he]
      rfl
  | slot s =>
    rcases hf : st2.movesFromStackSlot.find? (fun p => p.1 = s) with _ | p
    · refine Or.inr ?_
      show (lookupSlot s st2.movesFromStackSlot).asList = []
      unfold lookupSlot
      rw [hf]
      rfl
    · refine Or.inl ?_
      have hp2 : p ∈ st2.movesFromStackSlot := List.mem_of_find?_eq_some hf
      have hp1 : p ∈ st1.movesFromStackSlot := hslot.mem hp2
      have hkey : p.1 = s := by simpa using List.find?_some hf
      have hl2 : lookupSlot s st2.movesFromStackSlot = p.2 := by
        unfold lookupSlot
        rw [hf]
      have hl1 : lookupSlot s st1.movesFromStackSlot = p.2 := by
        rw [← hkey]
        exact lookupSlot_mem st1.movesFromStackSlot hkeys p hp1
      show lookupSlot s st2.movesFromStackSlot =
        lookupSlot s st1.movesFromStackSlot
      rw [hl2, hl1]

/-- Well-formedness is preserved by popping. -/
theorem WF_pop {k : Nat} {st : ResolverState k} (hwf : WF st)
    (x : GapLoc k) : WF (PopTargets st x).2 := by
  obtain ⟨P, Q, hdec1, hdec2⟩ := popTargets_decomp st x
  refine ⟨?_, ?_, ?_⟩
  · rw [hdec2]
    have hsub : (P ++ Q).Sublist (P ++ ((targetsOf st x).asList ++ Q)) :=
      List.Sublist.append_left (List.sublist_append_right _ _) P
    have hnd : (P ++ ((targetsOf st x).asList ++ Q)).Nodup := by
      have := hwf.1
      rw [hdec1] at this
      rwa [List.append_assoc] at this
    exact List.Nodup.sublist hsub hnd
  · exact List.Nodup.sublist ((popTargets_slots st x).map Prod.fst) hwf.2.1
  · intro y
    by_cases hxy : y = x
    · subst hxy
      rw [popTargets_targetsOf_self st y hwf.2.1]
      exact List.not_mem_nil y
    · rw [popTargets_targetsOf_ne st x y hxy]
      exact hwf.2.2 y

/-- Edge-count equation for a pop. -/
theorem edgeCount_pop {k : Nat} (st : ResolverState k) (x : GapLoc k) :
    edgeCount (PopTargets st x).2 + (targetsOf st x).asList.length =
      edgeCount st := by
  obtain ⟨P, Q, hdec1, hdec2⟩ := popTargets_decomp st x
  rw [edgeCount_eq_length, edgeCount_eq_length, hdec1, hdec2]
  simp [List.length_append]
  omega

/-- The popped target list is duplicate-free. -/
theorem pop_targets_nodup {k : Nat} {st : ResolverState k} (hwf : WF st)
    (x : GapLoc k) : (targetsOf st x).asList.Nodup := by
  obtain ⟨P, Q, hdec1, _⟩ := popTargets_decomp st x
  have hnd : (P ++ ((targetsOf st x).asList ++ Q)).Nodup := by
    have := hwf.1
    rw [hdec1] at this
    rwa [List.append_assoc] at this
  exact List.Nodup.sublist
    (List.Sublist.trans (List.sublist_append_left _ _)
      (List.sublist_append_right _ _)) hnd

/-- A popped target does not remain in the global target list. -/
theorem pop_targets_notin {k : Nat} {st : ResolverState k} (hwf : WF st)
    (x : GapLoc k) {t : GapLoc k} (ht : t ∈ (targetsOf st x).asList) :
    t ∉ allTargets (PopTargets st x).2 := by
  obtain ⟨P, Q, hdec1, hdec2⟩ := popTargets_decomp st x
  have hnd : (P ++ ((targetsOf st x).asList ++ Q)).Nodup := by
    have := hwf.1
    rw [hdec1] at this
    rwa [List.append_assoc] at this
  have h1 := List.nodup_append.mp hnd
  have h2 := List.nodup_append.mp h1.2.1
  intro hmem
  rw [hdec2] at hmem
  rcases List.mem_append.mp hmem with hP | hQ
  · exact h1.2.2 hP (List.mem_append_left Q ht)
  · exact h2.2.2 ht hQ

/-- Emptiness test in terms of the target list. -/
theorem isEmpty_iff_asList {k : Nat} (t : GapMoveTargets k) :
    t.isEmpty = true ↔ t.asList = [] := by
  cases t with
  | mk regs slots =>
    simp [GapMoveTargets.isEmpty, GapMoveTargets.asList, List.isEmpty_iff,
      List.append_eq_nil, List.map_eq_nil_iff]

/-- In a well-formed graph every target has a unique source. -/
theorem edge_unique {k : Nat} {st : ResolverState k} (hwf : WF st)
    {x y d : GapLoc k} (hx : d ∈ (targetsOf st x).asList)
    (hy : d ∈ (targetsOf st y).asList) : x = y := by
  by_contra hxy
  have hne := popTargets_targetsOf_ne st x y (fun h => hxy h.symm)
  have hd1 : d ∈ (targetsOf (PopTargets st x).2 y).asList := by
    rw [hne]; exact hy
  have hd2 : d ∈ allTargets (PopTargets st x).2 := mem_allTargets_of_edge hd1
  exact pop_targets_notin hwf x hx hd2

/-- States with equal graph fields have the same graph view. -/
theorem graph_fields_eq {k : Nat} {st1 st2 : ResolverState k}
    (h1 : st2.movesFromRegister = st1.movesFromRegister)
    (h2 : st2.movesFromStackSlot = st1.movesFromStackSlot) :
    allTargets st2 = allTargets st1 ∧
    (∀ x, targetsOf st2 x = targetsOf st1 x) ∧
    edgeCount st2 = edgeCount st1 ∧ (WF st2 ↔ WF st1) := by
  have ha : allTargets st2 = allTargets st1 := by
    unfold allTargets
    rw [h1, h2]
  have ht : ∀ x, targetsOf st2 x = targetsOf st1 x := by
    intro x
    cases x with
    | reg r => show st2.movesFromRegister r = _; rw [h1]; rfl
    | slot s => show lookupSlot s st2.movesFromStackSlot = _; rw [h2]; rfl
  refine ⟨ha, ht, ?_, ?_⟩
  · unfold edgeCount
    rw [h1, h2]
  · unfold WF
    rw [ha, h2]
    constructor
    · intro h
      exact ⟨h.1, h.2.1, fun x => (ht x) ▸ h.2.2 x⟩
    · intro h
      exact ⟨h.1, h.2.1, fun x => (ht x).symm ▸ h.2.2 x⟩

/-- Transitivity of the same-or-emptied register evolution. -/
theorem regs_evolve_trans {k : Nat} {a b c : Fin k → GapMoveTargets k}
    (h1 : ∀ r, b r = a r ∨ b r = GapMoveTargets.empty k)
    (h2 : ∀ r, c r = b r ∨ c r = GapMoveTargets.empty k) :
    ∀ r, c r = a r ∨ c r = GapMoveTargets.empty k := by
  intro r
  rcases h2 r with h | h
  · rw [h]; exact h1 r
  · exact Or.inr h

/-- Common postcondition of one chain-emission step over state `st` and
machine `m`: the graph only loses edges (well-formedness preserved), the
materializing collections are untouched, the saved cycle-start value is
tracked, a location whose incoming edge was consumed now holds its unique
source value while every other graph location is untouched, a location
whose incoming edge was consumed has no outgoing edges left, the native
stack stays within one value of its base, every emitted move reads the
scratch, the chain start, or a current source, and the code contains no
pop, pushes only of the scratch, and no materialization. -/
structure ChainPost {k : Nat} (cs : GapLoc k) (st : ResolverState k)
    (m : Machine k) (base : List (SVal k)) (v : SVal k) (found : Bool)
    (code : List (Instr k)) (st2 : ResolverState k) (hc : Bool) : Prop where
  wf : WF st2
  regs : ∀ r, st2.movesFromRegister r = st.movesFromRegister r ∨
    st2.movesFromRegister r = GapMoveTargets.empty k
  slots : st2.movesFromStackSlot.Sublist st.movesFromStackSlot
  matReg : st2.materializingRegisterMoves = st.materializingRegisterMoves
  matSlot : st2.materializingStackSlotMoves = st.materializingStackSlotMoves
  edges : edgeCount st2 ≤ edgeCount st
  saved : SavedState (if hc then m.mem cs.toMLoc else v) st2 (m.run code)
    base (found || hc)
  drain : ∀ x d : GapLoc k, d ∈ (targetsOf st x).asList →
    d ∉ allTargets st2 → (m.run code).mem d.toMLoc = m.mem x.toMLoc
  keep : ∀ d : GapLoc k, d ∉ allTargets st ∨ d ∈ allTargets st2 →
    (m.run code).mem d.toMLoc = m.mem d.toMLoc
  drainout : ∀ x : GapLoc k, x ∈ allTargets st → x ∉ allTargets st2 →
    (targetsOf st2 x).asList = []
  stack : StackBounded m code base
  movsrc : ∀ d s1, Instr.mov d s1 ∈ code → s1 = MLoc.scratch ∨
    s1 = cs.toMLoc ∨ ∃ x : GapLoc k, s1 = x.toMLoc ∧
      ((targetsOf st x).asList ≠ [] ∨ x ∈ allTargets st)
  nopop : ∀ l, Instr.pop l ∉ code
  pushscr : ∀ l, Instr.push l ∈ code → l = MLoc.scratch
  nomat : ∀ l n, Instr.materialize l n ∉ code

/-- Hoare specification of `ContinueEmitMoveChain`, parameterized by fuel. -/
def ContSpec (k fuel : Nat) : Prop :=
  ∀ (cs source : GapLoc k) (st : ResolverState k) (m : Machine k)
    (base : List (SVal k)) (v : SVal k) (found : Bool),
    WF st → edgeCount st < fuel → SavedState v st m base found →
    source ∉ allTargets st → (targetsOf st cs).asList = [] →
    (found = true → cs ∉ allTargets st ∧ cs ≠ source) →
    ChainPost cs st m base v found
      (ContinueEmitMoveChain fuel cs source st).1
      (ContinueEmitMoveChain fuel cs source st).2.1
      (ContinueEmitMoveChain fuel cs source st).2.2 ∧
    (targetsOf (ContinueEmitMoveChain fuel cs source st).2.1 source).asList
      = [] ∧
    ((ContinueEmitMoveChain fuel cs source st).2.2 = true ↔
      source = cs ∨ (cs ∈ allTargets st ∧
        cs ∉ allTargets (ContinueEmitMoveChain fuel cs source st).2.1))

/-- Hoare specification of `EmitChainTargets`, parameterized by fuel. -/
def TargetsSpec (k fuel : Nat) : Prop :=
  ∀ (cs : GapLoc k) (ts : List (GapLoc k)) (st : ResolverState k)
    (m : Machine k) (base : List (SVal k)) (v : SVal k) (found : Bool),
    WF st → edgeCount st < fuel → SavedState v st m base found →
    (∀ t ∈ ts, t ∉ allTargets st) → ts.Nodup →
    (targetsOf st cs).asList = [] →
    (found = true → cs ∉ allTargets st ∧ cs ∉ ts) →
    ChainPost cs st m base v found
      (EmitChainTargets fuel cs ts st).1
      (EmitChainTargets fuel cs ts st).2.1
      (EmitChainTargets fuel cs ts st).2.2 ∧
    (∀ t ∈ ts,
      (targetsOf (EmitChainTargets fuel cs ts st).2.1 t).asList = []) ∧
    ((EmitChainTargets fuel cs ts st).2.2 = true ↔
      cs ∈ ts ∨ (cs ∈ allTargets st ∧
        cs ∉ allTargets (EmitChainTargets fuel cs ts st).2.1))

/-- Unified behaviour of `EmitMovesFromSource`: every target receives the
source value; the saved value, resolver graph fields and stack bound are
preserved; the code is pop-free and materialization-free, pushes only the
scratch register, and moves only out of the scratch, the source, or the
first register target. -/
theorem emitMovesFromSource_spec {k : Nat} (source : GapLoc k)
    (targets : GapMoveTargets k) (st : ResolverState k) (m : Machine k)
    (v : SVal k) (base : List (SVal k)) (found : Bool)
    (hnd : targets.asList.Nodup) (hself : source ∉ targets.asList)
    (hsv : SavedState v st m base found) :
    (∀ l : MLoc k, l ≠ MLoc.scratch →
      (m.run (EmitMovesFromSource source targets st).1).mem l =
        if l ∈ targets.asList.map GapLoc.toMLoc
        then m.mem source.toMLoc else m.mem l) ∧
    SavedState v (EmitMovesFromSource source targets st).2
      (m.run (EmitMovesFromSource source targets st).1) base found ∧
    (EmitMovesFromSource source targets st).2.movesFromRegister =
      st.movesFromRegister ∧
    (EmitMovesFromSource source targets st).2.movesFromStackSlot =
      st.movesFromStackSlot ∧
    (EmitMovesFromSource source targets st).2.materializingRegisterMoves =
      st.materializingRegisterMoves ∧
    (EmitMovesFromSource source targets st).2.materializingStackSlotMoves =
      st.materializingStackSlotMoves ∧
    StackBounded m (EmitMovesFromSource source targets st).1 base ∧
    (∀ l, Instr.pop l ∉ (EmitMovesFromSource source targets st).1) ∧
    (∀ l, Instr.push l ∈ (EmitMovesFromSource source targets st).1 →
      l = MLoc.scratch) ∧
    (∀ l n, Instr.materialize l n ∉ (EmitMovesFromSource source targets st).1) ∧
    (∀ d s1, Instr.mov d s1 ∈ (EmitMovesFromSource source targets st).1 →
      s1 = MLoc.scratch ∨ s1 = source.toMLoc ∨
        ∃ t, s1 = MLoc.reg t ∧ GapLoc.reg t ∈ targets.asList) := by
  cases source with
  | slot s =>
    obtain ⟨h1, h2, h3, h4, h5, h6, h7, h8, h9, h10, h11⟩ :=
      emitMovesFromSlotSource_spec s targets st m v base found hnd hsv
    exact ⟨h1, h2, h3, h4, h5, h6, h7, h8, h9, h10, h11⟩
  | reg r0 =>
    have hcode : (EmitMovesFromSource (GapLoc.reg r0) targets st).1 =
        movsTo (MLoc.reg r0) (targets.asList.map GapLoc.toMLoc) := by
      show EmitMovesFromRegSource (MLoc.reg r0) targets = _
      rw [emitMovesFromRegSource_eq]
    have hst2 : (EmitMovesFromSource (GapLoc.reg r0) targets st).2 = st := rfl
    have hsrcnotin : (MLoc.reg r0 : MLoc k) ∉
        targets.asList.map GapLoc.toMLoc := by
      intro h
      obtain ⟨g, hg, hge⟩ := List.mem_map.mp h
      have : g = GapLoc.reg r0 := GapLoc.toMLoc_inj hge
      exact hself (this ▸ hg)
    have hnoops : ∀ i ∈ (EmitMovesFromSource (GapLoc.reg r0) targets st).1,
        (∀ l, i ≠ Instr.push l) ∧ (∀ l, i ≠ Instr.pop l) := by
      intro i hi
      rw [hcode] at hi
      obtain ⟨d, _, rfl⟩ := movsTo_instr _ _ _ hi
      exact ⟨(fun l h => nomatch h), (fun l h => nomatch h)⟩
    have hns : (m.run (EmitMovesFromSource (GapLoc.reg r0) targets st).1).nstack
        = m.nstack := run_nstack_no_ops _ m hnoops
    have hmem : ∀ l : MLoc k,
        (m.run (EmitMovesFromSource (GapLoc.reg r0) targets st).1).mem l =
        if l ∈ targets.asList.map GapLoc.toMLoc
        then m.mem (MLoc.reg r0) else m.mem l := by
      intro l
      rw [hcode]
      exact movsTo_mem _ _ m hsrcnotin l
    refine ⟨fun l _ => hmem l, ?_, by rw [hst2], by rw [hst2], by rw [hst2],
      by rw [hst2], ?_, ?_, ?_, ?_, ?_⟩
    · refine savedState_congr hsv (by rw [hst2]) ?_ hns
      rw [hmem MLoc.scratch, if_neg (scratch_notin_map _)]
    · exact stackBounded_no_ops (savedState_stack_cases hsv) hnoops
    · intro l hl
      exact ((hnoops _ hl).2 l rfl).elim
    · intro l hl
      exact ((hnoops _ hl).1 l rfl).elim
    · intro l n hl
      rw [hcode] at hl
      obtain ⟨d, _, he⟩ := movsTo_instr _ _ _ hl
      cases he
    · intro d s1 hl
      rw [hcode] at hl
      obtain ⟨d1, _, he⟩ := movsTo_instr _ _ _ hl
      cases he
      exact Or.inr (Or.inl rfl)

/-- The continue-chain specification follows from the targets specification
at smaller fuel. -/
theorem contSpec_of_targetsSpec {k : Nat} (fuel : Nat)
    (hts : ∀ f, f < fuel → TargetsSpec k f) : ContSpec k fuel := by
  intro cs source st m base v found hwf hfuel hsv hnoin hcsout hfs
  by_cases hcs : cs = source
  · subst hcs
    have hunf : ContinueEmitMoveChain fuel cs cs st =
        ([Instr.mov MLoc.scratch cs.toMLoc],
          {st with scratchHasCycleStart := true}, true) := by
      rw [ContinueEmitMoveChain.eq_def]
      simp
    have hcodeEq : (ContinueEmitMoveChain fuel cs cs st).1 =
        [Instr.mov MLoc.scratch cs.toMLoc] := by rw [hunf]
    have hstEq : (ContinueEmitMoveChain fuel cs cs st).2.1 =
        {st with scratchHasCycleStart := true} := by rw [hunf]
    have hhcEq : (ContinueEmitMoveChain fuel cs cs st).2.2 = true := by
      rw [hunf]
    rw [hcodeEq, hstEq, hhcEq]
    have hfound : found = false := by
      cases found with
      | false => rfl
      | true => exact absurd rfl (hfs rfl).2
    subst hfound
    have hsvp : st.scratchHasCycleStart = false ∧ m.nstack = base := hsv
    have hrun1 : m.run [Instr.mov MLoc.scratch cs.toMLoc] =
        ⟨Function.update m.mem MLoc.scratch (m.mem cs.toMLoc),
          m.nstack⟩ := rfl
    refine ⟨⟨hwf, fun r => Or.inl rfl, List.Sublist.refl _, rfl, rfl,
      Nat.le_refl _, ?_, ?_, ?_, ?_, ?_, ?_, ?_, ?_, ?_⟩, hcsout, ?_⟩
    · show SavedState (m.mem cs.toMLoc) _ _ _ true
      unfold SavedState
      refine Or.inl ⟨rfl, ?_, ?_⟩
      · rw [hrun1]
        show Function.update m.mem MLoc.scratch (m.mem cs.toMLoc)
          MLoc.scratch = m.mem cs.toMLoc
        exact Function.update_same _ _ _
      · rw [hrun1]
        exact hsvp.2
    · intro x d hxd hdna
      exact absurd (mem_allTargets_of_edge hxd) hdna
    · intro d _
      rw [hrun1]
      exact Function.update_noteq (GapLoc.toMLoc_ne_scratch d) _ _
    · intro x hin hout
      exact absurd hin hout
    · exact stackBounded_no_ops (Or.inl hsvp.2)
        (by intro i hi
            rcases List.mem_cons.mp hi with rfl | h
            · exact ⟨(fun l h => nomatch h), (fun l h => nomatch h)⟩
            · cases h)
    · intro d s1 hmem
      rcases List.mem_cons.mp hmem with h | h
      · cases h
        exact Or.inr (Or.inl rfl)
      · cases h
    · intro l hmem
      rcases List.mem_cons.mp hmem with h | h
      · cases h
      · cases h
    · intro l hmem
      rcases List.mem_cons.mp hmem with h | h
      · cases h
      · cases h
    · intro l n hmem
      rcases List.mem_cons.mp hmem with h | h
      · cases h
      · cases h
    · exact ⟨fun _ => Or.inl rfl, fun _ => rfl⟩
  · cases fuel with
    | zero => omega
    | succ f =>
      by_cases hemp : (PopTargets st source).1.isEmpty = true
      · have hunf : ContinueEmitMoveChain (f + 1) cs source st =
            ([], (PopTargets st source).2, false) := by
          rw [ContinueEmitMoveChain.eq_def]
          simp [hcs, hemp]
        have hcodeEq : (ContinueEmitMoveChain (f + 1) cs source st).1 = [] :=
          by rw [hunf]
        have hstEq : (ContinueEmitMoveChain (f + 1) cs source st).2.1 =
            (PopTargets st source).2 := by rw [hunf]
        have hhcEq : (ContinueEmitMoveChain (f + 1) cs source st).2.2 =
            false := by rw [hunf]
        rw [hcodeEq, hstEq, hhcEq]
        have hsrcempty : (targetsOf st source).asList = [] := by
          rw [← popTargets_fst st source]
          exact (isEmpty_iff_asList _).mp hemp
        obtain ⟨P, Q, hd1, hd2⟩ := popTargets_decomp st source
        have hAT : allTargets (PopTargets st source).2 = allTargets st := by
          rw [hd2, hd1, hsrcempty]
          simp
        have hedgeeq : edgeCount (PopTargets st source).2 = edgeCount st := by
          have := edgeCount_pop st source
          rw [hsrcempty] at this
          simpa using this
        refine ⟨⟨WF_pop hwf source, popTargets_regs st source,
          popTargets_slots st source, (popTargets_fields st source).2.1,
          (popTargets_fields st source).2.2, Nat.le_of_eq hedgeeq,
          ?_, ?_, ?_, ?_, ?_, ?_, ?_, ?_, ?_⟩, ?_, ?_⟩
        · show SavedState (if false then m.mem cs.toMLoc else v) _
            (m.run []) _ (found || false)
          rw [if_neg (by simp), Bool.or_false]
          exact savedState_congr hsv (popTargets_fields st source).1 rfl rfl
        · intro x d hxd hdna
          rw [hAT] at hdna
          exact absurd (mem_allTargets_of_edge hxd) hdna
        · intro d _
          rfl
        · intro x hin hout
          rw [hAT] at hout
          exact absurd hin hout
        · exact stackBounded_no_ops (savedState_stack_cases hsv)
            (by intro i hi; cases hi)
        · intro d s1 hmem
          cases hmem
        · intro l hmem
          cases hmem
        · intro l hmem
          cases hmem
        · intro l n hmem
          cases hmem
        · exact popTargets_targetsOf_self st source hwf.2.1
        · constructor
          · intro h
            exact absurd h (by simp)
          · intro h
            rcases h with h | ⟨hin, hout⟩
            · exact absurd h.symm hcs
            · rw [hAT] at hout
              exact absurd hin hout
      · -- main case: nonempty pop, recurse, then emit from the source
        have hfst := popTargets_fst st source
        have hunf : ContinueEmitMoveChain (f + 1) cs source st =
            ((EmitChainTargets f cs (targetsOf st source).asList
                (PopTargets st source).2).1 ++
              (EmitMovesFromSource source (targetsOf st source)
                (EmitChainTargets f cs (targetsOf st source).asList
                  (PopTargets st source).2).2.1).1,
              (EmitMovesFromSource source (targetsOf st source)
                (EmitChainTargets f cs (targetsOf st source).asList
                  (PopTargets st source).2).2.1).2,
              (EmitChainTargets f cs (targetsOf st source).asList
                (PopTargets st source).2).2.2) := by
          rw [ContinueEmitMoveChain.eq_def]
          simp only [hcs, if_neg, hemp, if_false]
          rw [hfst]
          simp [hemp]
        have hcodeEq := congrArg Prod.fst hunf
        have hstEq := congrArg (fun q => q.2.1) hunf
        have hhcEq := congrArg (fun q => q.2.2) hunf
        simp only at hcodeEq hstEq hhcEq
        rw [hcodeEq, hstEq, hhcEq]
        have htsne : (targetsOf st source).asList ≠ [] := by
          intro h
          rw [← hfst] at h
          exact hemp ((isEmpty_iff_asList _).mpr h)
        have hwf1 : WF (PopTargets st source).2 := WF_pop hwf source
        have hkeys1 := hwf1.2.1
        have hedge1 : edgeCount (PopTargets st source).2 < f := by
          have h1 := edgeCount_pop st source
          have h2 : (targetsOf st source).asList.length ≥ 1 := by
            cases hl : (targetsOf st source).asList with
            | nil => exact absurd hl htsne
            | cons a l => simp
          omega
        have hsv1 : SavedState v (PopTargets st source).2 m base found :=
          savedState_congr hsv (popTargets_fields st source).1 rfl rfl
        have hmono1 : ∀ d : GapLoc k, d ∈ allTargets (PopTargets st source).2 →
            d ∈ allTargets st :=
          allTargets_mono (popTargets_regs st source) (popTargets_slots st source)
        have hnoin1 : ∀ t ∈ (targetsOf st source).asList,
            t ∉ allTargets (PopTargets st source).2 :=
          fun t ht => pop_targets_notin hwf source ht
        have hnd_ts := pop_targets_nodup hwf source
        have hcs1 : (targetsOf (PopTargets st source).2 cs).asList = [] := by
          rw [popTargets_targetsOf_ne st source cs hcs]
          exact hcsout
        have hfs1 : found = true →
            cs ∉ allTargets (PopTargets st source).2 ∧
            cs ∉ (targetsOf st source).asList := by
          intro hft
          exact ⟨fun hmem => (hfs hft).1 (hmono1 cs hmem),
            fun hts2 => (hfs hft).1 (mem_allTargets_of_edge hts2)⟩
        obtain ⟨bp, bempty, biff⟩ := hts f (Nat.lt_succ_self f) cs
          (targetsOf st source).asList (PopTargets st source).2 m base v found
          hwf1 hedge1 hsv1 hnoin1 hnd_ts hcs1 hfs1
        have hmono2 : ∀ d : GapLoc k,
            d ∈ allTargets (EmitChainTargets f cs (targetsOf st source).asList
              (PopTargets st source).2).2.1 →
            d ∈ allTargets (PopTargets st source).2 :=
          allTargets_mono bp.regs bp.slots
        have hself : source ∉ (targetsOf st source).asList := hwf.2.2 source
        obtain ⟨f1, f2, f3r, f3s, f3mr, f3ms, f4, f5p, f5ps, f5m, f5mv⟩ :=
          emitMovesFromSource_spec source (targetsOf st source)
            (EmitChainTargets f cs (targetsOf st source).asList
              (PopTargets st source).2).2.1
            (m.run (EmitChainTargets f cs (targetsOf st source).asList
              (PopTargets st source).2).1)
            (if (EmitChainTargets f cs (targetsOf st source).asList
              (PopTargets st source).2).2.2 = true
             then m.mem cs.toMLoc else v)
            base
            (found || (EmitChainTargets f cs (targetsOf st source).asList
              (PopTargets st source).2).2.2)
            hnd_ts hself bp.saved
        have hATe := (graph_fields_eq f3r f3s).1
        have hTOe := (graph_fields_eq f3r f3s).2.1
        have hECe := (graph_fields_eq f3r f3s).2.2.1
        have hWFe := (graph_fields_eq f3r f3s).2.2.2
        have hsrc_keep : (m.run (EmitChainTargets f cs
            (targetsOf st source).asList (PopTargets st source).2).1).mem
              source.toMLoc = m.mem source.toMLoc :=
          bp.keep source (Or.inl (fun h => hnoin (hmono1 source h)))
        have hrunsplit : ∀ c1 c2 : List (Instr k),
            m.run (c1 ++ c2) = (m.run c1).run c2 := Machine.run_append m
        refine ⟨⟨?_, ?_, ?_, ?_, ?_, ?_, ?_, ?_, ?_, ?_, ?_, ?_, ?_, ?_, ?_⟩,
          ?_, ?_⟩
        · exact hWFe.mpr bp.wf
        · intro r
          rw [show (EmitMovesFromSource source (targetsOf st source)
            (EmitChainTargets f cs (targetsOf st source).asList
              (PopTargets st source).2).2.1).2.movesFromRegister r =
            (EmitChainTargets f cs (targetsOf st source).asList
              (PopTargets st source).2).2.1.movesFromRegister r from by
            rw [f3r]]
          exact regs_evolve_trans (popTargets_regs st source) bp.regs r
        · rw [f3s]
          exact bp.slots.trans (popTargets_slots st source)
        · rw [f3mr, bp.matReg]
          exact (popTargets_fields st source).2.1
        · rw [f3ms, bp.matSlot]
          exact (popTargets_fields st source).2.2
        · rw [hECe]
          have h1 := edgeCount_pop st source
          have := bp.edges
          omega
        · rw [hrunsplit]
          exact f2
        · intro x d hxd hdna
          rw [hATe] at hdna
          rw [hrunsplit]
          by_cases hxs : x = source
          · subst hxs
            have hmemmap : d.toMLoc ∈
                (targetsOf st x).asList.map GapLoc.toMLoc :=
              List.mem_map_of_mem GapLoc.toMLoc hxd
            rw [f1 d.toMLoc (GapLoc.toMLoc_ne_scratch d), if_pos hmemmap]
            exact hsrc_keep
          · have hsurv : d ∈ (targetsOf (PopTargets st source).2 x).asList := by
              rw [popTargets_targetsOf_ne st source x hxs]
              exact hxd
            have hdnotts : d ∉ (targetsOf st source).asList := by
              intro hdts
              exact pop_targets_notin hwf source hdts
                (mem_allTargets_of_edge hsurv)
            have hdnotmap : d.toMLoc ∉
                (targetsOf st source).asList.map GapLoc.toMLoc := by
              intro hmemmap
              obtain ⟨g, hg, hge⟩ := List.mem_map.mp hmemmap
              exact hdnotts (GapLoc.toMLoc_inj hge ▸ hg)
            rw [f1 d.toMLoc (GapLoc.toMLoc_ne_scratch d), if_neg hdnotmap]
            exact bp.drain x d hsurv hdna
        · intro d hd
          rw [hrunsplit]
          have hdnotts : d ∉ (targetsOf st source).asList := by
            intro hdts
            rcases hd with hd | hd
            · exact hd (mem_allTargets_of_edge hdts)
            · rw [hATe] at hd
              exact pop_targets_notin hwf source hdts (hmono2 d hd)
          have hdnotmap : d.toMLoc ∉
              (targetsOf st source).asList.map GapLoc.toMLoc := by
            intro hmemmap
            obtain ⟨g, hg, hge⟩ := List.mem_map.mp hmemmap
            exact hdnotts (GapLoc.toMLoc_inj hge ▸ hg)
          rw [f1 d.toMLoc (GapLoc.toMLoc_ne_scratch d), if_neg hdnotmap]
          refine bp.keep d ?_
          rcases hd with hd | hd
          · exact Or.inl (fun h => hd (hmono1 d h))
          · rw [hATe] at hd
            exact Or.inr hd
        · intro x hin hout
          rw [hATe] at hout
          rw [show targetsOf (EmitMovesFromSource source (targetsOf st source)
            (EmitChainTargets f cs (targetsOf st source).asList
              (PopTargets st source).2).2.1).2 x =
            targetsOf (EmitChainTargets f cs (targetsOf st source).asList
              (PopTargets st source).2).2.1 x from hTOe x]
          by_cases hxts : x ∈ (targetsOf st source).asList
          · exact bempty x hxts
          · obtain ⟨P, Q, hd1, hd2⟩ := popTargets_decomp st source
            have hin1 : x ∈ allTargets (PopTargets st source).2 := by
              rw [hd2]
              rw [hd1] at hin
              rcases List.mem_append.mp hin with h1 | h1
              · rcases List.mem_append.mp h1 with h2 | h2
                · exact List.mem_append_left Q h2
                · exact absurd h2 hxts
              · exact List.mem_append_right P h1
            exact bp.drainout x hin1 hout
        · rw [show (EmitChainTargets f cs (targetsOf st source).asList
              (PopTargets st source).2).1 ++
              (EmitMovesFromSource source (targetsOf st source)
                (EmitChainTargets f cs (targetsOf st source).asList
                  (PopTargets st source).2).2.1).1 =
              (EmitChainTargets f cs (targetsOf st source).asList
                (PopTargets st source).2).1 ++
              (EmitMovesFromSource source (targetsOf st source)
                (EmitChainTargets f cs (targetsOf st source).asList
                  (PopTargets st source).2).2.1).1 from rfl]
          exact stackBounded_append bp.stack f4
        · intro d s1 hmem
          rcases List.mem_append.mp hmem with h | h
          · rcases bp.movsrc d s1 h with h1 | h1 | ⟨x, hx1, hx2⟩
            · exact Or.inl h1
            · exact Or.inr (Or.inl h1)
            · refine Or.inr (Or.inr ⟨x, hx1, ?_⟩)
              rcases hx2 with h2 | h2
              · rcases targetsOf_mono (popTargets_regs st source)
                  (popTargets_slots st source) hwf.2.1 x with h3 | h3
                · exact Or.inl (h3 ▸ h2)
                · exact absurd h3 h2
              · exact Or.inr (hmono1 x h2)
          · rcases f5mv d s1 h with h1 | h1 | ⟨t, ht1, ht2⟩
            · exact Or.inl h1
            · exact Or.inr (Or.inr ⟨source, h1, Or.inl htsne⟩)
            · exact Or.inr (Or.inr ⟨GapLoc.reg t, ht1,
                Or.inr (mem_allTargets_of_edge ht2)⟩)
        · intro l hmem
          rcases List.mem_append.mp hmem with h | h
          · exact bp.nopop l h
          · exact f5p l h
        · intro l hmem
          rcases List.mem_append.mp hmem with h | h
          · exact bp.pushscr l h
          · exact f5ps l h
        · intro l n hmem
          rcases List.mem_append.mp hmem with h | h
          · exact bp.nomat l n h
          · exact f5m l n h
        · rw [show targetsOf (EmitMovesFromSource source (targetsOf st source)
            (EmitChainTargets f cs (targetsOf st source).asList
              (PopTargets st source).2).2.1).2 source =
            targetsOf (EmitChainTargets f cs (targetsOf st source).asList
              (PopTargets st source).2).2.1 source from hTOe source]
          rcases targetsOf_mono bp.regs bp.slots hkeys1 source with h | h
          · rw [h]
            exact popTargets_targetsOf_self st source hwf.2.1
          · exact h
        · constructor
          · intro h
            rcases biff.mp h with hin | ⟨hin1, hout1⟩
            · refine Or.inr ⟨mem_allTargets_of_edge hin, ?_⟩
              rw [hATe]
              intro hmem
              exact pop_targets_notin hwf source hin (hmono2 cs hmem)
            · refine Or.inr ⟨hmono1 cs hin1, ?_⟩
              rw [hATe]
              exact hout1
          · intro h
            rcases h with h | ⟨hin, hout⟩
            · exact absurd h.symm hcs
            · rw [hATe] at hout
              apply biff.mpr
              obtain ⟨P, Q, hd1, hd2⟩ := popTargets_decomp st source
              rw [hd1] at hin
              rcases List.mem_append.mp hin with h1 | h1
              · rcases List.mem_append.mp h1 with h2 | h2
                · refine Or.inr ⟨?_, hout⟩
                  rw [hd2]
                  exact List.mem_append_left Q h2
                · exact Or.inl h2
              · refine Or.inr ⟨?_, hout⟩
                rw [hd2]
                exact List.mem_append_right P h1

/-- The targets specification follows from the continue-chain specification
at the same fuel. -/
theorem targetsSpec_of_contSpec {k : Nat} (fuel : Nat)
    (hcont : ContSpec k fuel) : TargetsSpec k fuel := by
  intro cs ts
  induction ts with
  | nil =>
    intro st m base v found hwf hfuel hsv hnoin hnd hcsout hfs
    have hunf : EmitChainTargets fuel cs [] st = ([], st, false) := by
      rw [EmitChainTargets.eq_def]
    have hcodeEq : (EmitChainTargets fuel cs [] st).1 = [] := by rw [hunf]
    have hstEq : (EmitChainTargets fuel cs [] st).2.1 = st := by rw [hunf]
    have hhcEq : (EmitChainTargets fuel cs [] st).2.2 = false := by rw [hunf]
    rw [hcodeEq, hstEq, hhcEq]
    refine ⟨⟨hwf, fun r => Or.inl rfl, List.Sublist.refl _, rfl, rfl,
      Nat.le_refl _, ?_, ?_, ?_, ?_, ?_, ?_, ?_, ?_, ?_⟩, ?_, ?_⟩
    · show SavedState (if false then m.mem cs.toMLoc else v) st (m.run [])
        base (found || false)
      rw [if_neg (by simp), Bool.or_false]
      exact hsv
    · intro x d hxd hdna
      exact absurd (mem_allTargets_of_edge hxd) hdna
    · intro d _
      rfl
    · intro x hin hout
      exact absurd hin hout
    · exact stackBounded_no_ops (savedState_stack_cases hsv)
        (by intro i hi; cases hi)
    · intro d s1 hmem
      cases hmem
    · intro l hmem
      cases hmem
    · intro l hmem
      cases hmem
    · intro l n hmem
      cases hmem
    · intro t ht
      cases ht
    · constructor
      · intro h
        exact absurd h (by simp)
      · intro h
        rcases h with h | ⟨hin, hout⟩
        · cases h
        · exact absurd hin hout
  | cons t rest ih =>
    intro st m base v found hwf hfuel hsv hnoin hnd hcsout hfs
    have hfsh : found = true → cs ∉ allTargets st ∧ cs ≠ t := by
      intro hft
      exact ⟨(hfs hft).1,
        fun he => (hfs hft).2 (he ▸ List.mem_cons_self t rest)⟩
    obtain ⟨ap, aempty, aiff⟩ := hcont cs t st m base v found hwf hfuel hsv
      (hnoin t (List.mem_cons_self t rest)) hcsout hfsh
    have hmonoA : ∀ d : GapLoc k,
        d ∈ allTargets (ContinueEmitMoveChain fuel cs t st).2.1 →
        d ∈ allTargets st := allTargets_mono ap.regs ap.slots
    have hwfc := ap.wf
    have hfuel1 : edgeCount (ContinueEmitMoveChain fuel cs t st).2.1 < fuel :=
      Nat.lt_of_le_of_lt ap.edges hfuel
    have hnoin1 : ∀ t1 ∈ rest,
        t1 ∉ allTargets (ContinueEmitMoveChain fuel cs t st).2.1 :=
      fun t1 h1 hm =>
        hnoin t1 (List.mem_cons_of_mem t h1) (hmonoA t1 hm)
    have hnd1 : rest.Nodup := (List.nodup_cons.mp hnd).2
    have htnotinrest : t ∉ rest := (List.nodup_cons.mp hnd).1
    have hcsout1 :
        (targetsOf (ContinueEmitMoveChain fuel cs t st).2.1 cs).asList = [] := by
      rcases targetsOf_mono ap.regs ap.slots hwf.2.1 cs with h | h
      · rw [h]
        exact hcsout
      · exact h
    have hfs1 : (found || (ContinueEmitMoveChain fuel cs t st).2.2) = true →
        cs ∉ allTargets (ContinueEmitMoveChain fuel cs t st).2.1 ∧
        cs ∉ rest := by
      intro hft
      rcases Bool.or_eq_true _ _ ▸ hft with hf | hc1
      · refine ⟨fun hm => (hfs hf).1 (hmonoA cs hm), ?_⟩
        intro hr
        exact (hfs hf).2 (List.mem_cons_of_mem t hr)
      · rcases aiff.mp hc1 with he | ⟨hin, hout⟩
        · subst he
          refine ⟨fun hm => hnoin t (List.mem_cons_self t rest) (hmonoA t hm),
            htnotinrest⟩
        · refine ⟨hout, ?_⟩
          intro hr
          exact hnoin cs (List.mem_cons_of_mem t hr) hin
    obtain ⟨rp, rempty, riff⟩ := ih (ContinueEmitMoveChain fuel cs t st).2.1
      (m.run (ContinueEmitMoveChain fuel cs t st).1) base
      (if (ContinueEmitMoveChain fuel cs t st).2.2 then m.mem cs.toMLoc else v)
      (found || (ContinueEmitMoveChain fuel cs t st).2.2)
      hwfc hfuel1 ap.saved hnoin1 hnd1 hcsout1 hfs1
    have hmonoR : ∀ d : GapLoc k,
        d ∈ allTargets (EmitChainTargets fuel cs rest
          (ContinueEmitMoveChain fuel cs t st).2.1).2.1 →
        d ∈ allTargets (ContinueEmitMoveChain fuel cs t st).2.1 :=
      allTargets_mono rp.regs rp.slots
    have hunf : EmitChainTargets fuel cs (t :: rest) st =
        ((ContinueEmitMoveChain fuel cs t st).1 ++
          (EmitChainTargets fuel cs rest
            (ContinueEmitMoveChain fuel cs t st).2.1).1,
          (EmitChainTargets fuel cs rest
            (ContinueEmitMoveChain fuel cs t st).2.1).2.1,
          (ContinueEmitMoveChain fuel cs t st).2.2 ||
            (EmitChainTargets fuel cs rest
              (ContinueEmitMoveChain fuel cs t st).2.1).2.2) := by
      rw [EmitChainTargets.eq_def]
    have hcodeEq := congrArg Prod.fst hunf
    have hstEq := congrArg (fun q => q.2.1) hunf
    have hhcEq := congrArg (fun q => q.2.2) hunf
    simp only at hcodeEq hstEq hhcEq
    rw [hcodeEq, hstEq, hhcEq]
    have hrunsplit : m.run ((ContinueEmitMoveChain fuel cs t st).1 ++
        (EmitChainTargets fuel cs rest
          (ContinueEmitMoveChain fuel cs t st).2.1).1) =
        (m.run (ContinueEmitMoveChain fuel cs t st).1).run
          (EmitChainTargets fuel cs rest
            (ContinueEmitMoveChain fuel cs t st).2.1).1 :=
      Machine.run_append m _ _
    have hbool : ((found || (ContinueEmitMoveChain fuel cs t st).2.2) ||
        (EmitChainTargets fuel cs rest
          (ContinueEmitMoveChain fuel cs t st).2.1).2.2) =
        (found || ((ContinueEmitMoveChain fuel cs t st).2.2 ||
          (EmitChainTargets fuel cs rest
            (ContinueEmitMoveChain fuel cs t st).2.1).2.2)) :=
      Bool.or_assoc _ _ _
    have hval : (if (EmitChainTargets fuel cs rest
          (ContinueEmitMoveChain fuel cs t st).2.1).2.2
        then (m.run (ContinueEmitMoveChain fuel cs t st).1).mem cs.toMLoc
        else (if (ContinueEmitMoveChain fuel cs t st).2.2
          then m.mem cs.toMLoc else v)) =
        (if ((ContinueEmitMoveChain fuel cs t st).2.2 ||
          (EmitChainTargets fuel cs rest
            (ContinueEmitMoveChain fuel cs t st).2.1).2.2)
        then m.mem cs.toMLoc else v) := by
      by_cases h2 : (EmitChainTargets fuel cs rest
          (ContinueEmitMoveChain fuel cs t st).2.1).2.2 = true
      · rw [if_pos h2, if_pos (by rw [h2, Bool.or_true])]
        rcases riff.mp h2 with hr | ⟨hin, _⟩
        · exact ap.keep cs (Or.inl (hnoin cs (List.mem_cons_of_mem t hr)))
        · exact ap.keep cs (Or.inr hin)
      · have h2f : (EmitChainTargets fuel cs rest
            (ContinueEmitMoveChain fuel cs t st).2.1).2.2 = false :=
          Bool.not_eq_true _ ▸ (by simpa using h2)
        rw [if_neg h2, h2f, Bool.or_false]
    refine ⟨⟨?_, ?_, ?_, ?_, ?_, ?_, ?_, ?_, ?_, ?_, ?_, ?_, ?_, ?_, ?_⟩,
      ?_, ?_⟩
    · exact rp.wf
    · exact regs_evolve_trans ap.regs rp.regs
    · exact rp.slots.trans ap.slots
    · rw [rp.matReg, ap.matReg]
    · rw [rp.matSlot, ap.matSlot]
    · exact Nat.le_trans rp.edges ap.edges
    · rw [hrunsplit, ← hbool, ← hval]
      exact rp.saved
    · intro x d hxd hdna
      rw [hrunsplit]
      by_cases hdc : d ∈ allTargets (ContinueEmitMoveChain fuel cs t st).2.1
      · rcases targetsOf_mono ap.regs ap.slots hwf.2.1 x with htx | htx
        · have hsurv : d ∈ (targetsOf
              (ContinueEmitMoveChain fuel cs t st).2.1 x).asList := by
            rw [htx]
            exact hxd
          have hstep := rp.drain x d hsurv hdna
          rw [hstep]
          by_cases hxat : x ∈ allTargets st
          · by_cases hxc : x ∈ allTargets (ContinueEmitMoveChain fuel cs t st).2.1
            · exact ap.keep x (Or.inr hxc)
            · have := ap.drainout x hxat hxc
              rw [this] at hsurv
              cases hsurv
          · exact ap.keep x (Or.inl hxat)
        · exfalso
          obtain ⟨y, hy⟩ := mem_allTargets_elim hwfc.2.1 hdc
          have hyne : (targetsOf (ContinueEmitMoveChain fuel cs t st).2.1
              y).asList ≠ [] := by
            intro hnil
            rw [hnil] at hy
            cases hy
          rcases targetsOf_mono ap.regs ap.slots hwf.2.1 y with hty | hty
          · have hyst : d ∈ (targetsOf st y).asList := by
              rw [← hty]
              exact hy
            have hxy := edge_unique hwf hxd hyst
            subst hxy
            rw [htx] at hy
            cases hy
          · exact hyne hty
      · have hstep := ap.drain x d hxd hdc
        have hkeep2 := rp.keep d (Or.inl hdc)
        rw [hkeep2, hstep]
    · intro d hd
      rw [hrunsplit]
      rcases hd with hd | hd
      · have h1 := ap.keep d (Or.inl hd)
        have h2 := rp.keep d (Or.inl (fun hm => hd (hmonoA d hm)))
        rw [h2, h1]
      · have h1 := rp.keep d (Or.inr hd)
        have h2 := ap.keep d (Or.inr (hmonoR d hd))
        rw [h1, h2]
    · intro x hin hout
      by_cases hxc : x ∈ allTargets (ContinueEmitMoveChain fuel cs t st).2.1
      · exact rp.drainout x hxc hout
      · have h1 := ap.drainout x hin hxc
        rcases targetsOf_mono rp.regs rp.slots hwfc.2.1 x with h2 | h2
        · rw [h2]
          exact h1
        · exact h2
    · exact stackBounded_append ap.stack rp.stack
    · intro d s1 hmem
      rcases List.mem_append.mp hmem with h | h
      · exact ap.movsrc d s1 h
      · rcases rp.movsrc d s1 h with h1 | h1 | ⟨x, hx1, hx2⟩
        · exact Or.inl h1
        · exact Or.inr (Or.inl h1)
        · refine Or.inr (Or.inr ⟨x, hx1, ?_⟩)
          rcases hx2 with h2 | h2
          · rcases targetsOf_mono ap.regs ap.slots hwf.2.1 x with h3 | h3
            · exact Or.inl (h3 ▸ h2)
            · exact absurd h3 h2
          · exact Or.inr (hmonoA x h2)
    · intro l hmem
      rcases List.mem_append.mp hmem with h | h
      · exact ap.nopop l h
      · exact rp.nopop l h
    · intro l hmem
      rcases List.mem_append.mp hmem with h | h
      · exact ap.pushscr l h
      · exact rp.pushscr l h
    · intro l n hmem
      rcases List.mem_append.mp hmem with h | h
      · exact ap.nomat l n h
      · exact rp.nomat l n h
    · intro t1 ht1
      rcases List.mem_cons.mp ht1 with rfl | ht2
      · rcases targetsOf_mono rp.regs rp.slots hwfc.2.1 t1 with h | h
        · rw [h]
          exact aempty
        · exact h
      · exact rempty t1 ht2
    · constructor
      · intro h
        rcases Bool.or_eq_true _ _ ▸ h with hc1 | hc2
        · rcases aiff.mp hc1 with he | ⟨hin, hout⟩
          · exact Or.inl (he ▸ List.mem_cons_self t rest)
          · refine Or.inr ⟨hin, fun hm => hout (hmonoR cs hm)⟩
        · rcases riff.mp hc2 with hr | ⟨hin, hout⟩
          · exact Or.inl (List.mem_cons_of_mem t hr)
          · exact Or.inr ⟨hmonoA cs hin, hout⟩
      · intro h
        rw [Bool.or_eq_true]
        rcases h with h | ⟨hin, hout⟩
        · rcases List.mem_cons.mp h with he | hr
          · exact Or.inl (aiff.mpr (Or.inl he.symm))
          · exact Or.inr (riff.mpr (Or.inl hr))
        · by_cases hcsc : cs ∈ allTargets (ContinueEmitMoveChain fuel cs t st).2.1
          · exact Or.inr (riff.mpr (Or.inr ⟨hcsc, hout⟩))
          · exact Or.inl (aiff.mpr (Or.inr ⟨hin, hcsc⟩))

/-- Both chain-emission specifications hold at every fuel. -/
theorem chain_spec {k : Nat} : ∀ fuel, ContSpec k fuel ∧ TargetsSpec k fuel := by
  intro fuel
  induction fuel using Nat.strong_induction_on with
  | _ fuel ih =>
    have hcont : ContSpec k fuel :=
      contSpec_of_targetsSpec fuel (fun f hf => (ih f hf).2)
    exact ⟨hcont, targetsSpec_of_contSpec fuel hcont⟩

/-- Postcondition of one whole chain emission from `StartEmitMoveChain`:
graph-only-shrinks with well-formedness, materializing collections and flag
restored clear, native stack restored, drained targets hold their unique
source values and everything else is untouched, drained locations have no
outgoing edges left, the stack stays within one value, and the code moves
only out of scratch or live sources, pops and pushes only the scratch, and
contains no materialization. -/
structure StartPost {k : Nat} (st : ResolverState k) (m : Machine k)
    (code : List (Instr k)) (st2 : ResolverState k) : Prop where
  wf : WF st2
  regs : ∀ r, st2.movesFromRegister r = st.movesFromRegister r ∨
    st2.movesFromRegister r = GapMoveTargets.empty k
  slots : st2.movesFromStackSlot.Sublist st.movesFromStackSlot
  matReg : st2.materializingRegisterMoves = st.materializingRegisterMoves
  matSlot : st2.materializingStackSlotMoves = st.materializingStackSlotMoves
  edges : edgeCount st2 ≤ edgeCount st
  flag : st2.scratchHasCycleStart = false
  nstack : (m.run code).nstack = m.nstack
  drain : ∀ x d : GapLoc k, d ∈ (targetsOf st x).asList →
    d ∉ allTargets st2 → (m.run code).mem d.toMLoc = m.mem x.toMLoc
  keep : ∀ d : GapLoc k, d ∉ allTargets st ∨ d ∈ allTargets st2 →
    (m.run code).mem d.toMLoc = m.mem d.toMLoc
  drainout : ∀ x : GapLoc k, x ∈ allTargets st → x ∉ allTargets st2 →
    (targetsOf st2 x).asList = []
  stack : StackBounded m code m.nstack
  movsrc : ∀ d s1, Instr.mov d s1 ∈ code → s1 = MLoc.scratch ∨
    ∃ x : GapLoc k, s1 = x.toMLoc ∧ ((targetsOf st x).asList ≠ [] ∨
      x ∈ allTargets st)
  popscr : ∀ l, Instr.pop l ∈ code → l = MLoc.scratch
  pushscr : ∀ l, Instr.push l ∈ code → l = MLoc.scratch
  nomat : ∀ l n, Instr.materialize l n ∉ code

/-- Zeta-expanded unfolding of `StartEmitMoveChain`. -/
theorem startEmitMoveChain_eq {k : Nat} (fuel : Nat) (source : GapLoc k)
    (st : ResolverState k) :
    StartEmitMoveChain fuel source st =
      if (PopTargets st source).1.isEmpty then ([], (PopTargets st source).2)
      else
        if (EmitChainTargets fuel source (PopTargets st source).1.asList
            (PopTargets st source).2).2.2 then
          if (EmitChainTargets fuel source (PopTargets st source).1.asList
              (PopTargets st source).2).2.1.scratchHasCycleStart then
            ((EmitChainTargets fuel source (PopTargets st source).1.asList
                (PopTargets st source).2).1 ++
              EmitMovesFromRegSource MLoc.scratch (PopTargets st source).1,
              {(EmitChainTargets fuel source (PopTargets st source).1.asList
                (PopTargets st source).2).2.1 with
                scratchHasCycleStart := false})
          else
            ((EmitChainTargets fuel source (PopTargets st source).1.asList
                (PopTargets st source).2).1 ++
              Instr.pop MLoc.scratch ::
                EmitMovesFromRegSource MLoc.scratch (PopTargets st source).1,
              {(EmitChainTargets fuel source (PopTargets st source).1.asList
                (PopTargets st source).2).2.1 with
                scratchHasCycleStart := false})
        else
          ((EmitChainTargets fuel source (PopTargets st source).1.asList
              (PopTargets st source).2).1 ++
            (EmitMovesFromSource source (PopTargets st source).1
              (EmitChainTargets fuel source (PopTargets st source).1.asList
                (PopTargets st source).2).2.1).1,
            (EmitMovesFromSource source (PopTargets st source).1
              (EmitChainTargets fuel source (PopTargets st source).1.asList
                (PopTargets st source).2).2.1).2) := rfl

/-- Hoare specification of `StartEmitMoveChain`. -/
theorem startEmitMoveChain_spec {k : Nat} (fuel : Nat) (source : GapLoc k)
    (st : ResolverState k) (m : Machine k) (hwf : WF st)
    (hfuel : edgeCount st < fuel)
    (hflag : st.scratchHasCycleStart = false) :
    StartPost st m (StartEmitMoveChain fuel source st).1
      (StartEmitMoveChain fuel source st).2 ∧
    (targetsOf (StartEmitMoveChain fuel source st).2 source).asList = [] ∧
    (StartEmitMoveChain fuel source st).2.movesFromStackSlot.Sublist
      (PopTargets st source).2.movesFromStackSlot := by
  have hfst := popTargets_fst st source
  by_cases hemp : (PopTargets st source).1.isEmpty = true
  · have hunf : StartEmitMoveChain fuel source st =
        ([], (PopTargets st source).2) := by
      unfold StartEmitMoveChain
      simp [hemp]
    have hcodeEq : (StartEmitMoveChain fuel source st).1 = [] := by rw [hunf]
    have hstEq : (StartEmitMoveChain fuel source st).2 =
        (PopTargets st source).2 := by rw [hunf]
    rw [hcodeEq, hstEq]
    have hsrcempty : (targetsOf st source).asList = [] := by
      rw [← hfst]
      exact (isEmpty_iff_asList _).mp hemp
    obtain ⟨P, Q, hd1, hd2⟩ := popTargets_decomp st source
    have hAT : allTargets (PopTargets st source).2 = allTargets st := by
      rw [hd2, hd1, hsrcempty]
      simp
    have hedgeeq : edgeCount (PopTargets st source).2 = edgeCount st := by
      have := edgeCount_pop st source
      rw [hsrcempty] at this
      simpa using this
    refine ⟨⟨WF_pop hwf source, popTargets_regs st source,
      popTargets_slots st source, (popTargets_fields st source).2.1,
      (popTargets_fields st source).2.2, Nat.le_of_eq hedgeeq,
      ?_, rfl, ?_, ?_, ?_, ?_, ?_, ?_, ?_, ?_⟩, ?_, ?_⟩
    · rw [(popTargets_fields st source).1]
      exact hflag
    · intro x d hxd hdna
      rw [hAT] at hdna
      exact absurd (mem_allTargets_of_edge hxd) hdna
    · intro d _
      rfl
    · intro x hin hout
      rw [hAT] at hout
      exact absurd hin hout
    · exact stackBounded_no_ops (Or.inl rfl) (by intro i hi; cases hi)
    · intro d s1 hmem
      cases hmem
    · intro l hmem
      cases hmem
    · intro l hmem
      cases hmem
    · intro l n hmem
      cases hmem
    · exact popTargets_targetsOf_self st source hwf.2.1
    · exact List.Sublist.refl _
  · -- nonempty pop: run the chain targets, then emit from the source
    have htsne : (targetsOf st source).asList ≠ [] := by
      intro h
      rw [← hfst] at h
      exact hemp ((isEmpty_iff_asList _).mpr h)
    have hemp2 : ¬ (targetsOf st source).isEmpty = true := by
      rw [← hfst]
      exact hemp
    have hwf1 : WF (PopTargets st source).2 := WF_pop hwf source
    have hkeys1 := hwf1.2.1
    have hedge1 : edgeCount (PopTargets st source).2 < fuel := by
      have h1 := edgeCount_pop st source
      have h2 : (targetsOf st source).asList.length ≥ 1 := by
        cases hl : (targetsOf st source).asList with
        | nil => exact absurd hl htsne
        | cons a l => simp
      omega
    have hsv1 : SavedState (m.mem source.toMLoc) (PopTargets st source).2 m
        m.nstack false := by
      unfold SavedState
      exact ⟨(popTargets_fields st source).1.trans hflag, rfl⟩
    have hmono1 : ∀ d : GapLoc k, d ∈ allTargets (PopTargets st source).2 →
        d ∈ allTargets st :=
      allTargets_mono (popTargets_regs st source) (popTargets_slots st source)
    have hnoin1 : ∀ t ∈ (targetsOf st source).asList,
        t ∉ allTargets (PopTargets st source).2 :=
      fun t ht => pop_targets_notin hwf source ht
    have hnd_ts := pop_targets_nodup hwf source
    have hcs1 : (targetsOf (PopTargets st source).2 source).asList = [] :=
      popTargets_targetsOf_self st source hwf.2.1
    obtain ⟨bp, bempty, biff⟩ := (chain_spec fuel).2 source
      (targetsOf st source).asList (PopTargets st source).2 m m.nstack
      (m.mem source.toMLoc) false hwf1 hedge1 hsv1 hnoin1 hnd_ts hcs1
      (by intro h; cases h)
    have hsaved := bp.saved
    rw [ite_self] at hsaved
    have hmono2 : ∀ d : GapLoc k,
        d ∈ allTargets (EmitChainTargets fuel source
          (targetsOf st source).asList (PopTargets st source).2).2.1 →
        d ∈ allTargets (PopTargets st source).2 :=
      allTargets_mono bp.regs bp.slots
    have hself : source ∉ (targetsOf st source).asList := hwf.2.2 source
    have hdl : (MLoc.scratch : MLoc k) ∉
        (targetsOf st source).asList.map GapLoc.toMLoc := scratch_notin_map _
    have hsrckeep : (m.run (EmitChainTargets fuel source
        (targetsOf st source).asList (PopTargets st source).2).1).mem
          source.toMLoc = m.mem source.toMLoc ∨
        (EmitChainTargets fuel source (targetsOf st source).asList
          (PopTargets st source).2).2.2 = true := by
      by_cases hcyc : (EmitChainTargets fuel source
          (targetsOf st source).asList (PopTargets st source).2).2.2 = true
      · exact Or.inr hcyc
      · refine Or.inl ?_
        by_cases hs1 : source ∈ allTargets (PopTargets st source).2
        · refine bp.keep source (Or.inr ?_)
          by_contra hout
          exact hcyc (biff.mpr (Or.inr ⟨hs1, hout⟩))
        · exact bp.keep source (Or.inl hs1)
    by_cases hcyc : (EmitChainTargets fuel source
        (targetsOf st source).asList (PopTargets st source).2).2.2 = true
    · -- a cycle was found: restore the saved chain-start value and emit
      -- the chain-start targets from the scratch register
      rw [hcyc] at hsaved
      have hsaved2 : SavedState (m.mem source.toMLoc)
          (EmitChainTargets fuel source (targetsOf st source).asList
            (PopTargets st source).2).2.1
          (m.run (EmitChainTargets fuel source (targetsOf st source).asList
            (PopTargets st source).2).1) m.nstack true := by
        simpa using hsaved
      unfold SavedState at hsaved2
      rcases hsaved2 with ⟨hfl, hscr, hns⟩ | ⟨hfl, hns⟩
      · -- the scratch still holds the saved value: no pop needed
        have hunf : StartEmitMoveChain fuel source st =
            ((EmitChainTargets fuel source (targetsOf st source).asList
                (PopTargets st source).2).1 ++
              movsTo MLoc.scratch
                ((targetsOf st source).asList.map GapLoc.toMLoc),
              {(EmitChainTargets fuel source (targetsOf st source).asList
                (PopTargets st source).2).2.1 with
                scratchHasCycleStart := false}) := by
          rw [startEmitMoveChain_eq, hfst]
          rw [emitMovesFromRegSource_eq]
          simp [hcyc, hfl, hemp2]
        have hcodeEq := congrArg Prod.fst hunf
        have hstEq := congrArg Prod.snd hunf
        simp only at hcodeEq hstEq
        rw [hcodeEq, hstEq]
        have hrunsplit : ∀ c2 : List (Instr k),
            m.run ((EmitChainTargets fuel source (targetsOf st source).asList
              (PopTargets st source).2).1 ++ c2) =
            (m.run (EmitChainTargets fuel source (targetsOf st source).asList
              (PopTargets st source).2).1).run c2 :=
          fun c2 => Machine.run_append m _ c2
        have hmemf : ∀ l : MLoc k,
            ((m.run (EmitChainTargets fuel source
              (targetsOf st source).asList (PopTargets st source).2).1).run
                (movsTo MLoc.scratch
                  ((targetsOf st source).asList.map GapLoc.toMLoc))).mem l =
            if l ∈ (targetsOf st source).asList.map GapLoc.toMLoc
            then m.mem source.toMLoc
            else (m.run (EmitChainTargets fuel source
              (targetsOf st source).asList (PopTargets st source).2).1).mem l
            := by
          intro l
          rw [movsTo_mem _ _ _ hdl l, hscr]
        refine ⟨⟨bp.wf, regs_evolve_trans (popTargets_regs st source) bp.regs,
          bp.slots.trans (popTargets_slots st source),
          bp.matReg.trans (popTargets_fields st source).2.1,
          bp.matSlot.trans (popTargets_fields st source).2.2, ?_, rfl, ?_,
          ?_, ?_, ?_, ?_, ?_, ?_, ?_, ?_⟩, ?_, ?_⟩
        · exact Nat.le_trans bp.edges (Nat.le.intro (edgeCount_pop st source))
        · rw [hrunsplit, movsTo_nstack]
          exact hns
        · intro x d hxd hdna
          rw [hrunsplit]
          by_cases hxs : x = source
          · subst hxs
            rw [hmemf, if_pos (List.mem_map_of_mem GapLoc.toMLoc hxd)]
          · have hsurv : d ∈ (targetsOf (PopTargets st source).2 x).asList := by
              rw [popTargets_targetsOf_ne st source x hxs]
              exact hxd
            have hdnotts : d ∉ (targetsOf st source).asList := fun hdts =>
              pop_targets_notin hwf source hdts (mem_allTargets_of_edge hsurv)
            have hdnotmap : d.toMLoc ∉
                (targetsOf st source).asList.map GapLoc.toMLoc := by
              intro hmm
              obtain ⟨g, hg, hge⟩ := List.mem_map.mp hmm
              exact hdnotts (GapLoc.toMLoc_inj hge ▸ hg)
            rw [hmemf, if_neg hdnotmap]
            exact bp.drain x d hsurv hdna
        · intro d hd
          rw [hrunsplit]
          have hdnotts : d ∉ (targetsOf st source).asList := by
            intro hdts
            rcases hd with hd | hd
            · exact hd (mem_allTargets_of_edge hdts)
            · exact pop_targets_notin hwf source hdts (hmono2 d hd)
          have hdnotmap : d.toMLoc ∉
              (targetsOf st source).asList.map GapLoc.toMLoc := by
            intro hmm
            obtain ⟨g, hg, hge⟩ := List.mem_map.mp hmm
            exact hdnotts (GapLoc.toMLoc_inj hge ▸ hg)
          rw [hmemf, if_neg hdnotmap]
          refine bp.keep d ?_
          rcases hd with hd | hd
          · exact Or.inl (fun h => hd (hmono1 d h))
          · exact Or.inr hd
        · intro x hin hout
          by_cases hxts : x ∈ (targetsOf st source).asList
          · exact bempty x hxts
          · obtain ⟨P, Q, hd1, hd2⟩ := popTargets_decomp st source
            have hin1 : x ∈ allTargets (PopTargets st source).2 := by
              rw [hd2]
              rw [hd1] at hin
              rcases List.mem_append.mp hin with h1 | h1
              · rcases List.mem_append.mp h1 with h2 | h2
                · exact List.mem_append_left Q h2
                · exact absurd h2 hxts
              · exact List.mem_append_right P h1
            exact bp.drainout x hin1 hout
        · refine stackBounded_append bp.stack ?_
          refine stackBounded_no_ops (Or.inl hns) ?_
          intro i hi
          obtain ⟨d, _, rfl⟩ := movsTo_instr _ _ _ hi
          exact ⟨(fun l h => nomatch h), (fun l h => nomatch h)⟩
        · intro d s1 hmem
          rcases List.mem_append.mp hmem with h | h
          · rcases bp.movsrc d s1 h with h1 | h1 | ⟨x, hx1, hx2⟩
            · exact Or.inl h1
            · exact Or.inr ⟨source, h1, Or.inl htsne⟩
            · refine Or.inr ⟨x, hx1, ?_⟩
              rcases hx2 with h2 | h2
              · rcases targetsOf_mono (popTargets_regs st source)
                  (popTargets_slots st source) hwf.2.1 x with h3 | h3
                · exact Or.inl (h3 ▸ h2)
                · exact absurd h3 h2
              · exact Or.inr (hmono1 x h2)
          · obtain ⟨d1, _, he⟩ := movsTo_instr _ _ _ h
            cases he
            exact Or.inl rfl
        · intro l hmem
          rcases List.mem_append.mp hmem with h | h
          · exact absurd h (bp.nopop l)
          · obtain ⟨d1, _, he⟩ := movsTo_instr _ _ _ h
            cases he
        · intro l hmem
          rcases List.mem_append.mp hmem with h | h
          · exact bp.pushscr l h
          · obtain ⟨d1, _, he⟩ := movsTo_instr _ _ _ h
            cases he
        · intro l n hmem
          rcases List.mem_append.mp hmem with h | h
          · exact bp.nomat l n h
          · obtain ⟨d1, _, he⟩ := movsTo_instr _ _ _ h
            cases he
        · show (targetsOf (EmitChainTargets fuel source
            (targetsOf st source).asList
            (PopTargets st source).2).2.1 source).asList = []
          rcases targetsOf_mono bp.regs bp.slots hkeys1 source with h | h
          · rw [h]
            exact hcs1
          · exact h
        · exact bp.slots
      · -- the saved value was spilled to the native stack: pop it first
        have hunf : StartEmitMoveChain fuel source st =
            ((EmitChainTargets fuel source (targetsOf st source).asList
                (PopTargets st source).2).1 ++
              Instr.pop MLoc.scratch ::
                movsTo MLoc.scratch
                  ((targetsOf st source).asList.map GapLoc.toMLoc),
              {(EmitChainTargets fuel source (targetsOf st source).asList
                (PopTargets st source).2).2.1 with
                scratchHasCycleStart := false}) := by
          rw [startEmitMoveChain_eq, hfst]
          rw [emitMovesFromRegSource_eq]
          simp [hcyc, hfl, hemp2]
        have hcodeEq := congrArg Prod.fst hunf
        have hstEq := congrArg Prod.snd hunf
        simp only at hcodeEq hstEq
        rw [hcodeEq, hstEq]
        have hm2p : (m.run (EmitChainTargets fuel source
            (targetsOf st source).asList (PopTargets st source).2).1).step
              (Instr.pop MLoc.scratch) =
            ⟨Function.update (m.run (EmitChainTargets fuel source
              (targetsOf st source).asList (PopTargets st source).2).1).mem
              MLoc.scratch (m.mem source.toMLoc), m.nstack⟩ := by
          simp [Machine.step, hns]
        have hrunsplit : m.run ((EmitChainTargets fuel source
            (targetsOf st source).asList (PopTargets st source).2).1 ++
              Instr.pop MLoc.scratch ::
                movsTo MLoc.scratch
                  ((targetsOf st source).asList.map GapLoc.toMLoc)) =
            ((m.run (EmitChainTargets fuel source
              (targetsOf st source).asList (PopTargets st source).2).1).step
                (Instr.pop MLoc.scratch)).run
              (movsTo MLoc.scratch
                ((targetsOf st source).asList.map GapLoc.toMLoc)) := by
          rw [Machine.run_append]
          rfl
        have hmemf : ∀ l : MLoc k, l ≠ MLoc.scratch →
            (((m.run (EmitChainTargets fuel source
              (targetsOf st source).asList (PopTargets st source).2).1).step
                (Instr.pop MLoc.scratch)).run
              (movsTo MLoc.scratch
                ((targetsOf st source).asList.map GapLoc.toMLoc))).mem l =
            if l ∈ (targetsOf st source).asList.map GapLoc.toMLoc
            then m.mem source.toMLoc
            else (m.run (EmitChainTargets fuel source
              (targetsOf st source).asList (PopTargets st source).2).1).mem l
            := by
          intro l hl
          rw [movsTo_mem _ _ _ hdl l, hm2p]
          by_cases hld : l ∈ (targetsOf st source).asList.map GapLoc.toMLoc
          · rw [if_pos hld, if_pos hld]
            show Function.update (m.run (EmitChainTargets fuel source
              (targetsOf st source).asList (PopTargets st source).2).1).mem
              MLoc.scratch (m.mem source.toMLoc) MLoc.scratch =
              m.mem source.toMLoc
            exact Function.update_same _ _ _
          · rw [if_neg hld, if_neg hld]
            show Function.update (m.run (EmitChainTargets fuel source
              (targetsOf st source).asList (PopTargets st source).2).1).mem
              MLoc.scratch (m.mem source.toMLoc) l =
              (m.run (EmitChainTargets fuel source
                (targetsOf st source).asList
                (PopTargets st source).2).1).mem l
            exact Function.update_noteq hl _ _
        refine ⟨⟨bp.wf, regs_evolve_trans (popTargets_regs st source) bp.regs,
          bp.slots.trans (popTargets_slots st source),
          bp.matReg.trans (popTargets_fields st source).2.1,
          bp.matSlot.trans (popTargets_fields st source).2.2, ?_, rfl, ?_,
          ?_, ?_, ?_, ?_, ?_, ?_, ?_, ?_⟩, ?_, ?_⟩
        · exact Nat.le_trans bp.edges (Nat.le.intro (edgeCount_pop st source))
        · rw [hrunsplit, movsTo_nstack, hm2p]
        · intro x d hxd hdna
          rw [hrunsplit]
          by_cases hxs : x = source
          · subst hxs
            rw [hmemf d.toMLoc (GapLoc.toMLoc_ne_scratch d),
              if_pos (List.mem_map_of_mem GapLoc.toMLoc hxd)]
          · have hsurv : d ∈ (targetsOf (PopTargets st source).2 x).asList := by
              rw [popTargets_targetsOf_ne st source x hxs]
              exact hxd
            have hdnotts : d ∉ (targetsOf st source).asList := fun hdts =>
              pop_targets_notin hwf source hdts (mem_allTargets_of_edge hsurv)
            have hdnotmap : d.toMLoc ∉
                (targetsOf st source).asList.map GapLoc.toMLoc := by
              intro hmm
              obtain ⟨g, hg, hge⟩ := List.mem_map.mp hmm
              exact hdnotts (GapLoc.toMLoc_inj hge ▸ hg)
            rw [hmemf d.toMLoc (GapLoc.toMLoc_ne_scratch d), if_neg hdnotmap]
            exact bp.drain x d hsurv hdna
        · intro d hd
          rw [hrunsplit]
          have hdnotts : d ∉ (targetsOf st source).asList := by
            intro hdts
            rcases hd with hd | hd
            · exact hd (mem_allTargets_of_edge hdts)
            · exact pop_targets_notin hwf source hdts (hmono2 d hd)
          have hdnotmap : d.toMLoc ∉
              (targetsOf st source).asList.map GapLoc.toMLoc := by
            intro hmm
            obtain ⟨g, hg, hge⟩ := List.mem_map.mp hmm
            exact hdnotts (GapLoc.toMLoc_inj hge ▸ hg)
          rw [hmemf d.toMLoc (GapLoc.toMLoc_ne_scratch d), if_neg hdnotmap]
          refine bp.keep d ?_
          rcases hd with hd | hd
          · exact Or.inl (fun h => hd (hmono1 d h))
          · exact Or.inr hd
        · intro x hin hout
          by_cases hxts : x ∈ (targetsOf st source).asList
          · exact bempty x hxts
          · obtain ⟨P, Q, hd1, hd2⟩ := popTargets_decomp st source
            have hin1 : x ∈ allTargets (PopTargets st source).2 := by
              rw [hd2]
              rw [hd1] at hin
              rcases List.mem_append.mp hin with h1 | h1
              · rcases List.mem_append.mp h1 with h2 | h2
                · exact List.mem_append_left Q h2
                · exact absurd h2 hxts
              · exact List.mem_append_right P h1
            exact bp.drainout x hin1 hout
        · refine stackBounded_append bp.stack ?_
          intro c1 c2 heq
          cases c1 with
          | nil =>
            exact Or.inr ⟨m.mem source.toMLoc, hns⟩
          | cons i c1t =>
            have hi : i = Instr.pop MLoc.scratch ∧
                c1t ++ c2 = movsTo MLoc.scratch
                  ((targetsOf st source).asList.map GapLoc.toMLoc) := by
              rw [List.cons_append] at heq
              exact ⟨(List.cons.injEq _ _ _ _ ▸ heq).1.symm,
                (List.cons.injEq _ _ _ _ ▸ heq).2.symm⟩
            refine Or.inl ?_
            rw [Machine.run_cons, hi.1]
            rw [run_nstack_no_ops c1t _ ?_, hm2p]
            intro j hj
            have hj2 : j ∈ movsTo MLoc.scratch
                ((targetsOf st source).asList.map GapLoc.toMLoc) := by
              rw [← hi.2]
              exact List.mem_append_left c2 hj
            obtain ⟨d, _, rfl⟩ := movsTo_instr _ _ _ hj2
            exact ⟨(fun l h => nomatch h), (fun l h => nomatch h)⟩
        · intro d s1 hmem
          rcases List.mem_append.mp hmem with h | h
          · rcases bp.movsrc d s1 h with h1 | h1 | ⟨x, hx1, hx2⟩
            · exact Or.inl h1
            · exact Or.inr ⟨source, h1, Or.inl htsne⟩
            · refine Or.inr ⟨x, hx1, ?_⟩
              rcases hx2 with h2 | h2
              · rcases targetsOf_mono (popTargets_regs st source)
                  (popTargets_slots st source) hwf.2.1 x with h3 | h3
                · exact Or.inl (h3 ▸ h2)
                · exact absurd h3 h2
              · exact Or.inr (hmono1 x h2)
          · rcases List.mem_cons.mp h with he | h2
            · cases he
            · obtain ⟨d1, _, he⟩ := movsTo_instr _ _ _ h2
              cases he
              exact Or.inl rfl
        · intro l hmem
          rcases List.mem_append.mp hmem with h | h
          · exact absurd h (bp.nopop l)
          · rcases List.mem_cons.mp h with he | h2
            · cases he
              rfl
            · obtain ⟨d1, _, he⟩ := movsTo_instr _ _ _ h2
              cases he
        · intro l hmem
          rcases List.mem_append.mp hmem with h | h
          · exact bp.pushscr l h
          · rcases List.mem_cons.mp h with he | h2
            · cases he
            · obtain ⟨d1, _, he⟩ := movsTo_instr _ _ _ h2
              cases he
        · intro l n hmem
          rcases List.mem_append.mp hmem with h | h
          · exact bp.nomat l n h
          · rcases List.mem_cons.mp h with he | h2
            · cases he
            · obtain ⟨d1, _, he⟩ := movsTo_instr _ _ _ h2
              cases he
        · show (targetsOf (EmitChainTargets fuel source
            (targetsOf st source).asList
            (PopTargets st source).2).2.1 source).asList = []
          rcases targetsOf_mono bp.regs bp.slots hkeys1 source with h | h
          · rw [h]
            exact hcs1
          · exact h
        · exact bp.slots
    · -- no cycle: emit the chain-start targets from the source itself
      have hcycf : (EmitChainTargets fuel source
          (targetsOf st source).asList (PopTargets st source).2).2.2 =
          false := by
        cases hcv : (EmitChainTargets fuel source
            (targetsOf st source).asList (PopTargets st source).2).2.2
        · rfl
        · exact absurd hcv hcyc
      have hunf : StartEmitMoveChain fuel source st =
          ((EmitChainTargets fuel source (targetsOf st source).asList
              (PopTargets st source).2).1 ++
            (EmitMovesFromSource source (targetsOf st source)
              (EmitChainTargets fuel source (targetsOf st source).asList
                (PopTargets st source).2).2.1).1,
            (EmitMovesFromSource source (targetsOf st source)
              (EmitChainTargets fuel source (targetsOf st source).asList
                (PopTargets st source).2).2.1).2) := by
        rw [startEmitMoveChain_eq, hfst]
        simp [hemp2, hcycf]
      have hcodeEq := congrArg Prod.fst hunf
      have hstEq := congrArg Prod.snd hunf
      simp only at hcodeEq hstEq
      rw [hcodeEq, hstEq]
      have hsavedf : SavedState (m.mem source.toMLoc)
          (EmitChainTargets fuel source (targetsOf st source).asList
            (PopTargets st source).2).2.1
          (m.run (EmitChainTargets fuel source (targetsOf st source).asList
            (PopTargets st source).2).1) m.nstack false := by
        rw [hcycf] at hsaved
        simpa using hsaved
      obtain ⟨f1, f2, f3r, f3s, f3mr, f3ms, f4, f5p, f5ps, f5m, f5mv⟩ :=
        emitMovesFromSource_spec source (targetsOf st source)
          (EmitChainTargets fuel source (targetsOf st source).asList
            (PopTargets st source).2).2.1
          (m.run (EmitChainTargets fuel source (targetsOf st source).asList
            (PopTargets st source).2).1)
          (m.mem source.toMLoc) m.nstack false hnd_ts hself hsavedf
      have hATe := (graph_fields_eq f3r f3s).1
      have hTOe := (graph_fields_eq f3r f3s).2.1
      have hECe := (graph_fields_eq f3r f3s).2.2.1
      have hWFe := (graph_fields_eq f3r f3s).2.2.2
      have hsrck : (m.run (EmitChainTargets fuel source
          (targetsOf st source).asList (PopTargets st source).2).1).mem
            source.toMLoc = m.mem source.toMLoc := by
        rcases hsrckeep with h | h
        · exact h
        · exact absurd h hcyc
      have hrunsplit : m.run ((EmitChainTargets fuel source
          (targetsOf st source).asList (PopTargets st source).2).1 ++
            (EmitMovesFromSource source (targetsOf st source)
              (EmitChainTargets fuel source (targetsOf st source).asList
                (PopTargets st source).2).2.1).1) =
          (m.run (EmitChainTargets fuel source (targetsOf st source).asList
            (PopTargets st source).2).1).run
            (EmitMovesFromSource source (targetsOf st source)
              (EmitChainTargets fuel source (targetsOf st source).asList
                (PopTargets st source).2).2.1).1 :=
        Machine.run_append m _ _
      refine ⟨⟨hWFe.mpr bp.wf, ?_, ?_, ?_, ?_, ?_, ?_, ?_, ?_, ?_, ?_, ?_,
        ?_, ?_, ?_, ?_⟩, ?_, ?_⟩
      · intro r
        rw [show (EmitMovesFromSource source (targetsOf st source)
          (EmitChainTargets fuel source (targetsOf st source).asList
            (PopTargets st source).2).2.1).2.movesFromRegister r =
          (EmitChainTargets fuel source (targetsOf st source).asList
            (PopTargets st source).2).2.1.movesFromRegister r from by
          rw [f3r]]
        exact regs_evolve_trans (popTargets_regs st source) bp.regs r
      · rw [f3s]
        exact bp.slots.trans (popTargets_slots st source)
      · rw [f3mr, bp.matReg]
        exact (popTargets_fields st source).2.1
      · rw [f3ms, bp.matSlot]
        exact (popTargets_fields st source).2.2
      · rw [hECe]
        have h1 := edgeCount_pop st source
        have h2 := bp.edges
        omega
      · unfold SavedState at f2
        exact f2.1
      · rw [hrunsplit]
        unfold SavedState at f2
        exact f2.2
      · intro x d hxd hdna
        rw [hATe] at hdna
        rw [hrunsplit]
        by_cases hxs : x = source
        · subst hxs
          rw [f1 d.toMLoc (GapLoc.toMLoc_ne_scratch d),
            if_pos (List.mem_map_of_mem GapLoc.toMLoc hxd)]
          exact hsrck
        · have hsurv : d ∈ (targetsOf (PopTargets st source).2 x).asList := by
            rw [popTargets_targetsOf_ne st source x hxs]
            exact hxd
          have hdnotts : d ∉ (targetsOf st source).asList := fun hdts =>
            pop_targets_notin hwf source hdts (mem_allTargets_of_edge hsurv)
          have hdnotmap : d.toMLoc ∉
              (targetsOf st source).asList.map GapLoc.toMLoc := by
            intro hmm
            obtain ⟨g, hg, hge⟩ := List.mem_map.mp hmm
            exact hdnotts (GapLoc.toMLoc_inj hge ▸ hg)
          rw [f1 d.toMLoc (GapLoc.toMLoc_ne_scratch d), if_neg hdnotmap]
          exact bp.drain x d hsurv hdna
      · intro d hd
        rw [hrunsplit]
        have hdnotts : d ∉ (targetsOf st source).asList := by
          intro hdts
          rcases hd with hd | hd
          · exact hd (mem_allTargets_of_edge hdts)
          · rw [hATe] at hd
            exact pop_targets_notin hwf source hdts (hmono2 d hd)
        have hdnotmap : d.toMLoc ∉
            (targetsOf st source).asList.map GapLoc.toMLoc := by
          intro hmm
          obtain ⟨g, hg, hge⟩ := List.mem_map.mp hmm
          exact hdnotts (GapLoc.toMLoc_inj hge ▸ hg)
        rw [f1 d.toMLoc (GapLoc.toMLoc_ne_scratch d), if_neg hdnotmap]
        refine bp.keep d ?_
        rcases hd with hd | hd
        · exact Or.inl (fun h => hd (hmono1 d h))
        · rw [hATe] at hd
          exact Or.inr hd
      · intro x hin hout
        rw [hATe] at hout
        rw [show targetsOf (EmitMovesFromSource source (targetsOf st source)
          (EmitChainTargets fuel source (targetsOf st source).asList
            (PopTargets st source).2).2.1).2 x =
          targetsOf (EmitChainTargets fuel source
            (targetsOf st source).asList
            (PopTargets st source).2).2.1 x from hTOe x]
        by_cases hxts : x ∈ (targetsOf st source).asList
        · exact bempty x hxts
        · obtain ⟨P, Q, hd1, hd2⟩ := popTargets_decomp st source
          have hin1 : x ∈ allTargets (PopTargets st source).2 := by
            rw [hd2]
            rw [hd1] at hin
            rcases List.mem_append.mp hin with h1 | h1
            · rcases List.mem_append.mp h1 with h2 | h2
              · exact List.mem_append_left Q h2
              · exact absurd h2 hxts
            · exact List.mem_append_right P h1
          exact bp.drainout x hin1 hout
      · exact stackBounded_append bp.stack f4
      · intro d s1 hmem
        rcases List.mem_append.mp hmem with h | h
        · rcases bp.movsrc d s1 h with h1 | h1 | ⟨x, hx1, hx2⟩
          · exact Or.inl h1
          · exact Or.inr ⟨source, h1, Or.inl htsne⟩
          · refine Or.inr ⟨x, hx1, ?_⟩
            rcases hx2 with h2 | h2
            · rcases targetsOf_mono (popTargets_regs st source)
                (popTargets_slots st source) hwf.2.1 x with h3 | h3
              · exact Or.inl (h3 ▸ h2)
              · exact absurd h3 h2
            · exact Or.inr (hmono1 x h2)
        · rcases f5mv d s1 h with h1 | h1 | ⟨t, ht1, ht2⟩
          · exact Or.inl h1
          · exact Or.inr ⟨source, h1, Or.inl htsne⟩
          · exact Or.inr ⟨GapLoc.reg t, ht1,
              Or.inr (mem_allTargets_of_edge ht2)⟩
      · intro l hmem
        rcases List.mem_append.mp hmem with h | h
        · exact absurd h (bp.nopop l)
        · exact absurd h (f5p l)
      · intro l hmem
        rcases List.mem_append.mp hmem with h | h
        · exact bp.pushscr l h
        · exact f5ps l h
      · intro l n hmem
        rcases List.mem_append.mp hmem with h | h
        · exact bp.nomat l n h
        · exact f5m l n h
      · rw [show targetsOf (EmitMovesFromSource source (targetsOf st source)
          (EmitChainTargets fuel source (targetsOf st source).asList
            (PopTargets st source).2).2.1).2 source =
          targetsOf (EmitChainTargets fuel source
            (targetsOf st source).asList
            (PopTargets st source).2).2.1 source from hTOe source]
        rcases targetsOf_mono bp.regs bp.slots hkeys1 source with h | h
        · rw [h]
          exact hcs1
        · exact h
      · rw [f3s]
        exact bp.slots
/-- Postcondition of the register loop of `EmitMoves` over the register
list `rs`: like a chain postcondition, and additionally every processed
register with a materializing move holds its constant at the end, every
materialization in the code belongs to a processed register, and each
materialization is emitted after every move out of its target register. -/
structure Phase1Post {k : Nat} (rs : List (Fin k)) (st : ResolverState k)
    (m : Machine k) (code : List (Instr k)) (st2 : ResolverState k) : Prop where
  wf : WF st2
  regs : ∀ r, st2.movesFromRegister r = st.movesFromRegister r ∨
    st2.movesFromRegister r = GapMoveTargets.empty k
  slots : st2.movesFromStackSlot.Sublist st.movesFromStackSlot
  matReg : st2.materializingRegisterMoves = st.materializingRegisterMoves
  matSlot : st2.materializingStackSlotMoves = st.materializingStackSlotMoves
  edges : edgeCount st2 ≤ edgeCount st
  flag : st2.scratchHasCycleStart = false
  nstack : (m.run code).nstack = m.nstack
  drain : ∀ x d : GapLoc k, d ∈ (targetsOf st x).asList →
    d ∉ allTargets st2 → (m.run code).mem d.toMLoc = m.mem x.toMLoc
  keep : ∀ d : GapLoc k, d ∉ allTargets st ∨ d ∈ allTargets st2 →
    (∀ r, d = GapLoc.reg r → r ∈ rs →
      st.materializingRegisterMoves r = none) →
    (m.run code).mem d.toMLoc = m.mem d.toMLoc
  matval : ∀ r ∈ rs, ∀ n, st.materializingRegisterMoves r = some n →
    (m.run code).mem (MLoc.reg r) = SVal.node n
  srcempty : ∀ r ∈ rs, (targetsOf st2 (GapLoc.reg r)).asList = []
  drainout : ∀ x : GapLoc k, x ∈ allTargets st → x ∉ allTargets st2 →
    (targetsOf st2 x).asList = []
  stack : StackBounded m code m.nstack
  movsrc : ∀ d s1, Instr.mov d s1 ∈ code → s1 = MLoc.scratch ∨
    ∃ x : GapLoc k, s1 = x.toMLoc ∧ ((targetsOf st x).asList ≠ [] ∨
      x ∈ allTargets st)
  matcode : ∀ l n, Instr.materialize l n ∈ code → ∃ r, l = MLoc.reg r ∧
    r ∈ rs ∧ st.materializingRegisterMoves r = some n
  matorder : ∀ r ∈ rs, ∀ n, st.materializingRegisterMoves r = some n →
    ∃ pre post, code = pre ++ Instr.materialize (MLoc.reg r) n :: post ∧
      ∀ d, Instr.mov d (MLoc.reg r) ∉ post
  popscr : ∀ l, Instr.pop l ∈ code → l = MLoc.scratch
  pushscr : ∀ l, Instr.push l ∈ code → l = MLoc.scratch

/-- Hoare specification of the register loop. -/
theorem emitRegisterPhase_spec {k : Nat} (fuel : Nat) :
    ∀ (rs : List (Fin k)) (st : ResolverState k) (m : Machine k),
      WF st → edgeCount st < fuel → st.scratchHasCycleStart = false →
      rs.Nodup →
      (∀ r n, st.materializingRegisterMoves r = some n →
        GapLoc.reg r ∉ allTargets st) →
      Phase1Post rs st m (emitRegisterPhase fuel rs st).1
        (emitRegisterPhase fuel rs st).2 := by
  intro rs
  induction rs with
  | nil =>
    intro st m hwf hfuel hflag _ hmd
    refine ⟨hwf, fun r => Or.inl rfl, List.Sublist.refl _, rfl, rfl,
      Nat.le_refl _, hflag, rfl, ?_, ?_, ?_, ?_, ?_, ?_, ?_, ?_, ?_, ?_, ?_⟩
    · intro x d hxd hdna
      exact absurd (mem_allTargets_of_edge hxd) hdna
    · intro d _ _
      rfl
    · intro r hr
      cases hr
    · intro r hr
      cases hr
    · intro x hin hout
      exact absurd hin hout
    · exact stackBounded_no_ops (Or.inl rfl) (by intro i hi; cases hi)
    · intro d s1 hmem
      cases hmem
    · intro l n hmem
      cases hmem
    · intro r hr
      cases hr
    · intro l hmem
      cases hmem
    · intro l hmem
      cases hmem
  | cons r rest ih =>
    intro st m hwf hfuel hflag hnd hmd
    obtain ⟨sp, hsrcdone, hslots2⟩ :=
      startEmitMoveChain_spec fuel (GapLoc.reg r) st m hwf hfuel hflag
    have hmonoS : ∀ d : GapLoc k,
        d ∈ allTargets (StartEmitMoveChain fuel (GapLoc.reg r) st).2 →
        d ∈ allTargets st := allTargets_mono sp.regs sp.slots
    have hrnotin : r ∉ rest := (List.nodup_cons.mp hnd).1
    have hmd1 : ∀ r1 n,
        (StartEmitMoveChain fuel (GapLoc.reg r) st).2.materializingRegisterMoves
          r1 = some n →
        GapLoc.reg r1 ∉
          allTargets (StartEmitMoveChain fuel (GapLoc.reg r) st).2 := by
      intro r1 n h hm
      exact hmd r1 n (sp.matReg ▸ h) (hmonoS _ hm)
    have hunf : emitRegisterPhase fuel (r :: rest) st =
        ((StartEmitMoveChain fuel (GapLoc.reg r) st).1 ++
          (match (StartEmitMoveChain fuel (GapLoc.reg r)
              st).2.materializingRegisterMoves r with
            | some n => [Instr.materialize (MLoc.reg r) n]
            | none => []) ++
          (emitRegisterPhase fuel rest
            (StartEmitMoveChain fuel (GapLoc.reg r) st).2).1,
          (emitRegisterPhase fuel rest
            (StartEmitMoveChain fuel (GapLoc.reg r) st).2).2) := rfl
    have hmatc : (match (StartEmitMoveChain fuel (GapLoc.reg r)
          st).2.materializingRegisterMoves r with
        | some n => [Instr.materialize (MLoc.reg r) n]
        | none => ([] : List (Instr k))) =
        (match st.materializingRegisterMoves r with
        | some n => [Instr.materialize (MLoc.reg r) n]
        | none => ([] : List (Instr k))) := by
      rw [sp.matReg]
    rw [hmatc] at hunf
    have factA : ∀ (mm : Machine k) (l : MLoc k),
        (l ≠ MLoc.reg r ∨ st.materializingRegisterMoves r = none) →
        (mm.run (match st.materializingRegisterMoves r with
          | some n => [Instr.materialize (MLoc.reg r) n]
          | none => ([] : List (Instr k)))).mem l = mm.mem l := by
      intro mm l hl
      rcases hmt : st.materializingRegisterMoves r with _ | n
      · rfl
      · rcases hl with hl | hl
        · show (Function.update mm.mem (MLoc.reg r) (SVal.node n)) l = mm.mem l
          exact Function.update_noteq hl _ _
        · rw [hmt] at hl
          cases hl
    have factB : ∀ mm : Machine k,
        (mm.run (match st.materializingRegisterMoves r with
          | some n => [Instr.materialize (MLoc.reg r) n]
          | none => ([] : List (Instr k)))).nstack = mm.nstack := by
      intro mm
      rcases hmt : st.materializingRegisterMoves r with _ | n
      · rfl
      · rfl
    have factC : ∀ (mm : Machine k) (n : Nat),
        st.materializingRegisterMoves r = some n →
        (mm.run (match st.materializingRegisterMoves r with
          | some n => [Instr.materialize (MLoc.reg r) n]
          | none => ([] : List (Instr k)))).mem (MLoc.reg r) =
          SVal.node n := by
      intro mm n hmt
      rw [hmt]
      show (Function.update mm.mem (MLoc.reg r) (SVal.node n)) (MLoc.reg r) = _
      exact Function.update_same _ _ _
    have factD : ∀ i ∈ (match st.materializingRegisterMoves r with
        | some n => [Instr.materialize (MLoc.reg r) n]
        | none => ([] : List (Instr k))),
        (∀ l, i ≠ Instr.push l) ∧ (∀ l, i ≠ Instr.pop l) := by
      intro i hi
      rcases hmt : st.materializingRegisterMoves r with _ | n <;> rw [hmt] at hi
      · cases hi
      · rcases List.mem_cons.mp hi with rfl | h
        · exact ⟨(fun l h => nomatch h), (fun l h => nomatch h)⟩
        · cases h
    have factE : ∀ (d s1 : MLoc k),
        Instr.mov d s1 ∉ (match st.materializingRegisterMoves r with
        | some n => [Instr.materialize (MLoc.reg r) n]
        | none => ([] : List (Instr k))) := by
      intro d s1 hi
      rcases hmt : st.materializingRegisterMoves r with _ | n <;> rw [hmt] at hi
      · cases hi
      · rcases List.mem_cons.mp hi with h | h
        · cases h
        · cases h
    have factF : ∀ (l : MLoc k) (n : Nat),
        Instr.materialize l n ∈ (match st.materializingRegisterMoves r with
        | some n => [Instr.materialize (MLoc.reg r) n]
        | none => ([] : List (Instr k))) →
        l = MLoc.reg r ∧ st.materializingRegisterMoves r = some n := by
      intro l n hi
      rcases hmt : st.materializingRegisterMoves r with _ | n1 <;> rw [hmt] at hi
      · cases hi
      · rcases List.mem_cons.mp hi with h | h
        · cases h
          exact ⟨rfl, rfl⟩
        · cases h
    have ihp := ih (StartEmitMoveChain fuel (GapLoc.reg r) st).2
      ((m.run (StartEmitMoveChain fuel (GapLoc.reg r) st).1).run
        (match st.materializingRegisterMoves r with
        | some n => [Instr.materialize (MLoc.reg r) n]
        | none => ([] : List (Instr k))))
      sp.wf (Nat.lt_of_le_of_lt sp.edges hfuel) sp.flag
      (List.nodup_cons.mp hnd).2 hmd1
    have hmonoR : ∀ d : GapLoc k,
        d ∈ allTargets (emitRegisterPhase fuel rest
          (StartEmitMoveChain fuel (GapLoc.reg r) st).2).2 →
        d ∈ allTargets (StartEmitMoveChain fuel (GapLoc.reg r) st).2 :=
      allTargets_mono ihp.regs ihp.slots
    have hcodeEq := congrArg Prod.fst hunf
    have hstEq := congrArg Prod.snd hunf
    simp only at hcodeEq hstEq
    rw [hcodeEq, hstEq]
    have hrun : m.run ((StartEmitMoveChain fuel (GapLoc.reg r) st).1 ++
        (match st.materializingRegisterMoves r with
          | some n => [Instr.materialize (MLoc.reg r) n]
          | none => ([] : List (Instr k))) ++
        (emitRegisterPhase fuel rest
          (StartEmitMoveChain fuel (GapLoc.reg r) st).2).1) =
        (((m.run (StartEmitMoveChain fuel (GapLoc.reg r) st).1).run
          (match st.materializingRegisterMoves r with
          | some n => [Instr.materialize (MLoc.reg r) n]
          | none => ([] : List (Instr k)))).run
          (emitRegisterPhase fuel rest
            (StartEmitMoveChain fuel (GapLoc.reg r) st).2).1) := by
      rw [Machine.run_append, Machine.run_append]
    have hmatnone : ∀ r1, GapLoc.reg r1 ∈ allTargets st →
        st.materializingRegisterMoves r1 = none := by
      intro r1 hmem
      rcases hmt : st.materializingRegisterMoves r1 with _ | n
      · rfl
      · exact absurd hmem (hmd r1 n hmt)
    refine ⟨ihp.wf, regs_evolve_trans sp.regs ihp.regs,
      ihp.slots.trans sp.slots, ihp.matReg.trans sp.matReg,
      ihp.matSlot.trans sp.matSlot, Nat.le_trans ihp.edges sp.edges,
      ihp.flag, ?_, ?_, ?_, ?_, ?_, ?_, ?_, ?_, ?_, ?_, ?_, ?_⟩
    · rw [hrun, ihp.nstack, factB, sp.nstack]
    · -- drain
      intro x d hxd hdna
      rw [hrun]
      by_cases hd1 : d ∈ allTargets (StartEmitMoveChain fuel (GapLoc.reg r) st).2
      · rcases targetsOf_mono sp.regs sp.slots hwf.2.1 x with htx | htx
        · have hsurv : d ∈ (targetsOf
              (StartEmitMoveChain fuel (GapLoc.reg r) st).2 x).asList := by
            rw [htx]
            exact hxd
          have hstep := ihp.drain x d hsurv hdna
          rw [hstep]
          have hxnotr : x ≠ GapLoc.reg r := by
            intro he
            rw [he, hsrcdone] at hsurv
            cases hsurv
          rw [factA _ x.toMLoc (Or.inl (fun he => hxnotr (GapLoc.toMLoc_inj he)))]
          by_cases hxat : x ∈ allTargets st
          · by_cases hxc : x ∈ allTargets
                (StartEmitMoveChain fuel (GapLoc.reg r) st).2
            · exact sp.keep x (Or.inr hxc)
            · have := sp.drainout x hxat hxc
              rw [this] at hsurv
              cases hsurv
          · exact sp.keep x (Or.inl hxat)
        · exfalso
          obtain ⟨y, hy⟩ := mem_allTargets_elim sp.wf.2.1 hd1
          have hyne : (targetsOf
              (StartEmitMoveChain fuel (GapLoc.reg r) st).2 y).asList ≠ [] := by
            intro hnil
            rw [hnil] at hy
            cases hy
          rcases targetsOf_mono sp.regs sp.slots hwf.2.1 y with hty | hty
          · have hyst : d ∈ (targetsOf st y).asList := by
              rw [← hty]
              exact hy
            have hxy := edge_unique hwf hxd hyst
            subst hxy
            rw [htx] at hy
            cases hy
          · exact hyne hty
      · have hstep := sp.drain x d hxd hd1
        have hdat : d ∈ allTargets st := mem_allTargets_of_edge hxd
        have hdner : d.toMLoc ≠ MLoc.reg r ∨
            st.materializingRegisterMoves r = none := by
          by_cases hdr : d = GapLoc.reg r
          · subst hdr
            exact Or.inr (hmatnone r hdat)
          · exact Or.inl (fun he => hdr (GapLoc.toMLoc_inj he))
        have hkeep2 := ihp.keep d (Or.inl hd1) (by
          intro r1 hdr1 hr1
          rw [sp.matReg]
          rw [hdr1] at hdat
          exact hmatnone r1 hdat)
        rw [hkeep2, factA _ d.toMLoc hdner, hstep]
    · -- keep
      intro d hd hexcl
      rw [hrun]
      have hd1 : d ∉ allTargets st ∨
          d ∈ allTargets (emitRegisterPhase fuel rest
            (StartEmitMoveChain fuel (GapLoc.reg r) st).2).2 := hd
      have hkeep2 := ihp.keep d (by
        rcases hd with hd | hd
        · exact Or.inl (fun h => hd (hmonoS d h))
        · exact Or.inr hd) (by
        intro r1 hdr1 hr1
        rw [sp.matReg]
        exact hexcl r1 hdr1 (List.mem_cons_of_mem r hr1))
      have hdner : d.toMLoc ≠ MLoc.reg r ∨
          st.materializingRegisterMoves r = none := by
        by_cases hdr : d = GapLoc.reg r
        · subst hdr
          exact Or.inr (hexcl r rfl (List.mem_cons_self r rest))
        · exact Or.inl (fun he => hdr (GapLoc.toMLoc_inj he))
      have hkeep3 := sp.keep d (by
        rcases hd with hd | hd
        · exact Or.inl hd
        · exact Or.inr (hmonoR d hd))
      rw [hkeep2, factA _ d.toMLoc hdner, hkeep3]
    · -- matval
      intro r1 hr1 n hmtr
      rw [hrun]
      rcases List.mem_cons.mp hr1 with rfl | hr2
      · have hnotat : GapLoc.reg r1 ∉ allTargets
            (StartEmitMoveChain fuel (GapLoc.reg r1) st).2 :=
          fun h => hmd r1 n hmtr (hmonoS _ h)
        have hkeep2 := ihp.keep (GapLoc.reg r1) (Or.inl hnotat) (by
          intro r2 hdr2 hr2
          have : r1 = r2 := by
            cases hdr2
            rfl
          subst this
          exact absurd hr2 hrnotin)
        have : (GapLoc.reg r1).toMLoc = MLoc.reg r1 := rfl
        rw [this] at hkeep2
        rw [hkeep2, factC _ n hmtr]
      · have := ihp.matval r1 hr2 n (by rw [sp.matReg]; exact hmtr)
        rw [this]
    · -- srcempty
      intro r1 hr1
      rcases List.mem_cons.mp hr1 with rfl | hr2
      · rcases targetsOf_mono ihp.regs ihp.slots sp.wf.2.1 (GapLoc.reg r1)
          with h | h
        · rw [h]
          exact hsrcdone
        · exact h
      · exact ihp.srcempty r1 hr2
    · -- drainout
      intro x hin hout
      by_cases hxc : x ∈ allTargets (StartEmitMoveChain fuel (GapLoc.reg r) st).2
      · exact ihp.drainout x hxc hout
      · have h1 := sp.drainout x hin hxc
        rcases targetsOf_mono ihp.regs ihp.slots sp.wf.2.1 x with h2 | h2
        · rw [h2]
          exact h1
        · exact h2
    · -- stack
      refine stackBounded_append (stackBounded_append sp.stack ?_) ?_
      · exact stackBounded_no_ops (Or.inl sp.nstack) factD
      · rw [Machine.run_append]
        have hbase : ((m.run (StartEmitMoveChain fuel (GapLoc.reg r) st).1).run
            (match st.materializingRegisterMoves r with
            | some n => [Instr.materialize (MLoc.reg r) n]
            | none => ([] : List (Instr k)))).nstack = m.nstack := by
          rw [factB, sp.nstack]
        rw [← hbase]
        exact ihp.stack
    · -- movsrc
      intro d s1 hmem
      rcases List.mem_append.mp hmem with h | h
      · rcases List.mem_append.mp h with h1 | h1
        · exact sp.movsrc d s1 h1
        · exact absurd h1 (factE d s1)
      · rcases ihp.movsrc d s1 h with h1 | ⟨x, hx1, hx2⟩
        · exact Or.inl h1
        · refine Or.inr ⟨x, hx1, ?_⟩
          rcases hx2 with h2 | h2
          · rcases targetsOf_mono sp.regs sp.slots hwf.2.1 x with h3 | h3
            · exact Or.inl (h3 ▸ h2)
            · exact absurd h3 h2
          · exact Or.inr (hmonoS x h2)
    · -- matcode
      intro l n hmem
      rcases List.mem_append.mp hmem with h | h
      · rcases List.mem_append.mp h with h1 | h1
        · exact absurd h1 (sp.nomat l n)
        · obtain ⟨hl, hmt⟩ := factF l n h1
          exact ⟨r, hl, List.mem_cons_self r rest, hmt⟩
      · obtain ⟨r1, hl, hr1, hmt⟩ := ihp.matcode l n h
        exact ⟨r1, hl, List.mem_cons_of_mem r hr1, by
          rw [← sp.matReg]
          exact hmt⟩
    · -- matorder
      intro r1 hr1 n hmtr
      rcases List.mem_cons.mp hr1 with rfl | hr2
      · refine ⟨(StartEmitMoveChain fuel (GapLoc.reg r1) st).1,
          (emitRegisterPhase fuel rest
            (StartEmitMoveChain fuel (GapLoc.reg r1) st).2).1, ?_, ?_⟩
        · rw [hmtr]
          rw [List.append_assoc]
          rfl
        · intro d hmv
          rcases ihp.movsrc d (MLoc.reg r1) hmv with h1 | ⟨x, hx1, hx2⟩
          · cases h1
          · have hxr : x = GapLoc.reg r1 := GapLoc.toMLoc_inj hx1.symm
            subst hxr
            rcases hx2 with h2 | h2
            · exact h2 hsrcdone
            · exact hmd r1 n hmtr (hmonoS _ h2)
      · obtain ⟨pre, post, hsplit, hnomov⟩ := ihp.matorder r1 hr2 n (by
          rw [sp.matReg]
          exact hmtr)
        refine ⟨(StartEmitMoveChain fuel (GapLoc.reg r) st).1 ++
          (match st.materializingRegisterMoves r with
          | some n => [Instr.materialize (MLoc.reg r) n]
          | none => ([] : List (Instr k))) ++ pre, post, ?_, hnomov⟩
        rw [hsplit]
        simp [List.append_assoc]
    · -- popscr
      intro l hmem
      rcases List.mem_append.mp hmem with h | h
      · rcases List.mem_append.mp h with h1 | h1
        · exact sp.popscr l h1
        · exact (((factD _ h1).2 l) rfl).elim
      · exact ihp.popscr l h
    · -- pushscr
      intro l hmem
      rcases List.mem_append.mp hmem with h | h
      · rcases List.mem_append.mp h with h1 | h1
        · exact sp.pushscr l h1
        · exact (((factD _ h1).1 l) rfl).elim
      · exact ihp.pushscr l h
/-- A sublist of a cons that avoids the head is a sublist of the tail. -/
theorem sublist_of_cons_of_not_mem {α : Type} {a : α} {l t : List α}
    (h : l.Sublist (a :: t)) (ha : a ∉ l) : l.Sublist t := by
  cases h with
  | cons _ h1 => exact h1
  | cons₂ _ h1 => exact absurd (List.mem_cons_self a _) ha

/-- Hoare specification of the stack-slot loop: a chain-style postcondition,
and the slot map is fully drained when the iteration fuel covers its
size. -/
theorem emitSlotPhase_spec {k : Nat} (chainFuel : Nat) :
    ∀ (loopFuel : Nat) (st : ResolverState k) (m : Machine k),
      WF st → edgeCount st < chainFuel → st.scratchHasCycleStart = false →
      StartPost st m (emitSlotPhase chainFuel loopFuel st).1
        (emitSlotPhase chainFuel loopFuel st).2 ∧
      (st.movesFromStackSlot.length ≤ loopFuel →
        (emitSlotPhase chainFuel loopFuel st).2.movesFromStackSlot = []) := by
  intro loopFuel
  induction loopFuel with
  | zero =>
    intro st m hwf hfuel hflag
    refine ⟨⟨hwf, fun r => Or.inl rfl, List.Sublist.refl _, rfl, rfl,
      Nat.le_refl _, hflag, rfl, ?_, ?_, ?_, ?_, ?_, ?_, ?_, ?_⟩, ?_⟩
    · intro x d hxd hdna
      exact absurd (mem_allTargets_of_edge hxd) hdna
    · intro d _
      rfl
    · intro x hin hout
      exact absurd hin hout
    · exact stackBounded_no_ops (Or.inl rfl) (by intro i hi; cases hi)
    · intro d s1 hmem
      cases hmem
    · intro l hmem
      cases hmem
    · intro l hmem
      cases hmem
    · intro l n hmem
      cases hmem
    · intro hlen
      have := Nat.le_zero.mp hlen
      exact List.length_eq_zero.mp this
  | succ fuel ih =>
    intro st m hwf hfuel hflag
    rcases hmap : st.movesFromStackSlot with _ | ⟨⟨s, tg⟩, tail⟩
    · have hunf : emitSlotPhase chainFuel (fuel + 1) st = ([], st) := by
        show (match st.movesFromStackSlot with
          | [] => (([] : List (Instr k)), st)
          | (s, _) :: _ =>
            ((StartEmitMoveChain chainFuel (GapLoc.slot s) st).1 ++
              (emitSlotPhase chainFuel fuel
                (StartEmitMoveChain chainFuel (GapLoc.slot s) st).2).1,
              (emitSlotPhase chainFuel fuel
                (StartEmitMoveChain chainFuel (GapLoc.slot s) st).2).2)) = _
        rw [hmap]
      have hcodeEq : (emitSlotPhase chainFuel (fuel + 1) st).1 = [] := by
        rw [hunf]
      have hstEq : (emitSlotPhase chainFuel (fuel + 1) st).2 = st := by
        rw [hunf]
      rw [hcodeEq, hstEq]
      refine ⟨⟨hwf, fun r => Or.inl rfl, List.Sublist.refl _, rfl, rfl,
        Nat.le_refl _, hflag, rfl, ?_, ?_, ?_, ?_, ?_, ?_, ?_, ?_⟩, ?_⟩
      · intro x d hxd hdna
        exact absurd (mem_allTargets_of_edge hxd) hdna
      · intro d _
        rfl
      · intro x hin hout
        exact absurd hin hout
      · exact stackBounded_no_ops (Or.inl rfl) (by intro i hi; cases hi)
      · intro d s1 hmem
        cases hmem
      · intro l hmem
        cases hmem
      · intro l hmem
        cases hmem
      · intro l n hmem
        cases hmem
      · intro _
        exact hmap
    · obtain ⟨sp, hsrcdone, hslots2⟩ :=
        startEmitMoveChain_spec chainFuel (GapLoc.slot s) st m hwf hfuel hflag
      have hmonoS : ∀ d : GapLoc k,
          d ∈ allTargets (StartEmitMoveChain chainFuel (GapLoc.slot s) st).2 →
          d ∈ allTargets st := allTargets_mono sp.regs sp.slots
      have ihp := ih (StartEmitMoveChain chainFuel (GapLoc.slot s) st).2
        (m.run (StartEmitMoveChain chainFuel (GapLoc.slot s) st).1)
        sp.wf (Nat.lt_of_le_of_lt sp.edges hfuel) sp.flag
      have hmonoR : ∀ d : GapLoc k,
          d ∈ allTargets (emitSlotPhase chainFuel fuel
            (StartEmitMoveChain chainFuel (GapLoc.slot s) st).2).2 →
          d ∈ allTargets (StartEmitMoveChain chainFuel (GapLoc.slot s) st).2 :=
        allTargets_mono ihp.1.regs ihp.1.slots
      have hunf : emitSlotPhase chainFuel (fuel + 1) st =
          ((StartEmitMoveChain chainFuel (GapLoc.slot s) st).1 ++
            (emitSlotPhase chainFuel fuel
              (StartEmitMoveChain chainFuel (GapLoc.slot s) st).2).1,
            (emitSlotPhase chainFuel fuel
              (StartEmitMoveChain chainFuel (GapLoc.slot s) st).2).2) := by
        show (match st.movesFromStackSlot with
          | [] => (([] : List (Instr k)), st)
          | (s, _) :: _ =>
            ((StartEmitMoveChain chainFuel (GapLoc.slot s) st).1 ++
              (emitSlotPhase chainFuel fuel
                (StartEmitMoveChain chainFuel (GapLoc.slot s) st).2).1,
              (emitSlotPhase chainFuel fuel
                (StartEmitMoveChain chainFuel (GapLoc.slot s) st).2).2)) = _
        rw [hmap]
      have hcodeEq := congrArg Prod.fst hunf
      have hstEq := congrArg Prod.snd hunf
      simp only at hcodeEq hstEq
      rw [hcodeEq, hstEq]
      have hrun : m.run ((StartEmitMoveChain chainFuel (GapLoc.slot s) st).1 ++
          (emitSlotPhase chainFuel fuel
            (StartEmitMoveChain chainFuel (GapLoc.slot s) st).2).1) =
          (m.run (StartEmitMoveChain chainFuel (GapLoc.slot s) st).1).run
            (emitSlotPhase chainFuel fuel
              (StartEmitMoveChain chainFuel (GapLoc.slot s) st).2).1 :=
        Machine.run_append m _ _
      refine ⟨⟨ihp.1.wf, regs_evolve_trans sp.regs ihp.1.regs,
        ihp.1.slots.trans sp.slots, ihp.1.matReg.trans sp.matReg,
        ihp.1.matSlot.trans sp.matSlot, Nat.le_trans ihp.1.edges sp.edges,
        ihp.1.flag, ?_, ?_, ?_, ?_, ?_, ?_, ?_, ?_, ?_⟩, ?_⟩
      · rw [hrun, ihp.1.nstack, sp.nstack]
      · intro x d hxd hdna
        rw [hrun]
        by_cases hd1 : d ∈ allTargets
            (StartEmitMoveChain chainFuel (GapLoc.slot s) st).2
        · rcases targetsOf_mono sp.regs sp.slots hwf.2.1 x with htx | htx
          · have hsurv : d ∈ (targetsOf
                (StartEmitMoveChain chainFuel (GapLoc.slot s) st).2 x).asList
                := by
              rw [htx]
              exact hxd
            have hstep := ihp.1.drain x d hsurv hdna
            rw [hstep]
            by_cases hxat : x ∈ allTargets st
            · by_cases hxc : x ∈ allTargets
                  (StartEmitMoveChain chainFuel (GapLoc.slot s) st).2
              · exact sp.keep x (Or.inr hxc)
              · have := sp.drainout x hxat hxc
                rw [this] at hsurv
                cases hsurv
            · exact sp.keep x (Or.inl hxat)
          · exfalso
            obtain ⟨y, hy⟩ := mem_allTargets_elim sp.wf.2.1 hd1
            have hyne : (targetsOf
                (StartEmitMoveChain chainFuel (GapLoc.slot s) st).2 y).asList
                ≠ [] := by
              intro hnil
              rw [hnil] at hy
              cases hy
            rcases targetsOf_mono sp.regs sp.slots hwf.2.1 y with hty | hty
            · have hyst : d ∈ (targetsOf st y).asList := by
                rw [← hty]
                exact hy
              have hxy := edge_unique hwf hxd hyst
              subst hxy
              rw [htx] at hy
              cases hy
            · exact hyne hty
        · have hstep := sp.drain x d hxd hd1
          have hkeep2 := ihp.1.keep d (Or.inl hd1)
          rw [hkeep2, hstep]
      · intro d hd
        rw [hrun]
        rcases hd with hd | hd
        · have h1 := sp.keep d (Or.inl hd)
          have h2 := ihp.1.keep d (Or.inl (fun hm => hd (hmonoS d hm)))
          rw [h2, h1]
        · have h1 := ihp.1.keep d (Or.inr hd)
          have h2 := sp.keep d (Or.inr (hmonoR d hd))
          rw [h1, h2]
      · intro x hin hout
        by_cases hxc : x ∈ allTargets
            (StartEmitMoveChain chainFuel (GapLoc.slot s) st).2
        · exact ihp.1.drainout x hxc hout
        · have h1 := sp.drainout x hin hxc
          rcases targetsOf_mono ihp.1.regs ihp.1.slots sp.wf.2.1 x with h2 | h2
          · rw [h2]
            exact h1
          · exact h2
      · refine stackBounded_append sp.stack ?_
        rw [← sp.nstack]
        exact ihp.1.stack
      · intro d s1 hmem
        rcases List.mem_append.mp hmem with h | h
        · exact sp.movsrc d s1 h
        · rcases ihp.1.movsrc d s1 h with h1 | ⟨x, hx1, hx2⟩
          · exact Or.inl h1
          · refine Or.inr ⟨x, hx1, ?_⟩
            rcases hx2 with h2 | h2
            · rcases targetsOf_mono sp.regs sp.slots hwf.2.1 x with h3 | h3
              · exact Or.inl (h3 ▸ h2)
              · exact absurd h3 h2
            · exact Or.inr (hmonoS x h2)
      · intro l hmem
        rcases List.mem_append.mp hmem with h | h
        · exact sp.popscr l h
        · exact ihp.1.popscr l h
      · intro l hmem
        rcases List.mem_append.mp hmem with h | h
        · exact sp.pushscr l h
        · exact ihp.1.pushscr l h
      · intro l n hmem
        rcases List.mem_append.mp hmem with h | h
        · exact absurd h (sp.nomat l n)
        · exact absurd h (ihp.1.nomat l n)
      · intro hlen
        have hpop : (PopTargets st (GapLoc.slot s)).2.movesFromStackSlot =
            tail := by
          show st.movesFromStackSlot.eraseP (fun p => p.1 = s) = tail
          rw [hmap]
          simp [List.eraseP_cons]
        have hsub : (StartEmitMoveChain chainFuel
            (GapLoc.slot s) st).2.movesFromStackSlot.Sublist tail := by
          rw [← hpop]
          exact hslots2
        have hlen2 : (StartEmitMoveChain chainFuel
            (GapLoc.slot s) st).2.movesFromStackSlot.length ≤ fuel := by
          have h1 := hsub.length_le
          simp only [List.length_cons] at hlen
          omega
        exact ihp.2 hlen2

/-- Effect of the materializing stack-slot loop: with duplicate-free slots,
every listed slot ends holding its constant, every other non-scratch
location is untouched, and the native stack is unchanged. -/
theorem emitStackMaterializations_spec {k : Nat} :
    ∀ (l : List (Int × Nat)) (m : Machine k),
      ((l.map Prod.fst).Nodup →
        ∀ p ∈ l, (m.run (emitStackMaterializations l)).mem (MLoc.slot p.1) =
          SVal.node p.2) ∧
      (∀ ml : MLoc k, ml ≠ MLoc.scratch → (∀ p ∈ l, ml ≠ MLoc.slot p.1) →
        (m.run (emitStackMaterializations l)).mem ml = m.mem ml) ∧
      (m.run (emitStackMaterializations l)).nstack = m.nstack ∧
      (∀ i ∈ emitStackMaterializations (k := k) l,
        (∀ l1, i ≠ Instr.push l1) ∧ (∀ l1, i ≠ Instr.pop l1)) := by
  intro l
  induction l with
  | nil =>
    intro m
    refine ⟨fun _ p hp => absurd hp (List.not_mem_nil p), fun ml _ _ => rfl,
      rfl, ?_⟩
    intro i hi
    cases hi
  | cons q rest ih =>
    intro m
    have hcode : emitStackMaterializations (k := k) (q :: rest) =
        Instr.materialize MLoc.scratch q.2 ::
          Instr.mov (MLoc.slot q.1) MLoc.scratch ::
          emitStackMaterializations rest := rfl
    have hm2 : (m.step (Instr.materialize MLoc.scratch q.2)).step
        (Instr.mov (MLoc.slot q.1) MLoc.scratch) =
        ⟨Function.update
          (Function.update m.mem MLoc.scratch (SVal.node q.2))
          (MLoc.slot q.1)
          (Function.update m.mem MLoc.scratch (SVal.node q.2) MLoc.scratch),
          m.nstack⟩ := rfl
    have hrun : m.run (emitStackMaterializations (q :: rest)) =
        ((m.step (Instr.materialize MLoc.scratch q.2)).step
          (Instr.mov (MLoc.slot q.1) MLoc.scratch)).run
          (emitStackMaterializations rest) := rfl
    have hscr : Function.update m.mem MLoc.scratch (SVal.node q.2)
        MLoc.scratch = SVal.node q.2 := Function.update_same _ _ _
    obtain ⟨ih1, ih2, ih3, ih4⟩ := ih (((m.step
      (Instr.materialize MLoc.scratch q.2)).step
        (Instr.mov (MLoc.slot q.1) MLoc.scratch)))
    refine ⟨?_, ?_, ?_, ?_⟩
    · intro hnd p hp
      have hnd2 : (rest.map Prod.fst).Nodup := (List.nodup_cons.mp hnd).2
      rcases List.mem_cons.mp hp with rfl | hp2
      · rw [hrun]
        rw [ih2 (MLoc.slot p.1) (by simp) ?_]
        · rw [hm2]
          show Function.update _ (MLoc.slot p.1) _ (MLoc.slot p.1) = _
          rw [Function.update_same, hscr]
        · intro p2 hp2 he
          have : p.1 ∈ rest.map Prod.fst := by
            have : p.1 = p2.1 := by
              injection he
            rw [this]
            exact List.mem_map_of_mem Prod.fst hp2
          exact (List.nodup_cons.mp hnd).1 this
      · rw [hrun]
        exact ih1 hnd2 p hp2
    · intro ml hms hmslot
      rw [hrun]
      rw [ih2 ml hms (fun p hp => hmslot p (List.mem_cons_of_mem q hp))]
      have hstep : ((m.step (Instr.materialize MLoc.scratch q.2)).step
          (Instr.mov (MLoc.slot q.1) MLoc.scratch)).mem ml =
          Function.update
            (Function.update m.mem MLoc.scratch (SVal.node q.2))
            (MLoc.slot q.1)
            (Function.update m.mem MLoc.scratch (SVal.node q.2) MLoc.scratch)
            ml := rfl
      rw [hstep,
        Function.update_noteq (hmslot q (List.mem_cons_self q rest)),
        Function.update_noteq hms]
    · rw [hrun, ih3]
      rfl
    · intro i hi
      rw [hcode] at hi
      rcases List.mem_cons.mp hi with rfl | hi2
      · exact ⟨(fun l1 h => nomatch h), (fun l1 h => nomatch h)⟩
      rcases List.mem_cons.mp hi2 with rfl | hi3
      · exact ⟨(fun l1 h => nomatch h), (fun l1 h => nomatch h)⟩
      · exact ih4 i hi3

/-- Instruction inventory of the materializing stack-slot loop: every move
stores the scratch register into a listed slot and every materialization
loads the scratch register. -/
theorem emitStackMaterializations_instr {k : Nat} (l : List (Int × Nat)) :
    (∀ d s1, Instr.mov d s1 ∈ emitStackMaterializations (k := k) l →
      s1 = MLoc.scratch ∧ ∃ p ∈ l, d = MLoc.slot p.1) ∧
    (∀ lo n, Instr.materialize lo n ∈ emitStackMaterializations (k := k) l →
      lo = MLoc.scratch) := by
  constructor
  · intro d s1 hmem
    obtain ⟨p, hp, hin⟩ := List.mem_flatMap.mp hmem
    rcases List.mem_cons.mp hin with h | h
    · exact nomatch h
    rcases List.mem_cons.mp h with h1 | h1
    · injection h1 with h2 h3
      exact ⟨h3, p, hp, h2⟩
    · exact absurd h1 (List.not_mem_nil _)
  · intro lo n hmem
    obtain ⟨p, hp, hin⟩ := List.mem_flatMap.mp hmem
    rcases List.mem_cons.mp hin with h | h
    · injection h with h1 h2
    rcases List.mem_cons.mp h with h1 | h1
    · exact nomatch h1
    · exact absurd h1 (List.not_mem_nil _)

/-- A graph with all register sources drained and an empty slot map has no
targets left. -/
theorem allTargets_nil {k : Nat} {st : ResolverState k}
    (hreg : ∀ r, (st.movesFromRegister r).asList = [])
    (hslot : st.movesFromStackSlot = []) : allTargets st = [] := by
  apply List.eq_nil_iff_forall_not_mem.mpr
  intro d hd
  rcases List.mem_append.mp hd with h | h
  · obtain ⟨r, _, hdr⟩ := List.mem_flatMap.mp h
    rw [hreg r] at hdr
    exact absurd hdr (List.not_mem_nil d)
  · obtain ⟨p, hp, _⟩ := List.mem_flatMap.mp h
    rw [hslot] at hp
    exact absurd hp (List.not_mem_nil p)

/-- Postcondition of `EmitMoves` as a whole: the graph is fully drained,
every edge target ends with its source value, every materializing target
with its constant, every untouched location keeps its value, the native
stack is restored and never grows by more than the single scratch spill,
and the code splits into a graph-move body followed by the stack-slot
materializations with register materializations ordered after every read
of their target. -/
structure EmitMovesPost {k : Nat} (st : ResolverState k) (m : Machine k)
    (code : List (Instr k)) (stF : ResolverState k) : Prop where
  final : allTargets stF = [] ∧ stF.movesFromStackSlot = []
  drain : ∀ x d : GapLoc k, d ∈ (targetsOf st x).asList →
    (m.run code).mem d.toMLoc = m.mem x.toMLoc
  matreg : ∀ r n, st.materializingRegisterMoves r = some n →
    (m.run code).mem (MLoc.reg r) = SVal.node n
  matslot : ∀ p ∈ st.materializingStackSlotMoves,
    (m.run code).mem (MLoc.slot p.1) = SVal.node p.2
  keep : ∀ d : GapLoc k, d ∉ allTargets st →
    (∀ r, d = GapLoc.reg r → st.materializingRegisterMoves r = none) →
    (∀ p ∈ st.materializingStackSlotMoves, d ≠ GapLoc.slot p.1) →
    (m.run code).mem d.toMLoc = m.mem d.toMLoc
  nstack : (m.run code).nstack = m.nstack
  stack : StackBounded m code m.nstack
  popscr : ∀ l, Instr.pop l ∈ code → l = MLoc.scratch
  pushscr : ∀ l, Instr.push l ∈ code → l = MLoc.scratch
  split : ∃ body, code = body ++
      emitStackMaterializations st.materializingStackSlotMoves ∧
    ∀ l n, Instr.materialize l n ∈ body → ∃ r, l = MLoc.reg r
  matorder : ∀ r n, st.materializingRegisterMoves r = some n →
    ∃ pre post, code = pre ++ Instr.materialize (MLoc.reg r) n :: post ∧
      ∀ d, Instr.mov d (MLoc.reg r) ∉ post

/-- Master Hoare specification of `EmitMoves`. -/
theorem emitMoves_spec {k : Nat} (st : ResolverState k) (m : Machine k)
    (hwf : WF st) (hflag : st.scratchHasCycleStart = false)
    (hmdr : ∀ r n, st.materializingRegisterMoves r = some n →
      GapLoc.reg r ∉ allTargets st)
    (hmds : ∀ p ∈ st.materializingStackSlotMoves,
      GapLoc.slot p.1 ∉ allTargets st)
    (hmdsk : (st.materializingStackSlotMoves.map Prod.fst).Nodup) :
    EmitMovesPost st m (EmitMoves st).1 (EmitMoves st).2 := by
  have p1 := emitRegisterPhase_spec (edgeCount st + 1) (List.finRange k) st m
    hwf (Nat.lt_succ_self _) hflag (List.nodup_finRange k) hmdr
  obtain ⟨p2, hdrain2⟩ := emitSlotPhase_spec (edgeCount st + 1)
    (emitRegisterPhase (edgeCount st + 1) (List.finRange k)
      st).2.movesFromStackSlot.length
    (emitRegisterPhase (edgeCount st + 1) (List.finRange k) st).2
    ((m.run (emitRegisterPhase (edgeCount st + 1) (List.finRange k) st).1))
    p1.wf (Nat.lt_of_le_of_lt p1.edges (Nat.lt_succ_self _)) p1.flag
  have hslotsF := hdrain2 (Nat.le_refl _)
  have hregsF : ∀ r,
      ((emitSlotPhase (edgeCount st + 1)
        (emitRegisterPhase (edgeCount st + 1) (List.finRange k)
          st).2.movesFromStackSlot.length
        (emitRegisterPhase (edgeCount st + 1) (List.finRange k)
          st).2).2.movesFromRegister r).asList = [] := by
    intro r
    rcases p2.regs r with he | he
    · rw [he]
      exact p1.srcempty r (List.mem_finRange r)
    · rw [he]
      rfl
  have hATnil := allTargets_nil hregsF hslotsF
  have hmatSlot2 : (emitSlotPhase (edgeCount st + 1)
      (emitRegisterPhase (edgeCount st + 1) (List.finRange k)
        st).2.movesFromStackSlot.length
      (emitRegisterPhase (edgeCount st + 1) (List.finRange k)
        st).2).2.materializingStackSlotMoves =
      st.materializingStackSlotMoves := p2.matSlot.trans p1.matSlot
  have hcode : (EmitMoves st).1 =
      ((emitRegisterPhase (edgeCount st + 1) (List.finRange k) st).1 ++
        (emitSlotPhase (edgeCount st + 1)
          (emitRegisterPhase (edgeCount st + 1) (List.finRange k)
            st).2.movesFromStackSlot.length
          (emitRegisterPhase (edgeCount st + 1) (List.finRange k) st).2).1) ++
        emitStackMaterializations
          (emitSlotPhase (edgeCount st + 1)
            (emitRegisterPhase (edgeCount st + 1) (List.finRange k)
              st).2.movesFromStackSlot.length
            (emitRegisterPhase (edgeCount st + 1) (List.finRange k)
              st).2).2.materializingStackSlotMoves := rfl
  have hstF : (EmitMoves st).2 = (emitSlotPhase (edgeCount st + 1)
      (emitRegisterPhase (edgeCount st + 1) (List.finRange k)
        st).2.movesFromStackSlot.length
      (emitRegisterPhase (edgeCount st + 1) (List.finRange k) st).2).2 := rfl
  obtain ⟨h31, h32, h33, h34⟩ := emitStackMaterializations_spec (k := k)
    (emitSlotPhase (edgeCount st + 1)
      (emitRegisterPhase (edgeCount st + 1) (List.finRange k)
        st).2.movesFromStackSlot.length
      (emitRegisterPhase (edgeCount st + 1) (List.finRange k)
        st).2).2.materializingStackSlotMoves
    ((m.run (emitRegisterPhase (edgeCount st + 1) (List.finRange k)
        st).1).run
      (emitSlotPhase (edgeCount st + 1)
        (emitRegisterPhase (edgeCount st + 1) (List.finRange k)
          st).2.movesFromStackSlot.length
        (emitRegisterPhase (edgeCount st + 1) (List.finRange k) st).2).1)
  have hrun : m.run (EmitMoves st).1 =
      ((m.run (emitRegisterPhase (edgeCount st + 1) (List.finRange k)
          st).1).run
        (emitSlotPhase (edgeCount st + 1)
          (emitRegisterPhase (edgeCount st + 1) (List.finRange k)
            st).2.movesFromStackSlot.length
          (emitRegisterPhase (edgeCount st + 1) (List.finRange k)
            st).2).1).run
        (emitStackMaterializations
          (emitSlotPhase (edgeCount st + 1)
            (emitRegisterPhase (edgeCount st + 1) (List.finRange k)
              st).2.movesFromStackSlot.length
            (emitRegisterPhase (edgeCount st + 1) (List.finRange k)
              st).2).2.materializingStackSlotMoves) := by
    rw [hcode, Machine.run_append, Machine.run_append]
  have hmono1 := allTargets_mono p1.regs p1.slots
  have hp3keep : ∀ d : GapLoc k, d ∈ allTargets st →
      (((m.run (emitRegisterPhase (edgeCount st + 1) (List.finRange k)
          st).1).run
        (emitSlotPhase (edgeCount st + 1)
          (emitRegisterPhase (edgeCount st + 1) (List.finRange k)
            st).2.movesFromStackSlot.length
          (emitRegisterPhase (edgeCount st + 1) (List.finRange k)
            st).2).1).run
        (emitStackMaterializations
          (emitSlotPhase (edgeCount st + 1)
            (emitRegisterPhase (edgeCount st + 1) (List.finRange k)
              st).2.movesFromStackSlot.length
            (emitRegisterPhase (edgeCount st + 1) (List.finRange k)
              st).2).2.materializingStackSlotMoves)).mem d.toMLoc =
      ((m.run (emitRegisterPhase (edgeCount st + 1) (List.finRange k)
          st).1).run
        (emitSlotPhase (edgeCount st + 1)
          (emitRegisterPhase (edgeCount st + 1) (List.finRange k)
            st).2.movesFromStackSlot.length
          (emitRegisterPhase (edgeCount st + 1) (List.finRange k)
            st).2).1).mem d.toMLoc := by
    intro d hd
    apply h32 d.toMLoc (GapLoc.toMLoc_ne_scratch d)
    intro p hp heq
    rw [hmatSlot2] at hp
    have hdeq : d = GapLoc.slot p.1 := GapLoc.toMLoc_inj heq
    rw [hdeq] at hd
    exact hmds p hp hd
  refine ⟨?_, ?_, ?_, ?_, ?_, ?_, ?_, ?_, ?_, ?_, ?_⟩
  · rw [hstF]
    exact ⟨hATnil, hslotsF⟩
  · intro x d hxd
    rw [hrun]
    have hdat : d ∈ allTargets st := mem_allTargets_of_edge hxd
    by_cases hd1 : d ∈ allTargets
        (emitRegisterPhase (edgeCount st + 1) (List.finRange k) st).2
    · obtain ⟨x1, hx1⟩ := mem_allTargets_elim p1.wf.2.1 hd1
      have hx1st : d ∈ (targetsOf st x1).asList := by
        rcases targetsOf_mono p1.regs p1.slots hwf.2.1 x1 with he | he
        · rw [he] at hx1
          exact hx1
        · rw [he] at hx1
          exact absurd hx1 (List.not_mem_nil d)
      have hxeq : x = x1 := edge_unique hwf hxd hx1st
      rw [hxeq]
      have hkeep1 : ((m.run (emitRegisterPhase (edgeCount st + 1)
          (List.finRange k) st).1)).mem x1.toMLoc = m.mem x1.toMLoc := by
        apply p1.keep x1 ?_ ?_
        · by_cases hx1in : x1 ∈ allTargets
            (emitRegisterPhase (edgeCount st + 1) (List.finRange k) st).2
          · exact Or.inr hx1in
          · by_cases hx1st0 : x1 ∈ allTargets st
            · have := p1.drainout x1 hx1st0 hx1in
              rw [this] at hx1
              exact absurd hx1 (List.not_mem_nil d)
            · exact Or.inl hx1st0
        · intro r hxr _
          rw [hxr] at hx1
          rw [p1.srcempty r (List.mem_finRange r)] at hx1
          exact absurd hx1 (List.not_mem_nil d)
      rw [hp3keep d hdat]
      rw [p2.drain x1 d hx1 (by rw [hATnil]; exact List.not_mem_nil d)]
      exact hkeep1
    · rw [hp3keep d hdat]
      rw [p2.keep d (Or.inl hd1)]
      exact p1.drain x d hxd hd1
  · intro r n hmat
    rw [hrun]
    have hr1 : GapLoc.reg r ∉ allTargets
        (emitRegisterPhase (edgeCount st + 1) (List.finRange k) st).2 := by
      intro hin
      exact hmdr r n hmat (hmono1 _ hin)
    have h3 := h32 (MLoc.reg r) (fun h => nomatch h)
      (fun p hp h => nomatch h)
    rw [h3]
    have h2 : ((m.run (emitRegisterPhase (edgeCount st + 1)
        (List.finRange k) st).1).run
        (emitSlotPhase (edgeCount st + 1)
          (emitRegisterPhase (edgeCount st + 1) (List.finRange k)
            st).2.movesFromStackSlot.length
          (emitRegisterPhase (edgeCount st + 1) (List.finRange k)
            st).2).1).mem (GapLoc.reg r).toMLoc =
        ((m.run (emitRegisterPhase (edgeCount st + 1)
          (List.finRange k) st).1)).mem (GapLoc.reg r).toMLoc :=
      p2.keep (GapLoc.reg r) (Or.inl hr1)
    rw [show MLoc.reg r = (GapLoc.reg r).toMLoc from rfl, h2]
    exact p1.matval r (List.mem_finRange r) n hmat
  · intro p hp
    rw [hrun]
    have hp2 : p ∈ (emitSlotPhase (edgeCount st + 1)
        (emitRegisterPhase (edgeCount st + 1) (List.finRange k)
          st).2.movesFromStackSlot.length
        (emitRegisterPhase (edgeCount st + 1) (List.finRange k)
          st).2).2.materializingStackSlotMoves := by
      rw [hmatSlot2]
      exact hp
    have hkeys : ((emitSlotPhase (edgeCount st + 1)
        (emitRegisterPhase (edgeCount st + 1) (List.finRange k)
          st).2.movesFromStackSlot.length
        (emitRegisterPhase (edgeCount st + 1) (List.finRange k)
          st).2).2.materializingStackSlotMoves.map Prod.fst).Nodup := by
      rw [hmatSlot2]
      exact hmdsk
    exact h31 hkeys p hp2
  · intro d hdn hmr hms
    rw [hrun]
    have hd1 : d ∉ allTargets
        (emitRegisterPhase (edgeCount st + 1) (List.finRange k) st).2 := by
      intro hin
      exact hdn (hmono1 _ hin)
    have h3 : ∀ p ∈ (emitSlotPhase (edgeCount st + 1)
        (emitRegisterPhase (edgeCount st + 1) (List.finRange k)
          st).2.movesFromStackSlot.length
        (emitRegisterPhase (edgeCount st + 1) (List.finRange k)
          st).2).2.materializingStackSlotMoves, d.toMLoc ≠ MLoc.slot p.1 := by
      intro p hp heq
      rw [hmatSlot2] at hp
      exact hms p hp (GapLoc.toMLoc_inj heq)
    rw [h32 d.toMLoc (GapLoc.toMLoc_ne_scratch d) h3]
    rw [p2.keep d (Or.inl hd1)]
    exact p1.keep d (Or.inl hdn) (fun r hdr _ => hmr r hdr)
  · rw [hrun, h33, p2.nstack, p1.nstack]
  · rw [hcode]
    apply stackBounded_append
    · apply stackBounded_append p1.stack
      have hsb2 := p2.stack
      rw [p1.nstack] at hsb2
      exact hsb2
    · apply stackBounded_no_ops ?_ h34
      rw [Machine.run_append, p2.nstack, p1.nstack]
      exact Or.inl rfl
  · intro l hmem
    rw [hcode] at hmem
    rcases List.mem_append.mp hmem with h | h
    · rcases List.mem_append.mp h with h1 | h1
      · exact p1.popscr l h1
      · exact p2.popscr l h1
    · exact absurd rfl ((h34 _ h).2 l)
  · intro l hmem
    rw [hcode] at hmem
    rcases List.mem_append.mp hmem with h | h
    · rcases List.mem_append.mp h with h1 | h1
      · exact p1.pushscr l h1
      · exact p2.pushscr l h1
    · exact absurd rfl ((h34 _ h).1 l)
  · refine ⟨(emitRegisterPhase (edgeCount st + 1) (List.finRange k) st).1 ++
      (emitSlotPhase (edgeCount st + 1)
        (emitRegisterPhase (edgeCount st + 1) (List.finRange k)
          st).2.movesFromStackSlot.length
        (emitRegisterPhase (edgeCount st + 1) (List.finRange k)
          st).2).1, ?_, ?_⟩
    · rw [hcode, hmatSlot2]
    · intro l n hmem
      rcases List.mem_append.mp hmem with h | h
      · obtain ⟨r, hl, _, _⟩ := p1.matcode l n h
        exact ⟨r, hl⟩
      · exact absurd h (p2.nomat l n)
  · intro r n hmat
    obtain ⟨pre, post1, heq, hpost⟩ :=
      p1.matorder r (List.mem_finRange r) n hmat
    refine ⟨pre, post1 ++
      ((emitSlotPhase (edgeCount st + 1)
        (emitRegisterPhase (edgeCount st + 1) (List.finRange k)
          st).2.movesFromStackSlot.length
        (emitRegisterPhase (edgeCount st + 1) (List.finRange k)
          st).2).1 ++
      emitStackMaterializations
        (emitSlotPhase (edgeCount st + 1)
          (emitRegisterPhase (edgeCount st + 1) (List.finRange k)
            st).2.movesFromStackSlot.length
          (emitRegisterPhase (edgeCount st + 1) (List.finRange k)
            st).2).2.materializingStackSlotMoves), ?_, ?_⟩
    · rw [hcode, List.append_assoc, heq, List.append_assoc, List.cons_append]
    · intro d hmem
      rcases List.mem_append.mp hmem with h | h
      · exact hpost d h
      rcases List.mem_append.mp h with h1 | h1
      · rcases p2.movsrc d (MLoc.reg r) h1 with hs | ⟨x, hx1, hx2⟩
        · exact nomatch hs
        · have hxr : GapLoc.reg r = x := GapLoc.toMLoc_inj hx1
          rcases hx2 with hx2 | hx2
          · rw [← hxr] at hx2
            exact hx2 (p1.srcempty r (List.mem_finRange r))
          · rw [← hxr] at hx2
            exact hmdr r n hmat (hmono1 _ hx2)
      · have := (emitStackMaterializations_instr _).1 d (MLoc.reg r) h1
        exact nomatch this.1

/-- The graph location a move source reads from, if any: constants read no
location. -/
def MoveSource.gapOf {k : Nat} : MoveSource k → Option (GapLoc k)
  | .reg r => some (GapLoc.reg r)
  | .slot s => some (GapLoc.slot s)
  | .constant _ => none

/-- The materializing stack-slot entry a recorded move contributes. -/
def matSlotOf {k : Nat} : MoveSource k × GapLoc k → Option (Int × Nat)
  | (.constant n, .slot s) => some (s, n)
  | _ => none

/-- Self-moves are exactly the moves whose source reads their own target. -/
theorem isSelfMove_iff {k : Nat} (mv : MoveSource k × GapLoc k) :
    isSelfMove mv = true ↔ mv.1.gapOf = some mv.2 := by
  obtain ⟨src, d⟩ := mv
  cases src <;> cases d <;>
    simp [isSelfMove, MoveSource.gapOf, eq_comm]

/-- Membership in a sorted register insert. -/
theorem mem_insertReg {k : Nat} (r : Fin k) :
    ∀ (l : List (Fin k)) (x : Fin k), x ∈ insertReg r l ↔ x = r ∨ x ∈ l := by
  intro l
  induction l with
  | nil =>
    intro x
    simp [insertReg]
  | cons a as ih =>
    intro x
    by_cases h1 : r.val < a.val
    · simp [insertReg, h1, List.mem_cons]
    · by_cases h2 : r = a
      · subst h2
        simp [insertReg, h1, List.mem_cons]
      · simp only [insertReg, if_neg h1, if_neg h2, List.mem_cons, ih]
        tauto

/-- A sorted insert of a fresh register permutes to a cons. -/
theorem insertReg_perm {k : Nat} (r : Fin k) :
    ∀ l : List (Fin k), r ∉ l → (insertReg r l).Perm (r :: l) := by
  intro l
  induction l with
  | nil => intro _; exact List.Perm.refl _
  | cons a as ih =>
    intro hnotin
    by_cases h1 : r.val < a.val
    · simp only [insertReg, if_pos h1]
      exact List.Perm.refl _
    · have h2 : r ≠ a := fun he => hnotin (he ▸ List.mem_cons_self a as)
      simp only [insertReg, if_neg h1, if_neg h2]
      have : (insertReg r as).Perm (r :: as) :=
        ih (fun hm => hnotin (List.mem_cons_of_mem a hm))
      exact ((this.cons a).trans (List.Perm.swap r a as))

/-- Lookup of an absent key yields the empty target set. -/
theorem lookupSlot_not_mem {k : Nat} (s : Int)
    (l : List (Int × GapMoveTargets k)) (h : s ∉ l.map Prod.fst) :
    lookupSlot s l = GapMoveTargets.empty k := by
  unfold lookupSlot
  have hf : l.find? (fun p => p.1 = s) = none := by
    apply List.find?_eq_none.mpr
    intro p hp
    simp only [decide_eq_true_eq]
    intro he
    exact h (he ▸ List.mem_map_of_mem Prod.fst hp)
  rw [hf]

/-- Update-or-insert with an absent key appends a fresh entry. -/
theorem updateSlotMap_not_mem {k : Nat} (s : Int)
    (f : GapMoveTargets k → GapMoveTargets k) :
    ∀ l : List (Int × GapMoveTargets k), s ∉ l.map Prod.fst →
      updateSlotMap s f l = l ++ [(s, f (GapMoveTargets.empty k))] := by
  intro l
  induction l with
  | nil => intro _; rfl
  | cons x xs ih =>
    intro h
    obtain ⟨s1, t⟩ := x
    have hx : ¬ s1 = s := by
      intro he
      exact h (he ▸ List.mem_map_of_mem Prod.fst
        (List.mem_cons_self (s1, t) xs))
    show (if s1 = s then (s1, f t) :: xs
      else (s1, t) :: updateSlotMap s f xs) = _
    rw [if_neg hx, ih (fun hm => h (List.mem_cons_of_mem _ hm))]
    rfl

/-- Update-or-insert at a stored key rewrites that entry in place. -/
theorem updateSlotMap_decomp {k : Nat} (s : Int)
    (f : GapMoveTargets k → GapMoveTargets k) (tg : GapMoveTargets k)
    (L2 : List (Int × GapMoveTargets k)) :
    ∀ L1 : List (Int × GapMoveTargets k), (∀ b ∈ L1, ¬ b.1 = s) →
      updateSlotMap s f (L1 ++ (s, tg) :: L2) = L1 ++ (s, f tg) :: L2 := by
  intro L1
  induction L1 with
  | nil =>
    intro _
    show (if s = s then (s, f tg) :: L2
      else (s, tg) :: updateSlotMap s f L2) = (s, f tg) :: L2
    rw [if_pos rfl]
  | cons x xs ih =>
    intro h
    obtain ⟨s1, t⟩ := x
    have hx : ¬ s1 = s := h (s1, t) (List.mem_cons_self _ _)
    show (if s1 = s then (s1, f t) :: (xs ++ (s, tg) :: L2)
      else (s1, t) :: updateSlotMap s f (xs ++ (s, tg) :: L2)) =
      (s1, t) :: (xs ++ (s, f tg) :: L2)
    rw [if_neg hx, ih (fun b hb => h b (List.mem_cons_of_mem _ hb))]

/-- Update-or-insert never changes the other keys' lookups. -/
theorem lookupSlot_updateSlotMap_ne {k : Nat} (s s1 : Int) (hne : s1 ≠ s)
    (f : GapMoveTargets k → GapMoveTargets k) :
    ∀ l : List (Int × GapMoveTargets k),
      lookupSlot s1 (updateSlotMap s f l) = lookupSlot s1 l := by
  intro l
  induction l with
  | nil =>
    show lookupSlot s1 [(s, f (GapMoveTargets.empty k))] = _
    unfold lookupSlot
    have h1 : [(s, f (GapMoveTargets.empty k))].find?
        (fun p => p.1 = s1) = none := by
      apply List.find?_eq_none.mpr
      intro p hp
      rcases List.mem_cons.mp hp with rfl | hp2
      · simp only [decide_eq_true_eq]
        exact fun h => hne h.symm
      · exact absurd hp2 (List.not_mem_nil p)
    rw [h1]
    rfl
  | cons x xs ih =>
    obtain ⟨sx, t⟩ := x
    by_cases hx : sx = s
    · have hstep : updateSlotMap s f ((sx, t) :: xs) = (sx, f t) :: xs := by
        show (if sx = s then (sx, f t) :: xs
          else (sx, t) :: updateSlotMap s f xs) = _
        rw [if_pos hx]
      rw [hstep]
      have hnex : ¬ sx = s1 := fun h => hne (h ▸ hx)
      unfold lookupSlot
      have h1 : ((sx, f t) :: xs).find? (fun p => p.1 = s1) =
          xs.find? (fun p => p.1 = s1) :=
        List.find?_cons_of_neg _ (by
          simp only [decide_eq_true_eq]
          exact hnex)
      have h2 : ((sx, t) :: xs).find? (fun p => p.1 = s1) =
          xs.find? (fun p => p.1 = s1) :=
        List.find?_cons_of_neg _ (by
          simp only [decide_eq_true_eq]
          exact hnex)
      rw [h1, h2]
    · have hstep : updateSlotMap s f ((sx, t) :: xs) =
          (sx, t) :: updateSlotMap s f xs := by
        show (if sx = s then (sx, f t) :: xs
          else (sx, t) :: updateSlotMap s f xs) = _
        rw [if_neg hx]
      rw [hstep]
      by_cases hx1 : sx = s1
      · unfold lookupSlot
        have h1 : ((sx, t) :: updateSlotMap s f xs).find?
            (fun p => p.1 = s1) = some (sx, t) :=
          List.find?_cons_of_pos _ (by simpa using hx1)
        have h2 : ((sx, t) :: xs).find? (fun p => p.1 = s1) =
            some (sx, t) :=
          List.find?_cons_of_pos _ (by simpa using hx1)
        rw [h1, h2]
      · unfold lookupSlot
        have h1 : ((sx, t) :: updateSlotMap s f xs).find?
            (fun p => p.1 = s1) = (updateSlotMap s f xs).find?
            (fun p => p.1 = s1) :=
          List.find?_cons_of_neg _ (by
            simp only [decide_eq_true_eq]
            exact hx1)
        have h2 : ((sx, t) :: xs).find? (fun p => p.1 = s1) =
            xs.find? (fun p => p.1 = s1) :=
          List.find?_cons_of_neg _ (by
            simp only [decide_eq_true_eq]
            exact hx1)
        rw [h1, h2]
        have := ih
        unfold lookupSlot at this
        exact this

/-- Case analysis of the slot map at one key: either the key is absent and
the update appends, or the map splits around the key's unique entry and the
update rewrites it in place. -/
theorem slotMap_cases {k : Nat} (s : Int)
    (l : List (Int × GapMoveTargets k)) (hkeys : (l.map Prod.fst).Nodup) :
    (s ∉ l.map Prod.fst ∧ lookupSlot s l = GapMoveTargets.empty k ∧
      ∀ f, updateSlotMap s f l = l ++ [(s, f (GapMoveTargets.empty k))]) ∨
    (∃ L1 tg L2, l = L1 ++ (s, tg) :: L2 ∧ (∀ b ∈ L1, ¬ b.1 = s) ∧
      lookupSlot s l = tg ∧
      ∀ f, updateSlotMap s f l = L1 ++ (s, f tg) :: L2) := by
  by_cases hs : s ∈ l.map Prod.fst
  · right
    obtain ⟨p, hp, hps⟩ := List.mem_map.mp hs
    obtain ⟨L1, L2, hdec⟩ := List.append_of_mem hp
    obtain ⟨ps, pt⟩ := p
    have hps2 : ps = s := hps
    rw [hps2] at hdec
    have hL1 : ∀ b ∈ L1, ¬ b.1 = s := by
      intro b hb he
      have hnd : ((L1 ++ (s, pt) :: L2).map Prod.fst).Nodup := hdec ▸ hkeys
      rw [List.map_append, List.map_cons] at hnd
      have hdisj := (List.nodup_append.mp hnd).2.2
      have hmem : s ∈ L1.map Prod.fst := by
        rw [← he]
        exact List.mem_map_of_mem Prod.fst hb
      exact hdisj hmem (List.mem_cons_self _ _)
    refine ⟨L1, pt, L2, hdec, hL1, ?_, fun f => ?_⟩
    · rw [hdec]
      unfold lookupSlot
      rw [find?_first _ L1 (s, pt) L2
        (by intro b hb; simpa using hL1 b hb) (by simp)]
    · rw [hdec]
      exact updateSlotMap_decomp s f pt L2 L1 hL1
  · exact Or.inl ⟨hs, lookupSlot_not_mem s l hs,
      fun f => updateSlotMap_not_mem s f l hs⟩

/-- Replacing one component of a concatenation by a permuted copy with one
extra front element permutes the whole list to a cons. -/
theorem perm_cons_component {α : Type} (A v w B : List α) (a : α)
    (h : v.Perm (a :: w)) : (A ++ v ++ B).Perm (a :: (A ++ w ++ B)) := by
  rw [List.append_assoc, List.append_assoc]
  refine ((h.append_right B).append_left A).trans ?_
  rw [List.cons_append]
  exact List.perm_middle

/-- Recording a self-move leaves the resolver unchanged. -/
theorem recordMove_self {k : Nat} (st : ResolverState k)
    {src : MoveSource k} {xs : GapLoc k} (hsrc : src.gapOf = some xs) :
    RecordMove st src xs = st := by
  cases src with
  | reg r =>
    have hx : xs = GapLoc.reg r := by
      injection hsrc with h
      exact h.symm
    subst hx
    show RecordMoveToRegister st (MoveSource.reg r) r = st
    simp [RecordMoveToRegister]
  | slot s =>
    have hx : xs = GapLoc.slot s := by
      injection hsrc with h
      exact h.symm
    subst hx
    show RecordMoveToStackSlot st (MoveSource.slot s) s = st
    simp [RecordMoveToStackSlot]
  | constant n => exact nomatch hsrc

/-- Recording distributes over list append. -/
theorem recordAll_append {k : Nat} (l1 l2 : List (MoveSource k × GapLoc k))
    (st : ResolverState k) :
    recordAll (l1 ++ l2) st = recordAll l2 (recordAll l1 st) := by
  unfold recordAll
  exact List.foldl_append _ _ l1 l2

/-- Lookup after update-or-insert at the same key applies the mutation. -/
theorem lookupSlot_updateSlotMap_self {k : Nat} (s : Int)
    (f : GapMoveTargets k → GapMoveTargets k) :
    ∀ l : List (Int × GapMoveTargets k),
      lookupSlot s (updateSlotMap s f l) = f (lookupSlot s l) := by
  intro l
  induction l with
  | nil =>
    show lookupSlot s [(s, f (GapMoveTargets.empty k))] = _
    unfold lookupSlot
    have h1 : [(s, f (GapMoveTargets.empty k))].find? (fun p => p.1 = s) =
        some (s, f (GapMoveTargets.empty k)) :=
      List.find?_cons_of_pos _ (by simp)
    rw [h1]
    rfl
  | cons x xs ih =>
    obtain ⟨sx, t⟩ := x
    by_cases hx : sx = s
    · have hstep : updateSlotMap s f ((sx, t) :: xs) = (sx, f t) :: xs := by
        show (if sx = s then (sx, f t) :: xs
          else (sx, t) :: updateSlotMap s f xs) = _
        rw [if_pos hx]
      rw [hstep]
      unfold lookupSlot
      have h1 : ((sx, f t) :: xs).find? (fun p => p.1 = s) =
          some (sx, f t) :=
        List.find?_cons_of_pos _ (by simpa using hx)
      have h2 : ((sx, t) :: xs).find? (fun p => p.1 = s) = some (sx, t) :=
        List.find?_cons_of_pos _ (by simpa using hx)
      rw [h1, h2]
    · have hstep : updateSlotMap s f ((sx, t) :: xs) =
          (sx, t) :: updateSlotMap s f xs := by
        show (if sx = s then (sx, f t) :: xs
          else (sx, t) :: updateSlotMap s f xs) = _
        rw [if_neg hx]
      rw [hstep]
      unfold lookupSlot
      have h1 : ((sx, t) :: updateSlotMap s f xs).find?
          (fun p => p.1 = s) = (updateSlotMap s f xs).find?
          (fun p => p.1 = s) :=
        List.find?_cons_of_neg _ (by
          simp only [decide_eq_true_eq]
          exact hx)
      have h2 : ((sx, t) :: xs).find? (fun p => p.1 = s) =
          xs.find? (fun p => p.1 = s) :=
        List.find?_cons_of_neg _ (by
          simp only [decide_eq_true_eq]
          exact hx)
      rw [h1, h2]
      have := ih
      unfold lookupSlot at this
      exact this

/-- Adding a register target to a target set permutes its list view to a
cons. -/
theorem asList_addReg_perm {k : Nat} (tg : GapMoveTargets k) (t : Fin k)
    (h : t ∉ tg.registers) :
    (GapMoveTargets.asList ⟨insertReg t tg.registers, tg.stackSlots⟩ :
      List (GapLoc k)).Perm (GapLoc.reg t :: tg.asList) := by
  show ((insertReg t tg.registers).map GapLoc.reg ++
    tg.stackSlots.map GapLoc.slot).Perm _
  have h1 := (insertReg_perm t tg.registers h).map GapLoc.reg
  have h2 := h1.append_right (tg.stackSlots.map GapLoc.slot)
  simp only [List.map_cons, List.cons_append] at h2
  exact h2

/-- Adding a stack-slot target to a target set permutes its list view to a
cons. -/
theorem asList_addSlot_perm {k : Nat} (tg : GapMoveTargets k) (t : Int) :
    (GapMoveTargets.asList ⟨tg.registers, tg.stackSlots ++ [t]⟩ :
      List (GapLoc k)).Perm (GapLoc.slot t :: tg.asList) := by
  show (tg.registers.map GapLoc.reg ++
    (tg.stackSlots ++ [t]).map GapLoc.slot).Perm _
  rw [List.map_append, ← List.append_assoc]
  simp only [List.map_cons, List.map_nil]
  exact List.perm_append_singleton _ _

/-- Replacing one register's target set by a permuted copy with one extra
target permutes the global target list to a cons. -/
theorem allTargets_update_perm {k : Nat} (st : ResolverState k) (r : Fin k)
    (nt : GapMoveTargets k) (d : GapLoc k)
    (hperm : nt.asList.Perm (d :: (st.movesFromRegister r).asList)) :
    (allTargets {st with movesFromRegister := Function.update st.movesFromRegister r nt}).Perm (d :: allTargets st) := by
  obtain ⟨l1, l2, hfin⟩ := List.append_of_mem (List.mem_finRange r)
  have hnodup : (l1 ++ r :: l2).Nodup := hfin ▸ List.nodup_finRange k
  have hnmid := List.nodup_cons.mp (List.nodup_middle.mp hnodup)
  have hnl1 : r ∉ l1 := fun hm => hnmid.1 (List.mem_append_left l2 hm)
  have hnl2 : r ∉ l2 := fun hm => hnmid.1 (List.mem_append_right l1 hm)
  have hcong : ∀ l : List (Fin k),
      (l.flatMap fun x =>
        ((Function.update st.movesFromRegister r nt) x).asList) =
      (l.flatMap fun x => Function.update
        (fun y => (st.movesFromRegister y).asList) r nt.asList x) := by
    intro l
    apply flatMap_congr
    intro a _
    by_cases ha : a = r
    · subst ha
      rw [Function.update_same, Function.update_same]
    · rw [Function.update_noteq ha, Function.update_noteq ha]
  have hstep : allTargets {st with movesFromRegister := Function.update st.movesFromRegister r nt} =
      (l1.flatMap fun x => (st.movesFromRegister x).asList) ++
      (nt.asList ++
        ((l2.flatMap fun x => (st.movesFromRegister x).asList) ++
          st.movesFromStackSlot.flatMap (fun p => p.2.asList))) := by
    show ((List.finRange k).flatMap fun x =>
        ((Function.update st.movesFromRegister r nt) x).asList) ++
        st.movesFromStackSlot.flatMap (fun p => p.2.asList) = _
    rw [hcong, hfin, List.flatMap_append, List.flatMap_cons]
    rw [flatMap_update_ne _ _ _ l1 hnl1, flatMap_update_ne _ _ _ l2 hnl2]
    rw [Function.update_same]
    simp only [List.append_assoc]
  have hbase : allTargets st =
      (l1.flatMap fun x => (st.movesFromRegister x).asList) ++
      ((st.movesFromRegister r).asList ++
        ((l2.flatMap fun x => (st.movesFromRegister x).asList) ++
          st.movesFromStackSlot.flatMap (fun p => p.2.asList))) := by
    show ((List.finRange k).flatMap fun x =>
        (st.movesFromRegister x).asList) ++
        st.movesFromStackSlot.flatMap (fun p => p.2.asList) = _
    rw [hfin, List.flatMap_append, List.flatMap_cons]
    simp only [List.append_assoc]
  rw [hstep, hbase]
  have key := perm_cons_component
    (l1.flatMap fun x => (st.movesFromRegister x).asList)
    nt.asList (st.movesFromRegister r).asList
    ((l2.flatMap fun x => (st.movesFromRegister x).asList) ++
      st.movesFromStackSlot.flatMap (fun p => p.2.asList)) d hperm
  simp only [List.append_assoc] at key
  exact key

/-- Rewriting one slot-map entry in place by a permuted copy with one extra
target permutes the global target list to a cons. -/
theorem allTargets_slotUpdate_perm {k : Nat} (st : ResolverState k)
    (L1 L2 : List (Int × GapMoveTargets k)) (s : Int)
    (tg nt : GapMoveTargets k)
    (hmap : st.movesFromStackSlot = L1 ++ (s, tg) :: L2) (d : GapLoc k)
    (hperm : nt.asList.Perm (d :: tg.asList)) :
    (allTargets {st with movesFromStackSlot := L1 ++ (s, nt) :: L2}).Perm (d :: allTargets st) := by
  have hstep : allTargets {st with movesFromStackSlot := L1 ++ (s, nt) :: L2} =
      (((List.finRange k).flatMap fun x =>
        (st.movesFromRegister x).asList) ++
        L1.flatMap (fun p => p.2.asList)) ++
      (nt.asList ++ L2.flatMap (fun p => p.2.asList)) := by
    show ((List.finRange k).flatMap fun x =>
        (st.movesFromRegister x).asList) ++
        (L1 ++ (s, nt) :: L2).flatMap (fun p => p.2.asList) = _
    rw [List.flatMap_append, List.flatMap_cons]
    simp only [List.append_assoc]
  have hbase : allTargets st =
      (((List.finRange k).flatMap fun x =>
        (st.movesFromRegister x).asList) ++
        L1.flatMap (fun p => p.2.asList)) ++
      (tg.asList ++ L2.flatMap (fun p => p.2.asList)) := by
    show ((List.finRange k).flatMap fun x =>
        (st.movesFromRegister x).asList) ++
        st.movesFromStackSlot.flatMap (fun p => p.2.asList) = _
    rw [hmap, List.flatMap_append, List.flatMap_cons]
    simp only [List.append_assoc]
  rw [hstep, hbase]
  have key := perm_cons_component
    (((List.finRange k).flatMap fun x =>
      (st.movesFromRegister x).asList) ++
      L1.flatMap (fun p => p.2.asList))
    nt.asList tg.asList (L2.flatMap (fun p => p.2.asList)) d hperm
  simp only [List.append_assoc] at key ⊢
  exact key

/-- Appending a fresh slot-map entry whose list view is a singleton
permutes the global target list to a cons. -/
theorem allTargets_slotAppend_perm {k : Nat} (st : ResolverState k)
    (s : Int) (nt : GapMoveTargets k) (d : GapLoc k)
    (hperm : nt.asList.Perm [d]) :
    (allTargets {st with movesFromStackSlot := st.movesFromStackSlot ++ [(s, nt)]}).Perm (d :: allTargets st) := by
  have hstep : allTargets {st with movesFromStackSlot := st.movesFromStackSlot ++ [(s, nt)]} =
      allTargets st ++ nt.asList := by
    show ((List.finRange k).flatMap fun x =>
        (st.movesFromRegister x).asList) ++
        (st.movesFromStackSlot ++ [(s, nt)]).flatMap
          (fun p => p.2.asList) = allTargets st ++ nt.asList
    rw [List.flatMap_append]
    show _ ++ (_ ++ (nt.asList ++ [])) = _
    rw [List.append_nil, ← List.append_assoc]
    rfl
  rw [hstep]
  exact (hperm.append_left (allTargets st)).trans
    (List.perm_append_singleton d (allTargets st))

/-- Effect of recording one non-self graph move with a fresh target: other
sources keep their targets, the source gains exactly the new target, the
global target list gains it, the materializing collections and the flag are
untouched, and the slot-map keys stay duplicate-free. -/
theorem recordMove_graph_spec {k : Nat} (st : ResolverState k)
    {src : MoveSource k} {xs : GapLoc k} (hsrc : src.gapOf = some xs)
    (d : GapLoc k) (hself : d ≠ xs) (hd : d ∉ allTargets st)
    (hkeys : (st.movesFromStackSlot.map Prod.fst).Nodup) :
    (∀ x, x ≠ xs → targetsOf (RecordMove st src d) x = targetsOf st x) ∧
    ((targetsOf (RecordMove st src d) xs).asList.Perm
      (d :: (targetsOf st xs).asList)) ∧
    ((allTargets (RecordMove st src d)).Perm (d :: allTargets st)) ∧
    (RecordMove st src d).materializingRegisterMoves =
      st.materializingRegisterMoves ∧
    (RecordMove st src d).materializingStackSlotMoves =
      st.materializingStackSlotMoves ∧
    (RecordMove st src d).scratchHasCycleStart = st.scratchHasCycleStart ∧
    ((RecordMove st src d).movesFromStackSlot.map Prod.fst).Nodup := by
  cases src with
  | constant n => exact nomatch hsrc
  | reg r =>
    have hxs : xs = GapLoc.reg r := by
      injection hsrc with h
      exact h.symm
    subst hxs
    cases d with
    | reg t =>
      have ht : t ≠ r := fun he => hself (by rw [he])
      have ht_notin : t ∉ (st.movesFromRegister r).registers := by
        intro hin
        apply hd
        apply mem_allTargets_of_edge (x := GapLoc.reg r)
        show GapLoc.reg t ∈
          (st.movesFromRegister r).registers.map GapLoc.reg ++
          (st.movesFromRegister r).stackSlots.map GapLoc.slot
        exact List.mem_append_left _ (List.mem_map_of_mem GapLoc.reg hin)
      have hst : RecordMove st (MoveSource.reg r) (GapLoc.reg t) =
          {st with movesFromRegister := Function.update st.movesFromRegister r ⟨insertReg t (st.movesFromRegister r).registers, (st.movesFromRegister r).stackSlots⟩} := by
        show (if t ≠ r then ({st with movesFromRegister := Function.update st.movesFromRegister r ⟨insertReg t (st.movesFromRegister r).registers, (st.movesFromRegister r).stackSlots⟩} : ResolverState k) else st) = _
        rw [if_pos ht]
      refine ⟨?_, ?_, ?_, ?_, ?_, ?_, ?_⟩
      · intro x hx
        rw [hst]
        cases x with
        | reg r1 =>
          have hr1 : r1 ≠ r := fun he => hx (by rw [he])
          show Function.update st.movesFromRegister r _ r1 = _
          exact Function.update_noteq hr1 _ _
        | slot s1 => rfl
      · rw [hst]
        show (Function.update st.movesFromRegister r
          ⟨insertReg t (st.movesFromRegister r).registers,
            (st.movesFromRegister r).stackSlots⟩ r).asList.Perm
          (GapLoc.reg t :: (st.movesFromRegister r).asList)
        rw [Function.update_same]
        exact asList_addReg_perm (st.movesFromRegister r) t ht_notin
      · rw [hst]
        exact allTargets_update_perm st r _ (GapLoc.reg t)
          (asList_addReg_perm (st.movesFromRegister r) t ht_notin)
      · rw [hst]
      · rw [hst]
      · rw [hst]
      · rw [hst]
        exact hkeys
    | slot t =>
      have hst : RecordMove st (MoveSource.reg r) (GapLoc.slot t) =
          {st with movesFromRegister := Function.update st.movesFromRegister r ⟨(st.movesFromRegister r).registers, (st.movesFromRegister r).stackSlots ++ [t]⟩} := rfl
      refine ⟨?_, ?_, ?_, ?_, ?_, ?_, ?_⟩
      · intro x hx
        rw [hst]
        cases x with
        | reg r1 =>
          have hr1 : r1 ≠ r := fun he => hx (by rw [he])
          show Function.update st.movesFromRegister r _ r1 = _
          exact Function.update_noteq hr1 _ _
        | slot s1 => rfl
      · rw [hst]
        show (Function.update st.movesFromRegister r
          ⟨(st.movesFromRegister r).registers,
            (st.movesFromRegister r).stackSlots ++ [t]⟩ r).asList.Perm
          (GapLoc.slot t :: (st.movesFromRegister r).asList)
        rw [Function.update_same]
        exact asList_addSlot_perm (st.movesFromRegister r) t
      · rw [hst]
        exact allTargets_update_perm st r _ (GapLoc.slot t)
          (asList_addSlot_perm (st.movesFromRegister r) t)
      · rw [hst]
      · rw [hst]
      · rw [hst]
      · rw [hst]
        exact hkeys
  | slot s =>
    have hxs : xs = GapLoc.slot s := by
      injection hsrc with h
      exact h.symm
    subst hxs
    cases d with
    | reg t =>
      have hst : RecordMove st (MoveSource.slot s) (GapLoc.reg t) =
          {st with movesFromStackSlot := updateSlotMap s (fun tg => ⟨insertReg t tg.registers, tg.stackSlots⟩) st.movesFromStackSlot} := rfl
      have ht_notin : t ∉ (lookupSlot s st.movesFromStackSlot).registers := by
        intro hin
        apply hd
        apply mem_allTargets_of_edge (x := GapLoc.slot s)
        show GapLoc.reg t ∈
          (lookupSlot s st.movesFromStackSlot).registers.map GapLoc.reg ++
          (lookupSlot s st.movesFromStackSlot).stackSlots.map GapLoc.slot
        exact List.mem_append_left _ (List.mem_map_of_mem GapLoc.reg hin)
      refine ⟨?_, ?_, ?_, ?_, ?_, ?_, ?_⟩
      · intro x hx
        rw [hst]
        cases x with
        | reg r1 => rfl
        | slot s1 =>
          have hs1 : s1 ≠ s := fun he => hx (by rw [he])
          show lookupSlot s1 (updateSlotMap s _ st.movesFromStackSlot) = _
          exact lookupSlot_updateSlotMap_ne s s1 hs1 _ st.movesFromStackSlot
      · rw [hst]
        show (lookupSlot s (updateSlotMap s
          (fun tg => ⟨insertReg t tg.registers, tg.stackSlots⟩)
          st.movesFromStackSlot)).asList.Perm
          (GapLoc.reg t :: (lookupSlot s st.movesFromStackSlot).asList)
        rw [lookupSlot_updateSlotMap_self]
        exact asList_addReg_perm (lookupSlot s st.movesFromStackSlot) t
          ht_notin
      · rw [hst]
        rcases slotMap_cases s st.movesFromStackSlot hkeys with
          ⟨hnot, hlook, hupd⟩ | ⟨L1, tg, L2, hdec, hL1, hlook, hupd⟩
        · rw [hupd]
          exact allTargets_slotAppend_perm st s _ (GapLoc.reg t)
            (by
              show [GapLoc.reg t].Perm [GapLoc.reg t]
              exact List.Perm.refl _)
        · rw [hupd]
          rw [hlook] at ht_notin
          exact allTargets_slotUpdate_perm st L1 L2 s tg _ hdec
            (GapLoc.reg t) (asList_addReg_perm tg t ht_notin)
      · rw [hst]
      · rw [hst]
      · rw [hst]
      · rw [hst]
        rcases slotMap_cases s st.movesFromStackSlot hkeys with
          ⟨hnot, hlook, hupd⟩ | ⟨L1, tg, L2, hdec, hL1, hlook, hupd⟩
        · show ((updateSlotMap s _ st.movesFromStackSlot).map
            Prod.fst).Nodup
          rw [hupd]
          rw [List.map_append]
          simp only [List.map_cons, List.map_nil]
          exact List.nodup_middle.mpr (List.nodup_cons.mpr
            ⟨by simpa using hnot, by simpa using hkeys⟩)
        · show ((updateSlotMap s _ st.movesFromStackSlot).map
            Prod.fst).Nodup
          rw [hupd]
          have hmk : ((L1 ++ (s, (⟨insertReg t tg.registers,
              tg.stackSlots⟩ : GapMoveTargets k)) :: L2).map Prod.fst) =
              ((L1 ++ (s, tg) :: L2).map Prod.fst) := by
            simp [List.map_append]
          rw [hmk, ← hdec]
          exact hkeys
    | slot t =>
      have hts : s ≠ t := fun he => hself (by rw [he])
      have hst : RecordMove st (MoveSource.slot s) (GapLoc.slot t) =
          {st with movesFromStackSlot := updateSlotMap s (fun tg => ⟨tg.registers, tg.stackSlots ++ [t]⟩) st.movesFromStackSlot} := by
        show (if s ≠ t then ({st with movesFromStackSlot := updateSlotMap s (fun tg => ⟨tg.registers, tg.stackSlots ++ [t]⟩) st.movesFromStackSlot} : ResolverState k) else st) = _
        rw [if_pos hts]
      refine ⟨?_, ?_, ?_, ?_, ?_, ?_, ?_⟩
      · intro x hx
        rw [hst]
        cases x with
        | reg r1 => rfl
        | slot s1 =>
          have hs1 : s1 ≠ s := fun he => hx (by rw [he])
          show lookupSlot s1 (updateSlotMap s _ st.movesFromStackSlot) = _
          exact lookupSlot_updateSlotMap_ne s s1 hs1 _ st.movesFromStackSlot
      · rw [hst]
        show (lookupSlot s (updateSlotMap s
          (fun tg => ⟨tg.registers, tg.stackSlots ++ [t]⟩)
          st.movesFromStackSlot)).asList.Perm
          (GapLoc.slot t :: (lookupSlot s st.movesFromStackSlot).asList)
        rw [lookupSlot_updateSlotMap_self]
        exact asList_addSlot_perm (lookupSlot s st.movesFromStackSlot) t
      · rw [hst]
        rcases slotMap_cases s st.movesFromStackSlot hkeys with
          ⟨hnot, hlook, hupd⟩ | ⟨L1, tg, L2, hdec, hL1, hlook, hupd⟩
        · rw [hupd]
          exact allTargets_slotAppend_perm st s _ (GapLoc.slot t)
            (by
              show [GapLoc.slot t].Perm [GapLoc.slot t]
              exact List.Perm.refl _)
        · rw [hupd]
          exact allTargets_slotUpdate_perm st L1 L2 s tg _ hdec
            (GapLoc.slot t) (asList_addSlot_perm tg t)
      · rw [hst]
      · rw [hst]
      · rw [hst]
      · rw [hst]
        rcases slotMap_cases s st.movesFromStackSlot hkeys with
          ⟨hnot, hlook, hupd⟩ | ⟨L1, tg, L2, hdec, hL1, hlook, hupd⟩
        · show ((updateSlotMap s _ st.movesFromStackSlot).map
            Prod.fst).Nodup
          rw [hupd]
          rw [List.map_append]
          simp only [List.map_cons, List.map_nil]
          exact List.nodup_middle.mpr (List.nodup_cons.mpr
            ⟨by simpa using hnot, by simpa using hkeys⟩)
        · show ((updateSlotMap s _ st.movesFromStackSlot).map
            Prod.fst).Nodup
          rw [hupd]
          have hmk : ((L1 ++ (s, (⟨tg.registers,
              tg.stackSlots ++ [t]⟩ : GapMoveTargets k)) :: L2).map
              Prod.fst) = ((L1 ++ (s, tg) :: L2).map Prod.fst) := by
            simp [List.map_append]
          rw [hmk, ← hdec]
          exact hkeys

/-- Recording a constant into a register only updates the materializing
register table. -/
theorem recordMove_const_reg {k : Nat} (st : ResolverState k) (n : Nat)
    (r : Fin k) :
    RecordMove st (MoveSource.constant n) (GapLoc.reg r) =
      {st with materializingRegisterMoves := Function.update st.materializingRegisterMoves r (some n)} := rfl

/-- Recording a constant into a stack slot only appends to the
materializing stack-slot list. -/
theorem recordMove_const_slot {k : Nat} (st : ResolverState k) (n : Nat)
    (s : Int) :
    RecordMove st (MoveSource.constant n) (GapLoc.slot s) =
      {st with materializingStackSlotMoves := st.materializingStackSlotMoves ++ [(s, n)]} := rfl

/-- A move that is not an edge into `d` from `x` extends the edge
existential conservatively. -/
theorem mem_move_iff_append {k : Nat} (pre : List (MoveSource k × GapLoc k))
    (e : MoveSource k × GapLoc k) (x d : GapLoc k)
    (hno : ¬ (e.2 = d ∧ e.1.gapOf = some x ∧ d ≠ x)) :
    (∃ src, (src, d) ∈ pre ++ [e] ∧ src.gapOf = some x ∧ d ≠ x) ↔
    (∃ src, (src, d) ∈ pre ∧ src.gapOf = some x ∧ d ≠ x) := by
  constructor
  · rintro ⟨s1, hm, hg, hne⟩
    rcases List.mem_append.mp hm with hm | hm
    · exact ⟨s1, hm, hg, hne⟩
    · have he := List.mem_singleton.mp hm
      exact absurd ⟨by rw [← he], by rw [← he]; exact hg, hne⟩ hno
  · rintro ⟨s1, hm, hg, hne⟩
    exact ⟨s1, List.mem_append_left _ hm, hg, hne⟩

/-- A move that is not an edge into `d` at all extends the any-source edge
existential conservatively. -/
theorem exists_edge_append_none {k : Nat}
    (pre : List (MoveSource k × GapLoc k)) (e : MoveSource k × GapLoc k)
    (d : GapLoc k)
    (hno : ∀ x, ¬ (e.2 = d ∧ e.1.gapOf = some x ∧ d ≠ x)) :
    (∃ src x, (src, d) ∈ pre ++ [e] ∧ src.gapOf = some x ∧ d ≠ x) ↔
    (∃ src x, (src, d) ∈ pre ∧ src.gapOf = some x ∧ d ≠ x) := by
  constructor
  · rintro ⟨s1, x, hm, hg, hne⟩
    rcases List.mem_append.mp hm with hm | hm
    · exact ⟨s1, x, hm, hg, hne⟩
    · have he := List.mem_singleton.mp hm
      exact absurd ⟨by rw [← he], by rw [← he]; exact hg, hne⟩ (hno x)
  · rintro ⟨s1, x, hm, hg, hne⟩
    exact ⟨s1, x, List.mem_append_left _ hm, hg, hne⟩

/-- Moves with a graph source never contribute a materializing stack-slot
entry. -/
theorem matSlotOf_graph {k : Nat} {src : MoveSource k} {xs : GapLoc k}
    (hsrc : src.gapOf = some xs) (d : GapLoc k) :
    matSlotOf (src, d) = none := by
  cases src with
  | reg r => rfl
  | slot s => rfl
  | constant n => exact nomatch hsrc

/-- Characterization of a recorded move set over the fresh resolver under
the in-degree invariant: the graph is well formed with a clear flag, its
edges are exactly the non-self graph moves, and the materializing tables
hold exactly the constant moves. -/
theorem recordAll_spec {k : Nat} :
    ∀ moves : List (MoveSource k × GapLoc k),
      (moves.map Prod.snd).Nodup →
      WF (recordAll moves (initResolver k)) ∧
      (recordAll moves (initResolver k)).scratchHasCycleStart = false ∧
      (∀ x d : GapLoc k,
        d ∈ (targetsOf (recordAll moves (initResolver k)) x).asList ↔
        ∃ src, (src, d) ∈ moves ∧ src.gapOf = some x ∧ d ≠ x) ∧
      (∀ d : GapLoc k,
        d ∈ allTargets (recordAll moves (initResolver k)) ↔
        ∃ src x, (src, d) ∈ moves ∧ src.gapOf = some x ∧ d ≠ x) ∧
      (∀ r n,
        (recordAll moves (initResolver k)).materializingRegisterMoves r =
          some n ↔ (MoveSource.constant n, GapLoc.reg r) ∈ moves) ∧
      (recordAll moves (initResolver k)).materializingStackSlotMoves =
        moves.filterMap matSlotOf := by
  intro moves
  induction moves using List.reverseRecOn with
  | nil =>
    intro _
    have h0 : allTargets (recordAll [] (initResolver k)) = [] :=
      allTargets_nil (fun r => rfl) rfl
    refine ⟨⟨by rw [h0]; exact List.nodup_nil, List.nodup_nil, ?_⟩, rfl,
      ?_, ?_, ?_, rfl⟩
    · intro x
      cases x with
      | reg r => exact fun h => absurd h (List.not_mem_nil _)
      | slot s => exact fun h => absurd h (List.not_mem_nil _)
    · intro x d
      constructor
      · intro h
        cases x with
        | reg r => exact absurd h (List.not_mem_nil d)
        | slot s => exact absurd h (List.not_mem_nil d)
      · rintro ⟨src, hmem, _, _⟩
        exact absurd hmem (List.not_mem_nil _)
    · intro d
      constructor
      · intro h
        rw [h0] at h
        exact absurd h (List.not_mem_nil d)
      · rintro ⟨src, x, hmem, _, _⟩
        exact absurd hmem (List.not_mem_nil _)
    · intro r n
      constructor
      · intro h
        exact nomatch h
      · intro h
        exact absurd h (List.not_mem_nil _)
  | append_singleton pre mv ih =>
    intro hnd
    have hnd2 := hnd
    rw [List.map_append] at hnd2
    have hndpre : (pre.map Prod.snd).Nodup := (List.nodup_append.mp hnd2).1
    have hnotin : mv.2 ∉ pre.map Prod.snd := by
      intro hm
      exact (List.nodup_append.mp hnd2).2.2 hm (by simp)
    obtain ⟨hwf, hflag, hi3, hi4, hi5, hi6⟩ := ih hndpre
    have hrec : recordAll (pre ++ [mv]) (initResolver k) =
        RecordMove (recordAll pre (initResolver k)) mv.1 mv.2 := by
      rw [recordAll_append]
      rfl
    have hd : mv.2 ∉ allTargets (recordAll pre (initResolver k)) := by
      intro hin
      obtain ⟨s1, x1, hm, _, _⟩ := (hi4 mv.2).mp hin
      have h2 : (s1, mv.2).2 ∈ pre.map Prod.snd :=
        List.mem_map_of_mem Prod.snd hm
      exact hnotin h2
    rcases hsrceq : mv.1.gapOf with _ | xs
    · -- constant source
      obtain ⟨msrc, md⟩ := mv
      cases msrc with
      | reg r => exact nomatch hsrceq
      | slot s => exact nomatch hsrceq
      | constant n =>
        cases md with
        | reg r =>
          rw [hrec, recordMove_const_reg]
          refine ⟨hwf, hflag, ?_, ?_, ?_, ?_⟩
          · intro x d'
            refine (hi3 x d').trans (mem_move_iff_append pre
              (MoveSource.constant n, GapLoc.reg r) x d' ?_).symm
            rintro ⟨_, hg, _⟩
            exact nomatch hg
          · intro d'
            refine (hi4 d').trans (exists_edge_append_none pre
              (MoveSource.constant n, GapLoc.reg r) d' ?_).symm
            intro x
            rintro ⟨_, hg, _⟩
            exact nomatch hg
          · intro r' n'
            show Function.update (recordAll pre
              (initResolver k)).materializingRegisterMoves r (some n) r' =
              some n' ↔ _
            by_cases hr : r' = r
            · subst hr
              rw [Function.update_same]
              constructor
              · intro h
                injection h with h
                rw [← h]
                exact List.mem_append_right _ (List.mem_singleton.mpr rfl)
              · intro h
                rcases List.mem_append.mp h with h | h
                · exact absurd (List.mem_map_of_mem Prod.snd h) hnotin
                · have he := List.mem_singleton.mp h
                  have hn : n' = n := by
                    have h1 : ((MoveSource.constant n', GapLoc.reg r') :
                        MoveSource k × GapLoc k).1 =
                        ((MoveSource.constant n, GapLoc.reg r') :
                        MoveSource k × GapLoc k).1 := by
                      rw [he]
                    injection h1
                  rw [hn]
            · rw [Function.update_noteq hr]
              refine (hi5 r' n').trans ?_
              constructor
              · exact fun h => List.mem_append_left _ h
              · intro h
                rcases List.mem_append.mp h with h | h
                · exact h
                · have he := List.mem_singleton.mp h
                  exfalso
                  apply hr
                  have h2 : ((MoveSource.constant n', GapLoc.reg r') :
                      MoveSource k × GapLoc k).2 =
                      ((MoveSource.constant n, GapLoc.reg r) :
                      MoveSource k × GapLoc k).2 := by
                    rw [he]
                  injection h2
          · show (recordAll pre
              (initResolver k)).materializingStackSlotMoves = _
            rw [hi6, List.filterMap_append]
            simp [List.filterMap_cons, matSlotOf]
        | slot sl =>
          rw [hrec, recordMove_const_slot]
          refine ⟨hwf, hflag, ?_, ?_, ?_, ?_⟩
          · intro x d'
            refine (hi3 x d').trans (mem_move_iff_append pre
              (MoveSource.constant n, GapLoc.slot sl) x d' ?_).symm
            rintro ⟨_, hg, _⟩
            exact nomatch hg
          · intro d'
            refine (hi4 d').trans (exists_edge_append_none pre
              (MoveSource.constant n, GapLoc.slot sl) d' ?_).symm
            intro x
            rintro ⟨_, hg, _⟩
            exact nomatch hg
          · intro r' n'
            show (recordAll pre
              (initResolver k)).materializingRegisterMoves r' = some n' ↔ _
            refine (hi5 r' n').trans ?_
            constructor
            · exact fun h => List.mem_append_left _ h
            · intro h
              rcases List.mem_append.mp h with h | h
              · exact h
              · have he := List.mem_singleton.mp h
                have h2 : ((MoveSource.constant n', GapLoc.reg r') :
                    MoveSource k × GapLoc k).2 =
                    ((MoveSource.constant n, GapLoc.slot sl) :
                    MoveSource k × GapLoc k).2 := by
                  rw [he]
                exact nomatch h2
          · show (recordAll pre
              (initResolver k)).materializingStackSlotMoves ++
              [(sl, n)] = _
            rw [hi6, List.filterMap_append]
            simp [List.filterMap_cons, matSlotOf]
    · -- graph source
      by_cases hself : mv.2 = xs
      · have hstEq : recordAll (pre ++ [mv]) (initResolver k) =
            recordAll pre (initResolver k) := by
          rw [hrec, hself]
          exact recordMove_self _ hsrceq
        rw [hstEq]
        refine ⟨hwf, hflag, ?_, ?_, ?_, ?_⟩
        · intro x d'
          refine (hi3 x d').trans (mem_move_iff_append pre mv x d' ?_).symm
          rintro ⟨h2, hg, hne⟩
          rw [hsrceq] at hg
          injection hg with hg
          apply hne
          rw [← h2, hself]
          exact hg
        · intro d'
          refine (hi4 d').trans (exists_edge_append_none pre mv d' ?_).symm
          intro x
          rintro ⟨h2, hg, hne⟩
          rw [hsrceq] at hg
          injection hg with hg
          apply hne
          rw [← h2, hself]
          exact hg
        · intro r' n'
          refine (hi5 r' n').trans ?_
          constructor
          · exact fun h => List.mem_append_left _ h
          · intro h
            rcases List.mem_append.mp h with h | h
            · exact h
            · have he := List.mem_singleton.mp h
              have h1 : mv.1 = MoveSource.constant n' := by
                rw [← he]
              rw [h1] at hsrceq
              exact nomatch hsrceq
        · rw [hi6, List.filterMap_append]
          have hms : List.filterMap matSlotOf [mv] = [] := by
            have h1 := matSlotOf_graph hsrceq mv.2
            simp [List.filterMap_cons, h1]
          rw [hms, List.append_nil]
      · obtain ⟨ga, gb, gc, gd, ge, gf, gg⟩ :=
          recordMove_graph_spec (recordAll pre (initResolver k)) hsrceq
            mv.2 hself hd hwf.2.1
        rw [hrec]
        refine ⟨⟨?_, gg, ?_⟩, ?_, ?_, ?_, ?_, ?_⟩
        · exact (gc.nodup_iff).mpr (List.nodup_cons.mpr ⟨hd, hwf.1⟩)
        · intro x
          by_cases hx : x = xs
          · subst hx
            intro hmem
            rcases List.mem_cons.mp ((gb.mem_iff).mp hmem) with h | h
            · exact hself h.symm
            · exact hwf.2.2 x h
          · rw [ga x hx]
            exact hwf.2.2 x
        · rw [gf]
          exact hflag
        · intro x d'
          by_cases hx : x = xs
          · subst hx
            constructor
            · intro hmem
              rcases List.mem_cons.mp ((gb.mem_iff).mp hmem) with h | h
              · refine ⟨mv.1, List.mem_append_right _ ?_, hsrceq, ?_⟩
                · rw [h]
                  exact List.mem_singleton.mpr rfl
                · rw [h]
                  exact hself
              · obtain ⟨s1, hm, hg, hne⟩ := (hi3 x d').mp h
                exact ⟨s1, List.mem_append_left _ hm, hg, hne⟩
            · rintro ⟨s1, hm, hg, hne⟩
              apply (gb.mem_iff).mpr
              rcases List.mem_append.mp hm with hm | hm
              · exact List.mem_cons_of_mem _ ((hi3 x d').mpr
                  ⟨s1, hm, hg, hne⟩)
              · have he := List.mem_singleton.mp hm
                have h2 : d' = mv.2 := by
                  rw [← he]
                rw [h2]
                exact List.mem_cons_self _ _
          · rw [ga x hx]
            refine (hi3 x d').trans (mem_move_iff_append pre mv x d' ?_).symm
            rintro ⟨h2, hg, hne⟩
            rw [hsrceq] at hg
            injection hg with hg
            exact hx hg.symm
        · intro d'
          constructor
          · intro hmem
            rcases List.mem_cons.mp ((gc.mem_iff).mp hmem) with h | h
            · refine ⟨mv.1, xs, List.mem_append_right _ ?_, hsrceq, ?_⟩
              · rw [h]
                exact List.mem_singleton.mpr rfl
              · rw [h]
                exact hself
            · obtain ⟨s1, x1, hm, hg, hne⟩ := (hi4 d').mp h
              exact ⟨s1, x1, List.mem_append_left _ hm, hg, hne⟩
          · rintro ⟨s1, x1, hm, hg, hne⟩
            apply (gc.mem_iff).mpr
            rcases List.mem_append.mp hm with hm | hm
            · exact List.mem_cons_of_mem _ ((hi4 d').mpr
                ⟨s1, x1, hm, hg, hne⟩)
            · have he := List.mem_singleton.mp hm
              have h2 : d' = mv.2 := by
                rw [← he]
              rw [h2]
              exact List.mem_cons_self _ _
        · intro r' n'
          rw [gd]
          refine (hi5 r' n').trans ?_
          constructor
          · exact fun h => List.mem_append_left _ h
          · intro h
            rcases List.mem_append.mp h with h | h
            · exact h
            · have he := List.mem_singleton.mp h
              have h1 : mv.1 = MoveSource.constant n' := by
                rw [← he]
              rw [h1] at hsrceq
              exact nomatch hsrceq
        · rw [ge, hi6, List.filterMap_append]
          have hms : List.filterMap matSlotOf [mv] = [] := by
            have h1 := matSlotOf_graph hsrceq mv.2
            simp [List.filterMap_cons, h1]
          rw [hms, List.append_nil]

/-- A duplicate-free image makes the map injective on the list. -/
theorem nodup_map_inj {α β : Type} {f : α → β} :
    ∀ {l : List α}, (l.map f).Nodup →
      ∀ a ∈ l, ∀ b ∈ l, f a = f b → a = b := by
  intro l
  induction l with
  | nil =>
    intro _ a ha
    exact absurd ha (List.not_mem_nil a)
  | cons x xs ih =>
    intro hnd a ha b hb hab
    have hnd2 := List.nodup_cons.mp hnd
    rcases List.mem_cons.mp ha with rfl | ha2
    · rcases List.mem_cons.mp hb with rfl | hb2
      · rfl
      · exact absurd (hab ▸ List.mem_map_of_mem f hb2) hnd2.1
    · rcases List.mem_cons.mp hb with rfl | hb2
      · exact absurd (hab ▸ List.mem_map_of_mem f ha2) (by
          intro hm
          exact hnd2.1 hm)
      · exact ih hnd2.2 a ha2 b hb2 hab

/-- Under the in-degree invariant, two recorded moves with the same target
are the same move. -/
theorem unique_target {k : Nat} {moves : List (MoveSource k × GapLoc k)}
    (hnd : (moves.map Prod.snd).Nodup) {a b : MoveSource k × GapLoc k}
    (ha : a ∈ moves) (hb : b ∈ moves) (hab : a.2 = b.2) : a = b :=
  nodup_map_inj hnd a ha b hb hab

/-- Shape of a move that contributes a materializing stack-slot entry. -/
theorem matSlotOf_eq_some {k : Nat} {mv : MoveSource k × GapLoc k}
    {s : Int} {n : Nat} (h : matSlotOf mv = some (s, n)) :
    mv = (MoveSource.constant n, GapLoc.slot s) := by
  obtain ⟨src, d⟩ := mv
  cases src with
  | reg r => exact nomatch h
  | slot s1 => exact nomatch h
  | constant n1 =>
    cases d with
    | reg r => exact nomatch h
    | slot s1 =>
      have h2 : (s1, n1) = (s, n) := by
        injection h
      have h3 := Prod.mk.injEq s1 n1 s n ▸ h2
      rw [h3.1, h3.2]

/-- Keys produced by a filterMap whose output key determines the input
image stay duplicate-free. -/
theorem nodup_filterMap_key {α β γ : Type} (f : α → Option β) (g : β → γ)
    (h : α → γ) (hcomp : ∀ a b, f a = some b → g b = h a) :
    ∀ l : List α, (l.map h).Nodup → ((l.filterMap f).map g).Nodup := by
  intro l
  induction l with
  | nil =>
    intro _
    exact List.nodup_nil
  | cons a as ih =>
    intro hnd
    have hnd2 := List.nodup_cons.mp hnd
    rcases hfa : f a with _ | b
    · rw [List.filterMap_cons_none hfa]
      exact ih hnd2.2
    · rw [List.filterMap_cons_some hfa, List.map_cons]
      apply List.nodup_cons.mpr
      refine ⟨?_, ih hnd2.2⟩
      intro hmem
      obtain ⟨b1, hb1, hgb⟩ := List.mem_map.mp hmem
      obtain ⟨a1, ha1, hfa1⟩ := List.mem_filterMap.mp hb1
      apply hnd2.1
      rw [← hcomp a b hfa, ← hgb, hcomp a1 b1 hfa1]
      exact List.mem_map_of_mem h ha1

/-- The recorded materializing moves target fresh locations and have
duplicate-free slot keys; together with `recordAll_spec` this feeds the
master `EmitMoves` specification. -/
theorem recorded_hyps {k : Nat} (moves : List (MoveSource k × GapLoc k))
    (hnd : (moves.map Prod.snd).Nodup) :
    (∀ r n, (recordAll moves
        (initResolver k)).materializingRegisterMoves r = some n →
      GapLoc.reg r ∉ allTargets (recordAll moves (initResolver k))) ∧
    (∀ p ∈ (recordAll moves
        (initResolver k)).materializingStackSlotMoves,
      GapLoc.slot p.1 ∉ allTargets (recordAll moves (initResolver k))) ∧
    ((recordAll moves
      (initResolver k)).materializingStackSlotMoves.map Prod.fst).Nodup := by
  obtain ⟨hwf, hflag, hi3, hi4, hi5, hi6⟩ := recordAll_spec moves hnd
  refine ⟨?_, ?_, ?_⟩
  · intro r n hmat hin
    have hm1 : (MoveSource.constant n, GapLoc.reg r) ∈ moves :=
      (hi5 r n).mp hmat
    obtain ⟨s1, x1, hm2, hg, _⟩ := (hi4 (GapLoc.reg r)).mp hin
    have heq := unique_target hnd hm2 hm1 rfl
    have hsrc : s1 = MoveSource.constant n := by
      have h2 : (s1, GapLoc.reg r).1 = ((MoveSource.constant n,
          GapLoc.reg r) : MoveSource k × GapLoc k).1 := by
        rw [heq]
      exact h2
    rw [hsrc] at hg
    exact nomatch hg
  · intro p hp hin
    rw [hi6] at hp
    obtain ⟨mv1, hmv1, hf1⟩ := List.mem_filterMap.mp hp
    have hmv1eq : mv1 = (MoveSource.constant p.2, GapLoc.slot p.1) :=
      matSlotOf_eq_some (by rw [hf1])
    obtain ⟨s1, x1, hm2, hg, _⟩ := (hi4 (GapLoc.slot p.1)).mp hin
    rw [hmv1eq] at hmv1
    have heq := unique_target hnd hm2 hmv1 rfl
    have hsrc : s1 = MoveSource.constant p.2 := by
      have h2 : ((s1, GapLoc.slot p.1) : MoveSource k × GapLoc k).1 =
          ((MoveSource.constant p.2,
          GapLoc.slot p.1) : MoveSource k × GapLoc k).1 := by
        rw [heq]
      exact h2
    rw [hsrc] at hg
    exact nomatch hg
  · rw [hi6]
    have hkey := nodup_filterMap_key matSlotOf
      (fun p => GapLoc.slot p.1) Prod.snd
      (fun a b hab => by
        obtain ⟨s, n⟩ := b
        rw [matSlotOf_eq_some hab]) moves hnd
    have hmm : (moves.filterMap matSlotOf).map
        (fun p => (GapLoc.slot p.1 : GapLoc k)) =
        ((moves.filterMap matSlotOf).map Prod.fst).map
          (GapLoc.slot : Int → GapLoc k) := by
      rw [List.map_map]
      rfl
    rw [hmm] at hkey
    exact hkey.of_map

/-- C1: for every move set recorded into a ParallelMoveResolver that
satisfies the in-degree at-most-one invariant (each target location is the
destination of at most one recorded move), executing the sequence of moves
emitted by EmitMoves under a sequential interpreter produces exactly the
same final location-to-value mapping as executing all recorded moves
simultaneously, and it restores the native stack. -/
theorem parallelMoveResolver_simultaneous {k : Nat}
    (moves : List (MoveSource k × GapLoc k))
    (hnd : (moves.map Prod.snd).Nodup) :
    (∀ d : GapLoc k,
      ((initMachine k).run (EmitMoves (recordAll moves
        (initResolver k))).1).mem d.toMLoc =
      simultaneousAssignment moves d) ∧
    ((initMachine k).run (EmitMoves (recordAll moves
      (initResolver k))).1).nstack = [] := by
  obtain ⟨hwf, hflag, hi3, hi4, hi5, hi6⟩ := recordAll_spec moves hnd
  obtain ⟨hmdr, hmds, hmdsk⟩ := recorded_hyps moves hnd
  have ep := emitMoves_spec (recordAll moves (initResolver k))
    (initMachine k) hwf hflag hmdr hmds hmdsk
  constructor
  · intro d
    rcases hfind : moves.find? (fun mv => mv.2 = d) with _ | mv
    · have hnone := List.find?_eq_none.mp hfind
      have hnot : ∀ mv ∈ moves, mv.2 ≠ d := by
        intro mv hm he
        have h1 := hnone mv hm
        simp only [decide_eq_true_eq] at h1
        exact h1 he
      have hdn : d ∉ allTargets (recordAll moves (initResolver k)) := by
        intro hin
        obtain ⟨s1, x1, hm, _, _⟩ := (hi4 d).mp hin
        exact hnot (s1, d) hm rfl
      have hmr : ∀ r, d = GapLoc.reg r →
          (recordAll moves (initResolver k)).materializingRegisterMoves r =
          none := by
        intro r hdr
        rcases hmt : (recordAll moves
          (initResolver k)).materializingRegisterMoves r with _ | n
        · rfl
        · exfalso
          have hm := (hi5 r n).mp hmt
          exact hnot (MoveSource.constant n, GapLoc.reg r) hm
            (by rw [hdr])
      have hms2 : ∀ p ∈ (recordAll moves
          (initResolver k)).materializingStackSlotMoves,
          d ≠ GapLoc.slot p.1 := by
        intro p hp hdp
        rw [hi6] at hp
        obtain ⟨mv1, hmv1, hf1⟩ := List.mem_filterMap.mp hp
        have hmv1eq := matSlotOf_eq_some (s := p.1) (n := p.2)
          (by rw [hf1])
        rw [hmv1eq] at hmv1
        exact hnot _ hmv1 hdp.symm
      rw [ep.keep d hdn hmr hms2]
      show SVal.initial d.toMLoc = simultaneousAssignment moves d
      unfold simultaneousAssignment
      rw [hfind]
    · have hmem := List.mem_of_find?_eq_some hfind
      have hmv2 : mv.2 = d := by
        have h1 := List.find?_some hfind
        simpa using h1
      have hsim : simultaneousAssignment moves d = mv.1.value := by
        unfold simultaneousAssignment
        rw [hfind]
      rw [hsim]
      rcases hgap : mv.1.gapOf with _ | xs
      · obtain ⟨msrc, md⟩ := mv
        cases msrc with
        | reg r => exact nomatch hgap
        | slot s => exact nomatch hgap
        | constant n =>
          have hd2 : md = d := hmv2
          cases md with
          | reg r =>
            have hmat := (hi5 r n).mpr hmem
            have h2 := ep.matreg r n hmat
            rw [← hd2]
            exact h2
          | slot s =>
            have hp : ((s, n) : Int × Nat) ∈ (recordAll moves
                (initResolver k)).materializingStackSlotMoves := by
              rw [hi6]
              exact List.mem_filterMap.mpr
                ⟨(MoveSource.constant n, GapLoc.slot s), hmem, rfl⟩
            have h2 := ep.matslot (s, n) hp
            rw [← hd2]
            exact h2
      · have hval : mv.1.value = SVal.initial xs.toMLoc := by
          cases hm1 : mv.1 with
          | reg r =>
            rw [hm1] at hgap
            have hg2 : some (GapLoc.reg r) = some xs := hgap
            injection hg2 with hg3
            rw [← hg3]
            rfl
          | slot s =>
            rw [hm1] at hgap
            have hg2 : some (GapLoc.slot s) = some xs := hgap
            injection hg2 with hg3
            rw [← hg3]
            rfl
          | constant n =>
            rw [hm1] at hgap
            exact nomatch hgap
        by_cases hselfc : d = xs
        · have hdn : d ∉ allTargets (recordAll moves (initResolver k)) := by
            intro hin
            obtain ⟨s1, x1, hm, hg, hne⟩ := (hi4 d).mp hin
            have heq := unique_target hnd hm hmem hmv2.symm
            have hs1 : s1 = mv.1 := by
              have h2 : ((s1, d) : MoveSource k × GapLoc k).1 = mv.1 := by
                rw [heq]
              exact h2
            rw [hs1, hgap] at hg
            injection hg with hg
            apply hne
            rw [hselfc]
            exact hg
          have hmr : ∀ r, d = GapLoc.reg r →
              (recordAll moves (initResolver k)).materializingRegisterMoves
                r = none := by
            intro r hdr
            rcases hmt : (recordAll moves
              (initResolver k)).materializingRegisterMoves r with _ | n
            · rfl
            · exfalso
              have hm := (hi5 r n).mp hmt
              have heq := unique_target hnd hm hmem (by
                show GapLoc.reg r = mv.2
                rw [hmv2, ← hdr])
              have h1 : MoveSource.constant n = mv.1 := by
                have h2 : ((MoveSource.constant n, GapLoc.reg r) :
                    MoveSource k × GapLoc k).1 = mv.1 := by
                  rw [heq]
                exact h2
              rw [← h1] at hgap
              exact nomatch hgap
          have hms2 : ∀ p ∈ (recordAll moves
              (initResolver k)).materializingStackSlotMoves,
              d ≠ GapLoc.slot p.1 := by
            intro p hp hdp
            rw [hi6] at hp
            obtain ⟨mv1, hmv1, hf1⟩ := List.mem_filterMap.mp hp
            have hmv1eq := matSlotOf_eq_some (s := p.1) (n := p.2)
              (by rw [hf1])
            rw [hmv1eq] at hmv1
            have heq := unique_target hnd hmv1 hmem (by
              show GapLoc.slot p.1 = mv.2
              rw [hmv2, ← hdp])
            have h1 : MoveSource.constant p.2 = mv.1 := by
              have h2 : ((MoveSource.constant p.2, GapLoc.slot p.1) :
                  MoveSource k × GapLoc k).1 = mv.1 := by
                rw [heq]
              exact h2
            rw [← h1] at hgap
            exact nomatch hgap
          rw [ep.keep d hdn hmr hms2]
          show SVal.initial d.toMLoc = mv.1.value
          rw [hval, hselfc]
        · have hedge : d ∈ (targetsOf (recordAll moves
              (initResolver k)) xs).asList := by
            apply (hi3 xs d).mpr
            refine ⟨mv.1, ?_, hgap, hselfc⟩
            rw [← hmv2]
            exact hmem
          rw [ep.drain xs d hedge]
          show SVal.initial xs.toMLoc = mv.1.value
          rw [hval]
  · rw [ep.nstack]
    rfl

/-- Witness: the register swap r0 <-> r1 at k = 2 ends with each register
holding the other's initial value and an empty native stack. -/
theorem parallelMoveResolver_simultaneous_witness :
    ((initMachine 2).run (EmitMoves (recordAll
      [(MoveSource.reg 1, GapLoc.reg 0), (MoveSource.reg 0, GapLoc.reg 1)]
      (initResolver 2))).1).mem (MLoc.reg 0) =
      SVal.initial (MLoc.reg 1) ∧
    ((initMachine 2).run (EmitMoves (recordAll
      [(MoveSource.reg 1, GapLoc.reg 0), (MoveSource.reg 0, GapLoc.reg 1)]
      (initResolver 2))).1).mem (MLoc.reg 1) =
      SVal.initial (MLoc.reg 0) ∧
    ((initMachine 2).run (EmitMoves (recordAll
      [(MoveSource.reg 1, GapLoc.reg 0), (MoveSource.reg 0, GapLoc.reg 1)]
      (initResolver 2))).1).nstack = [] := by
  obtain ⟨h1, h2⟩ := parallelMoveResolver_simultaneous (k := 2)
    [(MoveSource.reg 1, GapLoc.reg 0), (MoveSource.reg 0, GapLoc.reg 1)]
    (by decide)
  exact ⟨(h1 (GapLoc.reg 0)).trans (by decide),
    (h1 (GapLoc.reg 1)).trans (by decide), h2⟩

/-- C2: for every move set satisfying the in-degree at-most-one invariant,
at every point of the emitted sequence the native stack holds at most one
spilled temporary (the saved scratch content), only the scratch register is
ever pushed or popped, and the stack is empty again at the end. -/
theorem parallelMoveResolver_scratch_discipline {k : Nat}
    (moves : List (MoveSource k × GapLoc k))
    (hnd : (moves.map Prod.snd).Nodup) :
    (∀ c1 c2, (EmitMoves (recordAll moves (initResolver k))).1 =
        c1 ++ c2 →
      ((initMachine k).run c1).nstack = [] ∨
      ∃ w, ((initMachine k).run c1).nstack = [w]) ∧
    (∀ l, Instr.push l ∈ (EmitMoves (recordAll moves
      (initResolver k))).1 → l = MLoc.scratch) ∧
    (∀ l, Instr.pop l ∈ (EmitMoves (recordAll moves
      (initResolver k))).1 → l = MLoc.scratch) ∧
    ((initMachine k).run (EmitMoves (recordAll moves
      (initResolver k))).1).nstack = [] := by
  obtain ⟨hwf, hflag, hi3, hi4, hi5, hi6⟩ := recordAll_spec moves hnd
  obtain ⟨hmdr, hmds, hmdsk⟩ := recorded_hyps moves hnd
  have ep := emitMoves_spec (recordAll moves (initResolver k))
    (initMachine k) hwf hflag hmdr hmds hmdsk
  refine ⟨?_, ep.pushscr, ep.popscr, ?_⟩
  · intro c1 c2 heq
    have h1 := ep.stack c1 c2 heq
    exact h1
  · rw [ep.nstack]
    rfl

/-- Witness: the slot cycle [0] <-> [8] at k = 1 spills the scratch
register: after the first three instructions the native stack holds the
saved initial value of slot 0; the full run pushes and pops only the
scratch register and ends with an empty stack. -/
theorem parallelMoveResolver_scratch_discipline_witness :
    ((initMachine 1).run ((EmitMoves (recordAll
      [((MoveSource.slot 0 : MoveSource 1), GapLoc.slot 8),
        (MoveSource.slot 8, GapLoc.slot 0)]
      (initResolver 1))).1.take 3)).nstack =
      [SVal.initial (MLoc.slot 0)] ∧
    (∀ l, Instr.pop l ∈ (EmitMoves (recordAll
      [((MoveSource.slot 0 : MoveSource 1), GapLoc.slot 8),
        (MoveSource.slot 8, GapLoc.slot 0)]
      (initResolver 1))).1 → l = MLoc.scratch) ∧
    ((initMachine 1).run (EmitMoves (recordAll
      [((MoveSource.slot 0 : MoveSource 1), GapLoc.slot 8),
        (MoveSource.slot 8, GapLoc.slot 0)]
      (initResolver 1))).1).nstack = [] := by
  obtain ⟨hb, hpush, hpop, hfin⟩ :=
    parallelMoveResolver_scratch_discipline (k := 1)
      [((MoveSource.slot 0 : MoveSource 1), GapLoc.slot 8),
        (MoveSource.slot 8, GapLoc.slot 0)] (by decide)
  have hcode : (EmitMoves (recordAll
      [((MoveSource.slot 0 : MoveSource 1), GapLoc.slot 8),
        (MoveSource.slot 8, GapLoc.slot 0)]
      (initResolver 1))).1 =
      [Instr.mov MLoc.scratch (MLoc.slot 0), Instr.push MLoc.scratch,
        Instr.mov MLoc.scratch (MLoc.slot 8),
        Instr.mov (MLoc.slot 0) MLoc.scratch, Instr.pop MLoc.scratch,
        Instr.mov (MLoc.slot 8) MLoc.scratch] := by
    simp [EmitMoves, emitRegisterPhase, emitSlotPhase,
      emitStackMaterializations, StartEmitMoveChain, ContinueEmitMoveChain,
      EmitChainTargets, EmitMovesFromSource, EmitMovesFromSlotSource,
      EmitMovesFromRegSource, PopTargets, targetsOf, lookupSlot,
      updateSlotMap, recordAll, RecordMove, RecordMoveToRegister,
      RecordMoveToStackSlot, initResolver, edgeCount, GapMoveTargets.empty,
      GapMoveTargets.isEmpty, GapMoveTargets.asList, GapMoveTargets.count,
      insertReg, allTargets, List.finRange, Function.update,
      GapLoc.toMLoc]
  refine ⟨?_, hpop, hfin⟩
  rw [hcode]
  decide

/-- The spec-claimed ordering: every materializing move comes after every
location-to-location move of the emitted sequence. -/
def MaterializingAfterGraphMoves {k : Nat} (code : List (Instr k)) : Prop :=
  ∀ pre l n post, code = pre ++ Instr.materialize l n :: post →
    ∀ d s, Instr.mov d s ∉ post

/-- Counterexample to C3 as stated: recording the constant 7 into register
0 and register 1 into stack slot 0 emits the register materialization
before the graph move, because register materializations are interleaved
with the register chain loop. -/
theorem parallelMoveResolver_materializing_not_last :
    ¬ MaterializingAfterGraphMoves ((EmitMoves (recordAll
      [((MoveSource.constant 7 : MoveSource 2), GapLoc.reg 0),
        (MoveSource.reg 1, GapLoc.slot 0)]
      (initResolver 2))).1) := by
  intro h
  have hcode : (EmitMoves (recordAll
      [((MoveSource.constant 7 : MoveSource 2), GapLoc.reg 0),
        (MoveSource.reg 1, GapLoc.slot 0)]
      (initResolver 2))).1 =
      [Instr.materialize (MLoc.reg 0) 7,
        Instr.mov (MLoc.slot 0) (MLoc.reg 1)] := by
    simp [EmitMoves, emitRegisterPhase, emitSlotPhase,
      emitStackMaterializations, StartEmitMoveChain, ContinueEmitMoveChain,
      EmitChainTargets, EmitMovesFromSource, EmitMovesFromSlotSource,
      EmitMovesFromRegSource, PopTargets, targetsOf, lookupSlot,
      updateSlotMap, recordAll, RecordMove, RecordMoveToRegister,
      RecordMoveToStackSlot, initResolver, edgeCount, GapMoveTargets.empty,
      GapMoveTargets.isEmpty, GapMoveTargets.asList, GapMoveTargets.count,
      insertReg, allTargets, List.finRange, Function.update,
      GapLoc.toMLoc]
  exact h [] (MLoc.reg 0) 7 [Instr.mov (MLoc.slot 0) (MLoc.reg 1)] hcode
    (MLoc.slot 0) (MLoc.reg 1) (List.mem_singleton.mpr rfl)

/-- C3 (corrected): in the output of EmitMoves the materializing
stack-slot moves form the final segment of the sequence, after every graph
move; materializing register moves target only registers and, while they
may precede later graph moves, each one is emitted only after every move
reading its target register. -/
theorem parallelMoveResolver_materialization_order {k : Nat}
    (moves : List (MoveSource k × GapLoc k))
    (hnd : (moves.map Prod.snd).Nodup) :
    (∃ body, (EmitMoves (recordAll moves (initResolver k))).1 =
        body ++ emitStackMaterializations
          (recordAll moves (initResolver k)).materializingStackSlotMoves ∧
      ∀ l n, Instr.materialize l n ∈ body → ∃ r, l = MLoc.reg r) ∧
    (∀ r n, (recordAll moves
        (initResolver k)).materializingRegisterMoves r = some n →
      ∃ pre post, (EmitMoves (recordAll moves (initResolver k))).1 =
        pre ++ Instr.materialize (MLoc.reg r) n :: post ∧
        ∀ d, Instr.mov d (MLoc.reg r) ∉ post) := by
  obtain ⟨hwf, hflag, hi3, hi4, hi5, hi6⟩ := recordAll_spec moves hnd
  obtain ⟨hmdr, hmds, hmdsk⟩ := recorded_hyps moves hnd
  have ep := emitMoves_spec (recordAll moves (initResolver k))
    (initMachine k) hwf hflag hmdr hmds hmdsk
  exact ⟨ep.split, ep.matorder⟩

/-- Witness: for the counterexample move set the corrected ordering holds:
the code splits into a body followed by the (here empty) stack-slot
materializations, the body's only materialization targets register 0, and
the materialization of 7 into register 0 is followed by no move reading
register 0. -/
theorem parallelMoveResolver_materialization_order_witness :
    (∃ body, (EmitMoves (recordAll
      [((MoveSource.constant 7 : MoveSource 2), GapLoc.reg 0),
        (MoveSource.reg 1, GapLoc.slot 0)]
      (initResolver 2))).1 =
        body ++ emitStackMaterializations
          (recordAll
            [((MoveSource.constant 7 : MoveSource 2), GapLoc.reg 0),
              (MoveSource.reg 1, GapLoc.slot 0)]
            (initResolver 2)).materializingStackSlotMoves ∧
      ∀ l n, Instr.materialize l n ∈ body → ∃ r, l = MLoc.reg r) ∧
    (∀ r n, (recordAll
        [((MoveSource.constant 7 : MoveSource 2), GapLoc.reg 0),
          (MoveSource.reg 1, GapLoc.slot 0)]
        (initResolver 2)).materializingRegisterMoves r = some n →
      ∃ pre post, (EmitMoves (recordAll
        [((MoveSource.constant 7 : MoveSource 2), GapLoc.reg 0),
          (MoveSource.reg 1, GapLoc.slot 0)]
        (initResolver 2))).1 =
        pre ++ Instr.materialize (MLoc.reg r) n :: post ∧
        ∀ d, Instr.mov d (MLoc.reg r) ∉ post) :=
  parallelMoveResolver_materialization_order (k := 2)
    [((MoveSource.constant 7 : MoveSource 2), GapLoc.reg 0),
      (MoveSource.reg 1, GapLoc.slot 0)] (by decide)

/-- C10: recording a self-move is a no-op: the resolver state is unchanged,
so the emitted sequence is identical to the one for the move set without
the self-move. -/
theorem recordMove_selfMove_noop {k : Nat}
    (l1 l2 : List (MoveSource k × GapLoc k))
    (mv : MoveSource k × GapLoc k) (hself : isSelfMove mv = true)
    (st : ResolverState k) :
    recordAll (l1 ++ mv :: l2) st = recordAll (l1 ++ l2) st ∧
    EmitMoves (recordAll (l1 ++ mv :: l2) st) =
      EmitMoves (recordAll (l1 ++ l2) st) := by
  have hsrc := (isSelfMove_iff mv).mp hself
  have h1 : recordAll (l1 ++ mv :: l2) st = recordAll (l1 ++ l2) st := by
    rw [show l1 ++ mv :: l2 = l1 ++ [mv] ++ l2 from by simp,
      recordAll_append, recordAll_append, recordAll_append]
    have h2 : recordAll [mv] (recordAll l1 st) = recordAll l1 st := by
      show RecordMove (recordAll l1 st) mv.1 mv.2 = recordAll l1 st
      exact recordMove_self _ hsrc
    rw [h2]
  exact ⟨h1, by rw [h1]⟩

/-- Witness: recording the self-move r0 to r0 after the move r1 to r0
leaves both the resolver and the emitted code of the two-element set equal
to those of the single-move set. -/
theorem recordMove_selfMove_noop_witness :
    recordAll ([((MoveSource.reg 1 : MoveSource 2), GapLoc.reg 0)] ++
        (MoveSource.reg 0, GapLoc.reg 0) :: []) (initResolver 2) =
      recordAll ([((MoveSource.reg 1 : MoveSource 2), GapLoc.reg 0)] ++ [])
        (initResolver 2) ∧
    EmitMoves (recordAll
        ([((MoveSource.reg 1 : MoveSource 2), GapLoc.reg 0)] ++
          (MoveSource.reg 0, GapLoc.reg 0) :: []) (initResolver 2)) =
      EmitMoves (recordAll
        ([((MoveSource.reg 1 : MoveSource 2), GapLoc.reg 0)] ++ [])
        (initResolver 2)) :=
  recordMove_selfMove_noop (k := 2)
    [((MoveSource.reg 1 : MoveSource 2), GapLoc.reg 0)] []
    (MoveSource.reg 0, GapLoc.reg 0) (by decide) (initResolver 2)

end V8Backend
